import Mathlib

set_option maxHeartbeats 1000000
set_option maxRecDepth 8000

/-!
Shallow embedding, in Lean 4, of the Excel bulk-synchronization codec of the
GTM_projects repository (`backend/app/exporters.py`) together with the domain
model it imports from `backend/app/models.py`, followed by theorems settling
the frozen claims about that code.

Modelling conventions:
* Python strings are `List Char` (`PyStr`); `str.strip`, `str.lower`, `str.split`
  and friends are defined below, with `lower`/`upper` covering the ASCII and
  Cyrillic ranges that actually occur in the module's string tables.
* Spreadsheet cell values (what `openpyxl` hands to `iter_rows(values_only=True)`
  and what `sheet.append` receives) are the inductive `Cell`; a sheet is a list
  of rows of cells, row 1 being the header.  Reading `row[i]` past the stored
  width yields `None`, as openpyxl pads short rows to the sheet's width.
* Python `float` is `PyFloatVal`: finite values are exact scaled decimals
  `num / 10 ^ scale` in canonical (minimal-scale) form, plus
  `inf`/`-inf`/`nan`.  Decimal-literal parsing is modelled exactly; binary
  rounding of doubles and numeric-literal underscores are not modelled
  (no claim depends on them).
* Fallible Python code runs in `Except PyExn`; an uncaught exception
  (`TypeError` from subscripting with `None`, `AttributeError` from a missing
  enum member, a pydantic `ValidationError`, ...) is `Except.error`.
* `uuid4()` is modelled by a fresh-counter argument; identity fields that the
  code never reads (checklist items, subtasks, comments) are elided.
* Python `list.sort`/`sorted` are stable; they are modelled by
  `List.insertionSort`, which is stable and kernel-reducible.
-/

namespace GTM

/-- Python strings, modelled as lists of unicode scalar values. -/
abbrev PyStr := List Char

/-- The character list of a Lean string literal. -/
def S (s : String) : PyStr := s.data

/-- `str.isspace`-style whitespace recognized by `str.strip()` (ASCII part). -/
def pyIsSpace (c : Char) : Bool :=
  c == ' ' || c == '\t' || c == '\n' || c == '\x0d' || c == '\x0b' || c == '\x0c'

/-- Python `str.strip()`. -/
def pyStrip (s : PyStr) : PyStr :=
  ((s.dropWhile pyIsSpace).reverse.dropWhile pyIsSpace).reverse

/-- Python `str.lower()` on one character, for the ASCII and Cyrillic ranges
    (`А`–`Я` and `Ё`) that occur in the module's alias tables and headers. -/
def pyLowerChar (c : Char) : Char :=
  if 'A' ≤ c && c ≤ 'Z' then Char.ofNat (c.toNat + 32)
  else if 0x410 ≤ c.toNat && c.toNat ≤ 0x42F then Char.ofNat (c.toNat + 0x20)
  else if c.toNat == 0x401 then Char.ofNat 0x451
  else c

/-- Python `str.upper()` on one character (inverse ranges of `pyLowerChar`). -/
def pyUpperChar (c : Char) : Char :=
  if 'a' ≤ c && c ≤ 'z' then Char.ofNat (c.toNat - 32)
  else if 0x430 ≤ c.toNat && c.toNat ≤ 0x44F then Char.ofNat (c.toNat - 0x20)
  else if c.toNat == 0x451 then Char.ofNat 0x401
  else c

/-- Python `str.lower()`. -/
def pyLower (s : PyStr) : PyStr := s.map pyLowerChar

/-- Python `str.upper()`. -/
def pyUpper (s : PyStr) : PyStr := s.map pyUpperChar

/-- The pervasive helper `normalize(value) = value.strip().lower()`. -/
def pyNormalize (s : PyStr) : PyStr := pyLower (pyStrip s)

/-- Worker for `pySplit`. -/
def pySplitAux (sep : Char) : PyStr → PyStr → List PyStr
  | [], acc => [acc.reverse]
  | c :: rest, acc =>
      if c == sep then acc.reverse :: pySplitAux sep rest []
      else pySplitAux sep rest (c :: acc)

/-- Python `str.split(sep)` for a one-character separator
    (`"".split(";") == [""]`, matching Python). -/
def pySplit (sep : Char) (s : PyStr) : List PyStr := pySplitAux sep s []

/-- Python `str.startswith(pre)`. -/
def pyStarts (pre s : PyStr) : Bool := pre.isPrefixOf s

/-- Lexicographic `<` on strings by code point, as Python compares `str`. -/
def pyStrLt : PyStr → PyStr → Bool
  | [], [] => false
  | [], _ :: _ => true
  | _ :: _, [] => false
  | a :: as_, b :: bs => if a = b then pyStrLt as_ bs else decide (a < b)

/-- Lexicographic `≤` on strings by code point. -/
def pyStrLe (a b : PyStr) : Bool := a == b || pyStrLt a b

/-- Python `sep.join(parts)`. -/
def pyJoin (sep : PyStr) : List PyStr → PyStr
  | [] => []
  | [x] => x
  | x :: xs => x ++ sep ++ pyJoin sep xs

/-- The character of a decimal digit. -/
def digitChar (d : Nat) : Char := Char.ofNat (48 + d % 10)

/-- Fuelled decimal rendering worker (structural recursion so that the kernel
    can evaluate it). -/
def natCharsFuel : Nat → Nat → PyStr
  | 0, _ => []
  | fuel + 1, n =>
      if n < 10 then [digitChar n]
      else natCharsFuel fuel (n / 10) ++ [digitChar (n % 10)]

/-- Python `str(n)` for a non-negative integer. -/
def natChars (n : Nat) : PyStr := natCharsFuel (n + 1) n

/-- Python `str(n)` for an integer. -/
def intChars (n : Int) : PyStr :=
  if n < 0 then '-' :: natChars (-n).toNat else natChars n.toNat

/-- Is the character an ASCII decimal digit? -/
def isDigitCh (c : Char) : Bool := '0' ≤ c && c ≤ '9'

/-- Numeric value of a digit character. -/
def digitVal (c : Char) : Nat := c.toNat - 48

/-- Decode a digit string back to the number it denotes. -/
def decodeDigits (s : PyStr) : Nat := s.foldl (fun a c => 10 * a + digitVal c) 0

/-- Python `int(s)` on a string: strip, optional sign, one or more digits
    (numeric-literal underscores are not modelled). -/
def parseIntChars (s : PyStr) : Option Int :=
  let t := pyStrip s
  match t with
  | '-' :: ds => if ds ≠ [] && ds.all isDigitCh then some (-(decodeDigits ds : Int)) else Option.none
  | '+' :: ds => if ds ≠ [] && ds.all isDigitCh then some (decodeDigits ds : Int) else Option.none
  | ds => if ds ≠ [] && ds.all isDigitCh then some (decodeDigits ds : Int) else Option.none

/-- A Python `datetime.date`. -/
structure PyDate where
  year : Nat
  month : Nat
  day : Nat
deriving DecidableEq, Repr, Inhabited

/-- Sort key matching Python's ordering of valid dates. -/
def PyDate.key (d : PyDate) : Nat := d.year * 10000 + d.month * 100 + d.day

/-- `datetime.date.max` = 9999-12-31. -/
def pyDateMax : PyDate := ⟨9999, 12, 31⟩

/-- A Python `datetime.datetime` (microseconds elided; nothing reads them). -/
structure PyDateTime where
  year : Nat
  month : Nat
  day : Nat
  hour : Nat
  minute : Nat
  second : Nat
deriving DecidableEq, Repr, Inhabited

/-- Zero-padded two-digit rendering. -/
def pad2 (n : Nat) : PyStr := if n < 10 then '0' :: natChars n else natChars n

/-- Zero-padded four-digit rendering. -/
def pad4 (n : Nat) : PyStr :=
  List.replicate (4 - (natChars n).length) '0' ++ natChars n

/-- Python `str(date)` / `date.isoformat()`: `YYYY-MM-DD`. -/
def dateChars (d : PyDate) : PyStr :=
  pad4 d.year ++ '-' :: (pad2 d.month ++ '-' :: pad2 d.day)

/-- Python `datetime.isoformat()`: `YYYY-MM-DDTHH:MM:SS`. -/
def datetimeIsoChars (t : PyDateTime) : PyStr :=
  dateChars ⟨t.year, t.month, t.day⟩ ++ 'T' :: (pad2 t.hour ++ ':' :: (pad2 t.minute ++ ':' :: pad2 t.second))

/-- Python `str(datetime)`: `YYYY-MM-DD HH:MM:SS`. -/
def datetimeStrChars (t : PyDateTime) : PyStr :=
  dateChars ⟨t.year, t.month, t.day⟩ ++ ' ' :: (pad2 t.hour ++ ':' :: (pad2 t.minute ++ ':' :: pad2 t.second))

/-- Strip factors of ten shared by the numerator and the decimal scale
    (worker with structural fuel). -/
def canonDecAux : Nat → Int → Nat → Int × Nat
  | 0, n, k => (n, k)
  | fuel + 1, n, k =>
      if k == 0 then (n, k)
      else if n % 10 == 0 then canonDecAux fuel (n / 10) (k - 1)
      else (n, k)

/-- Canonical scaled-decimal form of `n / 10 ^ k`: divide out trailing
    factors of ten so the scale is minimal. -/
def canonDec (n : Int) (k : Nat) : Int × Nat := canonDecAux k n k

/-- A Python `float`: finite values are the exact scaled decimals
    `num / 10 ^ scale` in canonical form (decimal-literal parsing is modelled
    exactly; binary rounding of doubles is not), plus the specials. -/
inductive PyFloatVal where
  | fin (num : Int) (scale : Nat)
  | inf
  | ninf
  | nan
deriving DecidableEq, Repr

/-- Build a finite float value in canonical form. -/
def PyFloatVal.mkFin (n : Int) (k : Nat) : PyFloatVal :=
  let c := canonDec n k
  .fin c.1 c.2

/-- The rational value of a float (for stating theorems about parsed values). -/
def PyFloatVal.toRat : PyFloatVal → ℚ
  | .fin n k => (n : ℚ) / 10 ^ k
  | _ => 0

/-- `float.is_integer()` on a canonical finite value. -/
def PyFloatVal.isInteger : PyFloatVal → Bool
  | .fin _ 0 => true
  | _ => false

/-- `int(x)` on a finite float value: truncation toward zero
    (`Int.tdiv`, matching Python's `int(float)`). -/
def PyFloatVal.trunc : PyFloatVal → Int
  | .fin n k => Int.tdiv n (10 ^ k : Int)
  | _ => 0

/-- Python `repr`/`str` of a float.  Exact for canonical scaled decimals (the
    only finite floats the embedded code ever renders). -/
def floatChars (v : PyFloatVal) : PyStr :=
  match v with
  | .inf => S "inf"
  | .ninf => S "-inf"
  | .nan => S "nan"
  | .fin n k =>
      if k == 0 then intChars n ++ S ".0"
      else
        let frac := n.natAbs % 10 ^ k
        let fracDigits := List.replicate (k - (natChars frac).length) '0' ++ natChars frac
        (if n < 0 then ['-'] else []) ++ natChars (n.natAbs / 10 ^ k) ++ '.' :: fracDigits

/-- A spreadsheet cell value as seen through openpyxl. -/
inductive Cell where
  | none
  | str (s : PyStr)
  | int (n : Int)
  | float (v : PyFloatVal)
  | bool (b : Bool)
  | date (d : PyDate)
  | datetime (t : PyDateTime)
deriving DecidableEq, Repr, Inhabited

/-- Python truthiness of a cell value. -/
def cellTruthy : Cell → Bool
  | .none => false
  | .str s => s ≠ []
  | .int n => n ≠ 0
  | .float (.fin n _) => n ≠ 0
  | .float _ => true
  | .bool b => b
  | .date _ => true
  | .datetime _ => true

/-- Python `str(x)` on a cell value. -/
def cellToStr : Cell → PyStr
  | .none => S "None"
  | .str s => s
  | .int n => intChars n
  | .float v => floatChars v
  | .bool b => if b then S "True" else S "False"
  | .date d => dateChars d
  | .datetime t => datetimeStrChars t

/-- Python `x in (None, "")` for a cell (equality, but no cell other than
    `None` itself equals `None` and only the empty string equals `""`). -/
def cellIsNoneOrEmpty (c : Cell) : Bool := c == Cell.none || c == Cell.str []

instance {ε α : Type} [DecidableEq ε] [DecidableEq α] : DecidableEq (Except ε α) := fun x y =>
  match x, y with
  | .error a, .error b =>
      if h : a = b then .isTrue (by rw [h]) else .isFalse (fun hh => h (Except.error.inj hh))
  | .ok a, .ok b =>
      if h : a = b then .isTrue (by rw [h]) else .isFalse (fun hh => h (Except.ok.inj hh))
  | .error _, .ok _ => .isFalse (fun hh => Except.noConfusion hh)
  | .ok _, .error _ => .isFalse (fun hh => Except.noConfusion hh)

/-- Exceptions that the embedded code can raise (collapsed to their class). -/
inductive PyExn where
  | typeError
  | valueError
  | attributeError
  | unboundLocalError
  | validationError
deriving DecidableEq, Repr

/-- Python `int(x)` on a cell value.  `int` of a string parses an integer
    literal, of a float truncates toward zero, of `None`/dates raises
    `TypeError`, of a non-numeric string raises `ValueError`. -/
def pyIntOfCell : Cell → Except PyExn Int
  | .int n => .ok n
  | .bool b => .ok (if b then 1 else 0)
  | .float (.fin n k) => .ok (PyFloatVal.trunc (.fin n k))
  | .float _ => .error .valueError
  | .str s =>
      match parseIntChars s with
      | some n => .ok n
      | Option.none => .error .valueError
  | .none => .error .typeError
  | .date _ => .error .typeError
  | .datetime _ => .error .typeError

/-- Split a digit run from the front of a string. -/
def takeDigits (s : PyStr) : PyStr × PyStr :=
  (s.takeWhile isDigitCh, s.dropWhile isDigitCh)

/-- Parse the unsigned mantissa-and-exponent part of a Python float literal:
    `digits [. digits] [e [sign] digits]` (at least one digit around the
    point), returning the value as an unsigned scaled decimal
    `(mantissa, scale)` denoting `mantissa / 10 ^ scale`. -/
def parseFloatBody (s : PyStr) : Option (Nat × Nat) :=
  let (whole, rest) := takeDigits s
  let (fracPart, rest2) :=
    match rest with
    | '.' :: r => let (fr, r2) := takeDigits r; (some fr, r2)
    | r => (Option.none, r)
  let mantissa : Option (Nat × Nat) :=
    match fracPart with
    | Option.none => if whole = [] then Option.none else some (decodeDigits whole, 0)
    | some fr =>
        if whole = [] && fr = [] then Option.none
        else some (decodeDigits (whole ++ fr), fr.length)
  match mantissa with
  | Option.none => Option.none
  | some (m, k) =>
      match rest2 with
      | [] => some (m, k)
      | e :: r =>
          if e == 'e' || e == 'E' then
            let (sgn, digs) :=
              match r with
              | '-' :: d => ((-1 : Int), d)
              | '+' :: d => ((1 : Int), d)
              | d => ((1 : Int), d)
            if digs ≠ [] && digs.all isDigitCh then
              let ex := decodeDigits digs
              some (if sgn < 0 then (m, k + ex) else (m * 10 ^ ex, k))
            else Option.none
          else Option.none

/-- Python `float(s)` on a string: strip, optional sign, then either a decimal
    literal or `inf`/`infinity`/`nan` (case-insensitively).  Numeric-literal
    underscores and binary rounding of doubles are not modelled. -/
def pyFloatOfChars (s : PyStr) : Option PyFloatVal :=
  let t := pyStrip s
  let (neg, body) :=
    match t with
    | '-' :: r => (true, r)
    | '+' :: r => (false, r)
    | r => (false, r)
  let low := pyLower body
  if low = S "inf" || low = S "infinity" then some (if neg then .ninf else .inf)
  else if low = S "nan" then some .nan
  else
    match parseFloatBody body with
    | some (m, k) => some (PyFloatVal.mkFin (if neg then -(m : Int) else (m : Int)) k)
    | Option.none => Option.none

/-- Parse exactly `YYYY-MM-DD` with basic range validation, modelling
    `datetime.date.fromisoformat` (the extended forms accepted by newer
    Pythons are not needed by any claim). -/
def parseIsoDateChars (s : PyStr) : Option PyDate :=
  match s with
  | [y1, y2, y3, y4, '-', m1, m2, '-', d1, d2] =>
      if [y1, y2, y3, y4, m1, m2, d1, d2].all isDigitCh then
        let y := decodeDigits [y1, y2, y3, y4]
        let m := decodeDigits [m1, m2]
        let d := decodeDigits [d1, d2]
        if 1 ≤ m && m ≤ 12 && 1 ≤ d && d ≤ 31 then some ⟨y, m, d⟩ else Option.none
      else Option.none
  | _ => Option.none

/-- Parse `HH:MM[:SS]` with range validation. -/
def parseIsoTimeChars (s : PyStr) : Option (Nat × Nat × Nat) :=
  match s with
  | [h1, h2, ':', m1, m2] =>
      if [h1, h2, m1, m2].all isDigitCh then
        let h := decodeDigits [h1, h2]
        let mi := decodeDigits [m1, m2]
        if h ≤ 23 && mi ≤ 59 then some (h, mi, 0) else Option.none
      else Option.none
  | [h1, h2, ':', m1, m2, ':', s1, s2] =>
      if [h1, h2, m1, m2, s1, s2].all isDigitCh then
        let h := decodeDigits [h1, h2]
        let mi := decodeDigits [m1, m2]
        let sec := decodeDigits [s1, s2]
        if h ≤ 23 && mi ≤ 59 && sec ≤ 59 then some (h, mi, sec) else Option.none
      else Option.none
  | _ => Option.none

/-- Parse `YYYY-MM-DD[<T or space>HH:MM[:SS]]`, modelling
    `datetime.datetime.fromisoformat`. -/
def parseIsoDateTimeChars (s : PyStr) : Option PyDateTime :=
  match parseIsoDateChars (s.take 10) with
  | Option.none => Option.none
  | some d =>
      match s.drop 10 with
      | [] => some ⟨d.year, d.month, d.day, 0, 0, 0⟩
      | sep :: rest =>
          if sep == 'T' || sep == ' ' then
            match parseIsoTimeChars rest with
            | some (h, mi, sec) => some ⟨d.year, d.month, d.day, h, mi, sec⟩
            | Option.none => Option.none
          else Option.none

/-- First-match association-list lookup (Python `dict.get` over dicts whose
    keys are unique by construction). -/
def alook {κ α : Type} [DecidableEq κ] : List (κ × α) → κ → Option α
  | [], _ => Option.none
  | (k', v) :: rest, k => if k = k' then some v else alook rest k

/-- Python `dict` insertion: update in place if the key exists (keeping its
    position), else append. -/
def dinsert {κ α : Type} [DecidableEq κ] : List (κ × α) → κ → α → List (κ × α)
  | [], k, v => [(k, v)]
  | (k', v') :: rest, k, v =>
      if k = k' then (k, v) :: rest else (k', v') :: dinsert rest k v

/-- Build a Python dict from a pair list (last occurrence of a key wins,
    iteration order is first-insertion order). -/
def dictOf {κ α : Type} [DecidableEq κ] (l : List (κ × α)) : List (κ × α) :=
  l.foldl (fun m p => dinsert m p.1 p.2) []

/-- Update the element at a position of a list (Python mutation of a list
    element through an aliasing reference). -/
def listModify {α : Type} : List α → Nat → (α → α) → List α
  | [], _, _ => []
  | a :: rest, 0, f => f a :: rest
  | a :: rest, n + 1, f => a :: listModify rest n f

/-! ### Enumerations of `backend/app/models.py` and the module's alias tables -/

/-- `models.ProjectStatus` — the enum defines only these three members. -/
inductive ProjectStatus where
  | ACTIVE
  | CLOSED
  | ARCHIVED
deriving DecidableEq, Repr, Inhabited

/-- `.value` of a `ProjectStatus` member. -/
def ProjectStatus.value : ProjectStatus → PyStr
  | .ACTIVE => S "active"
  | .CLOSED => S "closed"
  | .ARCHIVED => S "archived"

/-- `ProjectStatus.__members__.get(name)` — also the resolver for an attribute
    reference `ProjectStatus.<name>`, which raises `AttributeError` when the
    lookup fails. -/
def ProjectStatus.memberGet (n : PyStr) : Option ProjectStatus :=
  alook [(S "ACTIVE", ProjectStatus.ACTIVE), (S "CLOSED", ProjectStatus.CLOSED),
         (S "ARCHIVED", ProjectStatus.ARCHIVED)] n

/-- `models.StageStatus`. -/
inductive StageStatus where
  | NOT_STARTED
  | IN_PROGRESS
  | DONE
  | CANCELLED
deriving DecidableEq, Repr, Inhabited

/-- `.value` of a `StageStatus` member. -/
def StageStatus.value : StageStatus → PyStr
  | .NOT_STARTED => S "not_started"
  | .IN_PROGRESS => S "in_progress"
  | .DONE => S "done"
  | .CANCELLED => S "cancelled"

/-- `StageStatus.__members__.get(name)`. -/
def StageStatus.memberGet (n : PyStr) : Option StageStatus :=
  alook [(S "NOT_STARTED", StageStatus.NOT_STARTED), (S "IN_PROGRESS", StageStatus.IN_PROGRESS),
         (S "DONE", StageStatus.DONE), (S "CANCELLED", StageStatus.CANCELLED)] n

/-- `models.TaskStatus`. -/
inductive TaskStatus where
  | TODO
  | IN_PROGRESS
  | DONE
deriving DecidableEq, Repr, Inhabited

/-- `.value` of a `TaskStatus` member. -/
def TaskStatus.value : TaskStatus → PyStr
  | .TODO => S "todo"
  | .IN_PROGRESS => S "in_progress"
  | .DONE => S "done"

/-- `TaskStatus.__members__.get(name)`. -/
def TaskStatus.memberGet (n : PyStr) : Option TaskStatus :=
  alook [(S "TODO", TaskStatus.TODO), (S "IN_PROGRESS", TaskStatus.IN_PROGRESS),
         (S "DONE", TaskStatus.DONE)] n

/-- `models.TaskUrgency`. -/
inductive TaskUrgency where
  | NORMAL
  | HIGH
deriving DecidableEq, Repr, Inhabited

/-- `.value` of a `TaskUrgency` member. -/
def TaskUrgency.value : TaskUrgency → PyStr
  | .NORMAL => S "normal"
  | .HIGH => S "high"

/-- `models.PriorityLevel`. -/
inductive PriorityLevel where
  | LOW
  | MEDIUM
  | HIGH
deriving DecidableEq, Repr, Inhabited

/-- `.value` of a `PriorityLevel` member. -/
def PriorityLevel.value : PriorityLevel → PyStr
  | .LOW => S "low"
  | .MEDIUM => S "medium"
  | .HIGH => S "high"

/-- `PriorityLevel.__members__.get(name)`. -/
def PriorityLevel.memberGet (n : PyStr) : Option PriorityLevel :=
  alook [(S "LOW", PriorityLevel.LOW), (S "MEDIUM", PriorityLevel.MEDIUM),
         (S "HIGH", PriorityLevel.HIGH)] n

/-- `models.FieldType`. -/
inductive FieldType where
  | TEXT
  | NUMBER
  | SELECT
  | CHECKBOX
  | OTHER
deriving DecidableEq, Repr, Inhabited

/-- `.value` of a `FieldType` member. -/
def FieldType.value : FieldType → PyStr
  | .TEXT => S "text"
  | .NUMBER => S "number"
  | .SELECT => S "select"
  | .CHECKBOX => S "checkbox"
  | .OTHER => S "other"

/-- `exporters.STATUS_ALIASES` (stage statuses; every referenced member exists). -/
def STATUS_ALIASES : List (PyStr × StageStatus) :=
  [(S "не начат", .NOT_STARTED), (S "not started", .NOT_STARTED),
   (S "в работе", .IN_PROGRESS), (S "in progress", .IN_PROGRESS),
   (S "done", .DONE), (S "завершен", .DONE), (S "завершён", .DONE),
   (S "отменен", .CANCELLED), (S "отменён", .CANCELLED), (S "cancelled", .CANCELLED)]

/-- `exporters.TASK_STATUS_ALIASES`. -/
def TASK_STATUS_ALIASES : List (PyStr × TaskStatus) :=
  [(S "todo", .TODO), (S "to do", .TODO),
   (S "в работе", .IN_PROGRESS), (S "in progress", .IN_PROGRESS), (S "делается", .IN_PROGRESS),
   (S "done", .DONE), (S "сделано", .DONE), (S "готово", .DONE)]

/-- `exporters.URGENCY_ALIASES`. -/
def URGENCY_ALIASES : List (PyStr × TaskUrgency) :=
  [(S "normal", .NORMAL), (S "обычная", .NORMAL), (S "нормальная", .NORMAL),
   (S "high", .HIGH), (S "срочно", .HIGH), (S "высокая", .HIGH)]

/-- `exporters.PROJECT_STATUS_ALIASES` as written in the source: each entry
    names its `ProjectStatus` member by attribute reference.  The table is a
    module-level dict literal, so building it resolves every member name. -/
def PROJECT_STATUS_ALIAS_SRC : List (PyStr × PyStr) :=
  [(S "в работе", S "IN_PROGRESS"), (S "in progress", S "IN_PROGRESS"),
   (S "активный", S "IN_PROGRESS"),
   (S "запущен", S "LAUNCHED"), (S "launched", S "LAUNCHED"),
   (S "закрытый", S "CLOSED"), (S "closed", S "CLOSED"),
   (S "eol", S "EOL"),
   (S "архив", S "ARCHIVED"), (S "архивный", S "ARCHIVED"), (S "archived", S "ARCHIVED")]

/-- Eager evaluation of the `PROJECT_STATUS_ALIASES` dict literal: every
    member reference must resolve, else the module fails to import. -/
def PROJECT_STATUS_ALIASES : Option (List (PyStr × ProjectStatus)) :=
  PROJECT_STATUS_ALIAS_SRC.mapM (fun p => (ProjectStatus.memberGet p.2).map (fun v => (p.1, v)))

/-- Importing the `exporters` module evaluates `PROJECT_STATUS_ALIASES` at the
    top level; an unresolvable member reference raises `AttributeError`, so no
    function of the module is callable. -/
def exportersModuleEval : Except PyExn Unit :=
  match PROJECT_STATUS_ALIASES with
  | some _ => .ok ()
  | Option.none => .error .attributeError

/-- `exporters.PRIORITY_ALIASES` (every referenced member exists). -/
def PRIORITY_ALIASES : List (PyStr × PriorityLevel) :=
  [(S "низкий", .LOW), (S "low", .LOW),
   (S "средний", .MEDIUM), (S "medium", .MEDIUM),
   (S "высокий", .HIGH), (S "high", .HIGH)]

/-- `exporters.FIELD_TYPE_ALIASES`. -/
def FIELD_TYPE_ALIASES : List (PyStr × FieldType) :=
  [(S "text", .TEXT), (S "текст", .TEXT),
   (S "number", .NUMBER), (S "число", .NUMBER),
   (S "select", .SELECT), (S "list", .SELECT), (S "список", .SELECT),
   (S "checkbox", .CHECKBOX), (S "флажок", .CHECKBOX), (S "галочка", .CHECKBOX),
   (S "other", .OTHER), (S "другое", .OTHER)]

/-- `exporters._parse_bool`: a genuine bool is returned as-is, `None` is
    false, anything else is stringified, stripped, lowercased and compared
    against the module's token set. -/
def parse_bool (value : Cell) : Bool :=
  match value with
  | .bool b => b
  | .none => false
  | v =>
      let normalized := pyNormalize (cellToStr v)
      [S "1", S "true", S "да", S "y", S "yes", S "oui", S "on"].contains normalized

/-- The `cleaned = str(raw).strip().replace(",", ".")` step of
    `_coerce_value`'s number branch. -/
def numberClean (s : PyStr) : PyStr :=
  (pyStrip s).map (fun c => if c == ',' then '.' else c)

/-- `exporters._coerce_value`: checkbox fields run boolean coercion, number
    fields pass numeric cells through, parse strings after turning commas
    into decimal points (collapsing integral results to `int`), and fall back
    to the raw value on failure; all other field types pass the value through. -/
def coerce_value (raw : Cell) (field_type : FieldType) : Cell :=
  match raw with
  | .none => Cell.none
  | raw =>
      match field_type with
      | .CHECKBOX => Cell.bool (parse_bool raw)
      | .NUMBER =>
          match raw with
          | .int n => Cell.int n
          | .float v => Cell.float v
          | .bool b => Cell.bool b
          | raw =>
              match pyFloatOfChars (numberClean (cellToStr raw)) with
              | some v => if v.isInteger then Cell.int v.trunc else Cell.float v
              | Option.none => raw
      | _ => raw

/-! ### Domain model (`backend/app/models.py`), restricted to the fields the
    codec reads or writes.  `uuid4` identifiers are modelled as naturals drawn
    from fresh counters; identity fields the code never reads are elided. -/

/-- `models.ChecklistItem` (its unused `id` elided). -/
structure ChecklistItem where
  title : PyStr
  done : Bool
  order : Int
deriving DecidableEq, Repr, Inhabited

/-- `models.GTMStage`. -/
structure GTMStage where
  id : Nat
  title : PyStr
  description : Option PyStr
  order : Int
  planned_start : Option PyDate
  planned_end : Option PyDate
  actual_end : Option PyDate
  status : StageStatus
  risk_flag : Bool
  checklist : List ChecklistItem
deriving DecidableEq, Repr, Inhabited

/-- `models.Subtask` (its unused `id` elided). -/
structure Subtask where
  title : PyStr
  done : Bool
  order : Int
deriving DecidableEq, Repr, Inhabited

/-- `models.Comment` (unused `id`/`edited_at` elided). -/
structure Comment where
  text : PyStr
  created_at : PyDateTime
deriving DecidableEq, Repr, Inhabited

/-- `models.Task`. -/
structure Task where
  id : Nat
  title : PyStr
  description : Option PyStr
  status : TaskStatus
  due_date : Option PyDate
  important : Bool
  urgency : TaskUrgency
  gtm_stage_id : Option Nat
  subtasks : List Subtask
  comments : List Comment
deriving DecidableEq, Repr, Inhabited

/-- `models.CharacteristicField` (unused `id` elided).  The value slots hold
    raw cell values: pydantic does not validate plain attribute assignment,
    so `_coerce_value` results are stored as they come. -/
structure CharacteristicField where
  label_ru : PyStr
  label_en : PyStr
  value_ru : Cell
  value_en : Cell
  field_type : FieldType
  order : Int
deriving DecidableEq, Repr, Inhabited

/-- `models.CharacteristicSection` (unused `id` elided). -/
structure CharacteristicSection where
  title : PyStr
  order : Int
  fields : List CharacteristicField
deriving DecidableEq, Repr, Inhabited

/-- `models.ProductGroup`, restricted to what the project import reads. -/
structure ProductGroup where
  id : Nat
  name : PyStr
deriving DecidableEq, Repr, Inhabited

/-- `models.Project`, restricted to the fields the codec touches.  Fields
    that the import writes without pydantic validation (`model_copy`) hold
    raw cell values. -/
structure Project where
  id : PyStr
  short_id : Option Int
  group_id : Nat
  name : PyStr
  brand : PyStr
  market : Cell
  moq : Cell
  promo_price : Cell
  rrp_price : Cell
  fob_price : Cell
  short_description : Cell
  full_description : Cell
  status : ProjectStatus
  current_gtm_stage_id : Option Nat
  planned_launch : Option PyDate
  actual_launch : Option PyDate
  priority : Option PriorityLevel
  custom_fields : List (PyStr × Cell)
  gtm_stages : List GTMStage
  tasks : List Task
  characteristics : List CharacteristicSection
deriving DecidableEq, Repr, Inhabited

/-! ### Pydantic v2 coercion at model construction (lax mode).  Model
    construction validates each field; failure raises `ValidationError`. -/

/-- Coercion into a `str | None` field: `None` and `str` pass, nothing else
    is coerced. -/
def vStrOpt : Cell → Except PyExn (Option PyStr)
  | .none => .ok Option.none
  | .str s => .ok (some s)
  | _ => .error .validationError

/-- Coercion into a `date | None` field: dates pass, midnight datetimes are
    collapsed to their date, ISO strings are parsed, anything else fails. -/
def vDateOpt : Cell → Except PyExn (Option PyDate)
  | .none => .ok Option.none
  | .date d => .ok (some d)
  | .datetime t =>
      if t.hour == 0 && t.minute == 0 && t.second == 0 then .ok (some ⟨t.year, t.month, t.day⟩)
      else .error .validationError
  | .str s =>
      match parseIsoDateChars s with
      | some d => .ok (some d)
      | Option.none => .error .validationError
  | _ => .error .validationError

/-- Coercion into a `float | None` field: floats pass, ints convert, numeric
    strings parse, bools and everything else fail. -/
def vFloatOpt : Cell → Except PyExn Cell
  | .none => .ok Cell.none
  | .float v => .ok (Cell.float v)
  | .int n => .ok (Cell.float (.fin n 0))
  | .str s =>
      match pyFloatOfChars s with
      | some v => .ok (Cell.float v)
      | Option.none => .error .validationError
  | _ => .error .validationError

/-- Coercion into the `str | int | float | bool | None` scalar union of
    `custom_fields` values: scalars pass unchanged, dates fail. -/
def vScalar : Cell → Except PyExn Cell
  | .date _ => .error .validationError
  | .datetime _ => .error .validationError
  | c => .ok c

/-! ### Sheets, workbooks, header maps -/

/-- A worksheet as a list of rows of cell values; row 1 is the header. -/
abbrev Sheet := List (List Cell)

/-- A workbook: named sheets in file order; `workbook.active` is the first. -/
structure Workbook where
  sheets : List (PyStr × Sheet)
deriving DecidableEq, Repr, Inhabited

/-- `workbook.active`. -/
def Workbook.active (wb : Workbook) : Sheet := ((wb.sheets.head?).map Prod.snd).getD []

/-- Sheet lookup by name (`workbook[name]`). -/
def Workbook.sheet (wb : Workbook) (n : PyStr) : Sheet := (alook wb.sheets n).getD []

/-- `n in workbook.sheetnames`. -/
def Workbook.hasSheet (wb : Workbook) (n : PyStr) : Bool := (alook wb.sheets n).isSome

/-- `row[i]` within the sheet's padded width: openpyxl pads value rows with
    `None` up to the sheet dimensions. -/
def cellAt (row : List Cell) (i : Nat) : Cell := row.getD i Cell.none

/-- `row[idx]` where `idx` may be `None` (the `col(...)` helper's result):
    subscripting a tuple with `None` raises `TypeError`. -/
def rowAt (row : List Cell) : Option Nat → Except PyExn Cell
  | some i => .ok (cellAt row i)
  | Option.none => .error .typeError

/-- The header row as stripped strings
    (`str(cell.value).strip() if cell.value is not None else ""`). -/
def headerTitles (row : List Cell) : List PyStr :=
  row.map (fun c => if c == Cell.none then [] else pyStrip (cellToStr c))

/-- `{title.lower(): idx for idx, title in enumerate(header_row) if title}`. -/
def headerMapOf (row : List Cell) : List (PyStr × Nat) :=
  dictOf (((headerTitles row).enum).filterMap
    (fun p => if p.2 = [] then Option.none else some (pyLower p.2, p.1)))

/-- `{title.lower(): title for title in header_titles if title}`. -/
def originalTitlesOf (row : List Cell) : List (PyStr × PyStr) :=
  dictOf ((headerTitles row).filterMap
    (fun t => if t = [] then Option.none else some (pyLower t, t)))

/-! ### `exporters._make_sheet_name` and the sheet-name sequence -/

/-- The characters the regex `[\\/*?:\[\]]` replaces with `_`. -/
def forbiddenSheetChar (c : Char) : Bool :=
  c == '\\' || c == '/' || c == '*' || c == '?' || c == ':' || c == '[' || c == ']'

/-- Python slicing `l[:i]` for a possibly negative bound. -/
def pySliceTo (l : PyStr) (i : Int) : PyStr :=
  if 0 ≤ i then l.take i.toNat else l.take (l.length - min l.length (-i).toNat)

/-- The candidate tried for suffix number `s`:
    `trimmed[:31 - len(f"_{s}")] + f"_{s}"`, with the source's dead
    `or`-fallback for an empty result. -/
def sheetCand (trimmed cleaned : PyStr) (s : Nat) : PyStr :=
  let sfx := '_' :: natChars s
  let c := pySliceTo trimmed (31 - (sfx.length : Int)) ++ sfx
  if c = [] then cleaned.take 29 ++ '_' :: natChars s else c

/-- `exporters._make_sheet_name` minus the mutation of `used`: sanitize,
    strip, default, truncate to 31, then search suffixes `_1, _2, …` until
    the candidate is unused.  The source's `while` loop is modelled by a
    bounded first-hit search: candidates for distinct suffixes are pairwise
    distinct (`sheetCand_inj` below), so the loop always exits within
    `used.length + 1` tries and the fallback arm is unreachable. -/
def make_sheet_name (base : PyStr) (used : List PyStr) : PyStr :=
  let cleaned0 := pyStrip (base.map (fun c => if forbiddenSheetChar c then '_' else c))
  let cleaned := if cleaned0 = [] then S "Проект" else cleaned0
  let trimmed := cleaned.take 31
  if trimmed ∈ used then
    match (List.range' 1 (used.length + 1)).find? (fun s => !(sheetCand trimmed cleaned s ∈ used : Bool)) with
    | some s => sheetCand trimmed cleaned s
    | Option.none => sheetCand trimmed cleaned (used.length + 1)
  else trimmed

/-- The sheet names produced for a sequence of requested names, threading the
    `used` set from empty through successive `_make_sheet_name` calls exactly
    as `export_all_characteristics` does. -/
def processSheetNames (names : List PyStr) : List PyStr :=
  (names.foldl (fun acc name => acc ++ [make_sheet_name name acc]) [])

/-! ### `exporters._import_gtm_single_sheet` -/

/-- Loop state of the single-sheet GTM import.  The Python code mutates
    shared objects through `stage_index`/`task_index`; here the indices map
    natural keys to positions in the accumulated lists.  `stageNext`/`taskNext`
    are the fresh-uuid counters. -/
structure GtmState where
  stages : List GTMStage
  stageIdx : List (PyStr × Nat)
  tasks : List Task
  taskIdx : List ((Nat × PyStr × Int) × Nat)
  errors : List PyStr
  stageNext : Nat
  taskNext : Nat
deriving DecidableEq, Repr, Inhabited

/-- The inner `parse_datetime` helper of `_import_gtm_single_sheet`:
    `datetime` passes, `None` stays `None`, anything else is stringified and
    given to `datetime.fromisoformat`, with `ValueError` turned into `None`. -/
def parse_datetime (value : Cell) : Option PyDateTime :=
  match value with
  | .datetime t => some t
  | .none => Option.none
  | v => parseIsoDateTimeChars (cellToStr v)

/-- `col(key)` of the import helpers: header-map lookup with a `None` default. -/
def colGet (hm : List (PyStr × Nat)) (k : PyStr) : Option Nat := alook hm k

/-- A guarded cell read `row[col(key)] if col(key) is not None else None`. -/
def cellOpt (hm : List (PyStr × Nat)) (row : List Cell) (k : PyStr) : Cell :=
  match colGet hm k with
  | some i => cellAt row i
  | Option.none => Cell.none

/-- Parse one checklist cell: split on `;`, strip, drop empties, read the
    optional `[x]`/`[ ]` marker, number the items. -/
def parseChecklist (checklistRaw : Cell) : List ChecklistItem :=
  let items : List PyStr :=
    if cellTruthy checklistRaw then
      ((pySplit ';' (cellToStr checklistRaw)).map pyStrip).filter (fun p => p ≠ [])
    else []
  items.enum.map (fun p =>
    let item := p.2
    if pyStarts (S "[x]") item then ⟨pyStrip (item.drop 3), true, (p.1 : Int)⟩
    else if pyStarts (S "[ ]") item then ⟨pyStrip (item.drop 3), false, (p.1 : Int)⟩
    else ⟨item, false, (p.1 : Int)⟩)

/-- The stage-status parse of the single-sheet import: alias table first,
    then enum member names; an unknown non-empty value appends a row error
    and falls back to `NOT_STARTED`. -/
def parseStageStatus (statusRaw : Cell) (rowIndex : Nat) (errors : List PyStr) :
    StageStatus × List PyStr :=
  if cellTruthy statusRaw then
    let normalized := pyNormalize (cellToStr statusRaw)
    match (alook STATUS_ALIASES normalized).orElse
        (fun _ => StageStatus.memberGet (pyUpper normalized)) with
    | some v => (v, errors)
    | Option.none =>
        (StageStatus.NOT_STARTED,
         errors ++ [S "Строка " ++ natChars rowIndex ++ S ": неизвестный статус \x27" ++
                    cellToStr statusRaw ++ S "\x27"])
  else (StageStatus.NOT_STARTED, errors)

/-- The task-status parse of the single-sheet import: alias table first, then
    enum member names with `TaskStatus.TODO` as the `get` default — an
    unknown value silently becomes `TODO`, no error is recorded. -/
def parseTaskStatus (statusRaw : Cell) : TaskStatus :=
  if cellTruthy statusRaw then
    match alook TASK_STATUS_ALIASES (pyNormalize (cellToStr statusRaw)) with
    | some v => v
    | Option.none => (TaskStatus.memberGet (pyUpper (pyStrip (cellToStr statusRaw)))).getD TaskStatus.TODO
  else TaskStatus.TODO

/-- The stage-creation arm of the single-sheet import's row loop (the body of
    `if stage is None:`): parse the descriptive stage columns, construct the
    `GTMStage` (pydantic-validating its optional string/date fields), append
    it and register its natural key.  Returns the new state and the created
    stage's position. -/
def createGtmStage (hm : List (PyStr × Nat)) (st : GtmState) (rowIndex : Nat)
    (row : List Cell) (stageKey : PyStr) (stageTitleRaw : Cell) :
    Except PyExn (GtmState × Nat) := do
  let orderRaw ← rowAt row (colGet hm (S "порядок этапа"))
  let orderValue : Int :=
    if cellIsNoneOrEmpty orderRaw then (st.stages.length : Int)
    else
      match pyIntOfCell orderRaw with
      | .ok n => n
      | .error _ => (st.stages.length : Int)
  let statusRaw := cellOpt hm row (S "статус этапа")
  let statusAndErrors := parseStageStatus statusRaw rowIndex st.errors
  let checklistRaw := cellOpt hm row (S "чек-лист")
  let checklistModels := parseChecklist checklistRaw
  let descriptionCell ← rowAt row (colGet hm (S "описание этапа"))
  let plannedStartCell ← rowAt row (colGet hm (S "плановая дата начала"))
  let plannedEndCell ← rowAt row (colGet hm (S "плановая дата окончания"))
  let actualEndCell ← rowAt row (colGet hm (S "фактическая дата завершения"))
  let riskFlag :=
    match colGet hm (S "риск по этапу") with
    | some i => parse_bool (cellAt row i)
    | Option.none => false
  let description ← vStrOpt descriptionCell
  let plannedStart ← vDateOpt plannedStartCell
  let plannedEnd ← vDateOpt plannedEndCell
  let actualEnd ← vDateOpt actualEndCell
  let stage : GTMStage :=
    { id := st.stageNext, title := pyStrip (cellToStr stageTitleRaw),
      description := description, order := orderValue,
      planned_start := plannedStart, planned_end := plannedEnd, actual_end := actualEnd,
      status := statusAndErrors.1, risk_flag := riskFlag, checklist := checklistModels }
  return ({ st with stages := st.stages ++ [stage],
                    stageIdx := dinsert st.stageIdx stageKey st.stages.length,
                    errors := statusAndErrors.2,
                    stageNext := st.stageNext + 1 },
          st.stages.length)

/-- The task/subtask/comment part of the single-sheet import's row loop,
    entered after the row's stage is resolved to position `stagePos`.  It
    never touches the stage list or the stage index. -/
def processGtmRowTasks (hm : List (PyStr × Nat)) (now : PyDateTime) (st : GtmState)
    (stagePos : Nat) (row : List Cell) : Except PyExn GtmState := do
  let stage := st.stages.getD stagePos default
  let taskTitleRaw ← rowAt row (colGet hm (S "название задачи"))
  let taskOrderRaw ← rowAt row (colGet hm (S "порядок задачи"))
  if !cellTruthy taskTitleRaw then return st
  let taskOrder : Int :=
    if cellIsNoneOrEmpty taskOrderRaw then 0
    else
      match pyIntOfCell taskOrderRaw with
      | .ok n => n
      | .error _ => 0
  let taskKey : Nat × PyStr × Int := (stage.id, pyNormalize (cellToStr taskTitleRaw), taskOrder)
  let taskPosAndState : GtmState × Nat ←
    match alook st.taskIdx taskKey with
    | some pos => pure (st, pos)
    | Option.none => do
        let statusRaw ← rowAt row (colGet hm (S "статус задачи"))
        let status := parseTaskStatus statusRaw
        let urgencyRaw ← rowAt row (colGet hm (S "срочность задачи"))
        let urgency :=
          if cellTruthy urgencyRaw then
            (alook URGENCY_ALIASES (pyNormalize (cellToStr urgencyRaw))).getD TaskUrgency.NORMAL
          else TaskUrgency.NORMAL
        let importantRaw ← rowAt row (colGet hm (S "важная задача"))
        let important := if importantRaw == Cell.none then false else parse_bool importantRaw
        let descriptionCell ← rowAt row (colGet hm (S "описание задачи"))
        let dueCell ← rowAt row (colGet hm (S "срок задачи"))
        let description ← vStrOpt descriptionCell
        let dueDate ← vDateOpt dueCell
        let task : Task :=
          { id := st.taskNext, title := pyStrip (cellToStr taskTitleRaw),
            description := description, status := status, due_date := dueDate,
            important := important, urgency := urgency, gtm_stage_id := some stage.id,
            subtasks := [], comments := [] }
        pure ({ st with tasks := st.tasks ++ [task],
                        taskIdx := dinsert st.taskIdx taskKey st.tasks.length,
                        taskNext := st.taskNext + 1 },
              st.tasks.length)
  let st := taskPosAndState.1
  let taskPos := taskPosAndState.2
  let subTitle ← rowAt row (colGet hm (S "название подзадачи"))
  let st ←
    if cellTruthy subTitle then do
      let subOrder : Int :=
        match colGet hm (S "порядок подзадачи") with
        | some i =>
            match pyIntOfCell (cellAt row i) with
            | .ok n => n
            | .error _ => 0
        | Option.none => 0
      let doneRaw ← rowAt row (colGet hm (S "подзадача выполнена"))
      let done := parse_bool doneRaw
      pure { st with tasks := listModify st.tasks taskPos (fun t =>
               { t with subtasks := t.subtasks ++ [⟨pyStrip (cellToStr subTitle), done, subOrder⟩] }) }
    else pure st
  let commentText ← rowAt row (colGet hm (S "комментарий задачи"))
  if cellTruthy commentText then
    let createdAt : Option PyDateTime :=
      match colGet hm (S "дата комментария") with
      | some i => parse_datetime (cellAt row i)
      | Option.none => Option.none
    return { st with tasks := listModify st.tasks taskPos (fun t =>
               { t with comments := t.comments ++ [⟨pyStrip (cellToStr commentText), createdAt.getD now⟩] }) }
  else
    return st

/-- Process one data row of the single-sheet GTM import (`for row_index, row
    in enumerate(sheet.iter_rows(min_row=2, values_only=True), start=2)`):
    skip fully empty rows, reject rows with an empty stage title, resolve or
    create the row's stage by natural key, then run the task part. -/
def processGtmRow (hm : List (PyStr × Nat)) (now : PyDateTime) (st : GtmState)
    (rowIndex : Nat) (row : List Cell) : Except PyExn GtmState := do
  if row.all (fun c => c == Cell.none) then return st
  let stageTitleRaw ← rowAt row (colGet hm (S "название этапа"))
  if !cellTruthy stageTitleRaw then
    return { st with errors := st.errors ++ [S "Строка " ++ natChars rowIndex ++ S ": пустое название этапа"] }
  let stageKey := pyNormalize (cellToStr stageTitleRaw)
  let stagePosAndState : GtmState × Nat ←
    match alook st.stageIdx stageKey with
    | some pos => pure (st, pos)
    | Option.none => createGtmStage hm st rowIndex row stageKey stageTitleRaw
  processGtmRowTasks hm now stagePosAndState.1 stagePosAndState.2 row

/-- The row loop of `_import_gtm_single_sheet`. -/
def gtmRowsLoop (hm : List (PyStr × Nat)) (now : PyDateTime) :
    GtmState → Nat → List (List Cell) → Except PyExn GtmState
  | st, _, [] => .ok st
  | st, i, r :: rest => do
      let st' ← processGtmRow hm now st i r
      gtmRowsLoop hm now st' (i + 1) rest

/-- Sort comparator `lambda s: s.order` (stable). -/
def orderLe {α : Type} (f : α → Int) (a b : α) : Prop := f a ≤ f b

instance {α : Type} (f : α → Int) : DecidableRel (orderLe f) :=
  fun a b => inferInstanceAs (Decidable (f a ≤ f b))

instance {α : Type} (f : α → Int) : IsTotal α (orderLe f) :=
  ⟨fun a b => le_total (f a) (f b)⟩

instance {α : Type} (f : α → Int) : IsTrans α (orderLe f) :=
  ⟨fun _ _ _ => le_trans⟩

/-- The final task comparator of the single-sheet import:
    `(stage_order_map.get(t.gtm_stage_id, 999), t.title.lower())`. -/
def taskFinalLe (m : List (Nat × Int)) (a b : Task) : Prop :=
  (let ka := match a.gtm_stage_id with | some i => (alook m i).getD 999 | Option.none => 999
   let kb := match b.gtm_stage_id with | some i => (alook m i).getD 999 | Option.none => 999
   ka < kb ∨ (ka = kb ∧ pyStrLe (pyLower a.title) (pyLower b.title) = true))

instance (m : List (Nat × Int)) : DecidableRel (taskFinalLe m) := fun a b => by
  unfold taskFinalLe; infer_instance

/-- `exporters._import_gtm_single_sheet`: run the row loop from row 2, then
    sort stages by order, sort each checklist, sort tasks by
    (stage order, lowercased title) and each subtask list by order. -/
def import_gtm_single_sheet (sheet : Sheet) (hm : List (PyStr × Nat)) (now : PyDateTime)
    (stageStart taskStart : Nat) : Except PyExn (List GTMStage × List Task × List PyStr) := do
  let st0 : GtmState := ⟨[], [], [], [], [], stageStart, taskStart⟩
  let st ← gtmRowsLoop hm now st0 2 (sheet.drop 1)
  let stages := List.insertionSort (orderLe GTMStage.order) st.stages
  let stageOrderMap := stages.map (fun s => (s.id, s.order))
  let stages := stages.map (fun s =>
    { s with checklist := List.insertionSort (orderLe ChecklistItem.order) s.checklist })
  let tasks := List.insertionSort (taskFinalLe stageOrderMap) st.tasks
  let tasks := tasks.map (fun t =>
    { t with subtasks := List.insertionSort (orderLe Subtask.order) t.subtasks })
  return (stages, tasks, st.errors)

/-! ### `exporters._import_gtm_legacy` -/

/-- The inner `normalize` applied directly to a cell (no `str()` first, as in
    the legacy task/subtask loops): falsy values give `""`, truthy strings are
    stripped and lowercased, and a truthy non-string raises `AttributeError`
    from `.strip()`. -/
def normalizeCell : Cell → Except PyExn PyStr
  | c =>
      if !cellTruthy c then .ok []
      else
        match c with
        | .str s => .ok (pyNormalize s)
        | _ => .error .attributeError

/-- One row of the legacy stage sheet (state: stages, errors, uuid counter). -/
def processLegacyStageRow (hm : List (PyStr × Nat))
    (st : List GTMStage × List PyStr × Nat) (rowIndex : Nat) (row : List Cell) :
    Except PyExn (List GTMStage × List PyStr × Nat) := do
  if row.all (fun c => c == Cell.none) then return st
  let (stages, errors, nextId) := st
  let titleRaw ← rowAt row (colGet hm (S "название этапа"))
  if !cellTruthy titleRaw then
    return (stages, errors ++ [S "Строка " ++ natChars rowIndex ++ S ": пустое название этапа"], nextId)
  let orderCell := colGet hm (S "порядок")
  let orderResult : Except PyExn (Option Int) :=
    match orderCell with
    | some i =>
        if cellAt row i == Cell.none then .ok (some (stages.length : Int))
        else
          match pyIntOfCell (cellAt row i) with
          | .ok n => .ok (some n)
          | .error .valueError => .ok Option.none
          | .error e => .error e
    | Option.none => .ok (some (stages.length : Int))
  let orderOpt ← orderResult
  match orderOpt with
  | Option.none =>
      let bad := cellToStr (cellAt row ((colGet hm (S "порядок")).getD 0))
      return (stages,
        errors ++ [S "Строка " ++ natChars rowIndex ++ S ": не удалось разобрать порядок \x27" ++ bad ++ S "\x27"],
        nextId)
  | some orderValue => do
    let statusRaw := cellOpt hm row (S "статус")
    let statusOpt : Option StageStatus :=
      if cellTruthy statusRaw then
        (alook STATUS_ALIASES (pyNormalize (cellToStr statusRaw))).orElse
          (fun _ => StageStatus.memberGet (pyUpper (pyNormalize (cellToStr statusRaw))))
      else some StageStatus.NOT_STARTED
    match statusOpt with
    | Option.none =>
        return (stages,
          errors ++ [S "Строка " ++ natChars rowIndex ++ S ": неизвестный статус \x27" ++
                     cellToStr statusRaw ++ S "\x27"],
          nextId)
    | some statusValue => do
        let riskValue :=
          match colGet hm (S "риск") with
          | some i => parse_bool (cellAt row i)
          | Option.none => false
        let checklistModels := parseChecklist (cellOpt hm row (S "чек-лист"))
        let description ← vStrOpt (cellOpt hm row (S "описание"))
        let plannedStart ← vDateOpt (cellOpt hm row (S "плановая дата начала"))
        let plannedEnd ← vDateOpt (cellOpt hm row (S "плановая дата окончания"))
        let actualEnd ← vDateOpt (cellOpt hm row (S "фактическая дата завершения"))
        let stage : GTMStage :=
          { id := nextId, title := pyStrip (cellToStr titleRaw), description := description,
            order := orderValue, planned_start := plannedStart, planned_end := plannedEnd,
            actual_end := actualEnd, status := statusValue, risk_flag := riskValue,
            checklist := checklistModels }
        return (stages ++ [stage], errors, nextId + 1)

/-- The legacy stage-sheet loop. -/
def legacyStageLoop (hm : List (PyStr × Nat)) :
    List GTMStage × List PyStr × Nat → Nat → List (List Cell) →
    Except PyExn (List GTMStage × List PyStr × Nat)
  | st, _, [] => .ok st
  | st, i, r :: rest => do
      let st' ← processLegacyStageRow hm st i r
      legacyStageLoop hm st' (i + 1) rest

/-- One row of the legacy `Задачи` sheet; the raw task tuples are
    `(task_order, stage_id, task)`. -/
def processLegacyTaskRow (thm : List (PyStr × Nat)) (stageIdx : List (PyStr × GTMStage))
    (st : List (Int × Nat × Task) × List PyStr × Nat) (rowIndex : Nat) (row : List Cell) :
    Except PyExn (List (Int × Nat × Task) × List PyStr × Nat) := do
  if row.all (fun c => c == Cell.none) then return st
  let (tasksRaw, errors, nextId) := st
  let stageTitle ← rowAt row (colGet thm (S "этап"))
  let normalizedStage ← normalizeCell stageTitle
  match alook stageIdx normalizedStage with
  | Option.none =>
      return (tasksRaw,
        errors ++ [S "Строка " ++ natChars rowIndex ++ S " (Задачи): этап \x27" ++ cellToStr stageTitle ++
                   S "\x27 не найден среди импортируемых этапов"], nextId)
  | some stage => do
      let orderValue : Cell :=
        match colGet thm (S "порядок задачи") with
        | some i => cellAt row i
        | Option.none => Cell.none
      let taskOrderOpt : Option Int :=
        if cellIsNoneOrEmpty orderValue then some 0
        else
          match pyIntOfCell orderValue with
          | .ok n => some n
          | .error _ => Option.none
      match taskOrderOpt with
      | Option.none =>
          return (tasksRaw,
            errors ++ [S "Строка " ++ natChars rowIndex ++ S " (Задачи): неверный порядок задачи \x27" ++
                       cellToStr orderValue ++ S "\x27"], nextId)
      | some taskOrder => do
          let titleRaw ← rowAt row (colGet thm (S "название задачи"))
          if !cellTruthy titleRaw then
            return (tasksRaw,
              errors ++ [S "Строка " ++ natChars rowIndex ++ S " (Задачи): пустое название задачи"], nextId)
          let statusRaw ← rowAt row (colGet thm (S "статус"))
          let status := parseTaskStatus statusRaw
          let urgencyRaw ← rowAt row (colGet thm (S "срочность"))
          let urgency :=
            if cellTruthy urgencyRaw then
              (alook URGENCY_ALIASES (pyNormalize (cellToStr urgencyRaw))).getD TaskUrgency.NORMAL
            else TaskUrgency.NORMAL
          let importantRaw ← rowAt row (colGet thm (S "важная"))
          let important := if importantRaw == Cell.none then false else parse_bool importantRaw
          let descriptionCell ← rowAt row (colGet thm (S "описание"))
          let dueCell ← rowAt row (colGet thm (S "срок"))
          let description ← vStrOpt descriptionCell
          let dueDate ← vDateOpt dueCell
          let task : Task :=
            { id := nextId, title := pyStrip (cellToStr titleRaw), description := description,
              status := status, due_date := dueDate, important := important, urgency := urgency,
              gtm_stage_id := some stage.id, subtasks := [], comments := [] }
          return (tasksRaw ++ [(taskOrder, stage.id, task)], errors, nextId + 1)

/-- The legacy `Задачи` loop. -/
def legacyTaskLoop (thm : List (PyStr × Nat)) (stageIdx : List (PyStr × GTMStage)) :
    List (Int × Nat × Task) × List PyStr × Nat → Nat → List (List Cell) →
    Except PyExn (List (Int × Nat × Task) × List PyStr × Nat)
  | st, _, [] => .ok st
  | st, i, r :: rest => do
      let st' ← processLegacyTaskRow thm stageIdx st i r
      legacyTaskLoop thm stageIdx st' (i + 1) rest

/-- `subtasks_map.setdefault(key, []).append(sub)`. -/
def msAppend (m : List ((Nat × Int) × List Subtask)) (k : Nat × Int) (s : Subtask) :
    List ((Nat × Int) × List Subtask) :=
  match alook m k with
  | some l => dinsert m k (l ++ [s])
  | Option.none => m ++ [(k, [s])]

/-- One row of the legacy `Подзадачи` sheet. -/
def processLegacySubRow (shm : List (PyStr × Nat)) (stageIdx : List (PyStr × GTMStage))
    (st : List ((Nat × Int) × List Subtask) × List PyStr) (rowIndex : Nat) (row : List Cell) :
    Except PyExn (List ((Nat × Int) × List Subtask) × List PyStr) := do
  if row.all (fun c => c == Cell.none) then return st
  let (subMap, errors) := st
  let stageTitle ← rowAt row (colGet shm (S "этап"))
  let normalizedStage ← normalizeCell stageTitle
  match alook stageIdx normalizedStage with
  | Option.none =>
      return (subMap,
        errors ++ [S "Строка " ++ natChars rowIndex ++ S " (Подзадачи): этап \x27" ++
                   cellToStr stageTitle ++ S "\x27 не найден"])
  | some stage => do
      let taskOrderRaw ← rowAt row (colGet shm (S "порядок задачи"))
      let taskOrderOpt : Option Int :=
        if cellIsNoneOrEmpty taskOrderRaw then some 0
        else
          match pyIntOfCell taskOrderRaw with
          | .ok n => some n
          | .error _ => Option.none
      match taskOrderOpt with
      | Option.none =>
          return (subMap,
            errors ++ [S "Строка " ++ natChars rowIndex ++ S " (Подзадачи): неверный порядок задачи \x27" ++
                       cellToStr taskOrderRaw ++ S "\x27"])
      | some taskOrderValue => do
          let titleRaw ← rowAt row (colGet shm (S "название подзадачи"))
          if !cellTruthy titleRaw then
            return (subMap,
              errors ++ [S "Строка " ++ natChars rowIndex ++ S " (Подзадачи): пустое название подзадачи"])
          let doneRaw ← rowAt row (colGet shm (S "выполнена"))
          let done := parse_bool doneRaw
          let orderRaw ← rowAt row (colGet shm (S "порядок подзадачи"))
          let orderVal : Int :=
            if cellIsNoneOrEmpty orderRaw then 0
            else
              match pyIntOfCell orderRaw with
              | .ok n => n
              | .error _ => 0
          return (msAppend subMap (stage.id, taskOrderValue) ⟨pyStrip (cellToStr titleRaw), done, orderVal⟩,
                  errors)

/-- The legacy `Подзадачи` loop. -/
def legacySubLoop (shm : List (PyStr × Nat)) (stageIdx : List (PyStr × GTMStage)) :
    List ((Nat × Int) × List Subtask) × List PyStr → Nat → List (List Cell) →
    Except PyExn (List ((Nat × Int) × List Subtask) × List PyStr)
  | st, _, [] => .ok st
  | st, i, r :: rest => do
      let st' ← processLegacySubRow shm stageIdx st i r
      legacySubLoop shm stageIdx st' (i + 1) rest

/-- The raw-task comparator of the legacy import:
    `(stage_order_map.get(stage.id, 999), task_order)`. -/
def legacyTaskLe (m : List (Nat × Int)) (a b : Int × Nat × Task) : Prop :=
  (let ka := (alook m a.2.1).getD 999
   let kb := (alook m b.2.1).getD 999
   ka < kb ∨ (ka = kb ∧ a.1 ≤ b.1))

instance (m : List (Nat × Int)) : DecidableRel (legacyTaskLe m) := fun a b => by
  unfold legacyTaskLe; infer_instance

/-- `exporters._import_gtm_legacy`: a stage sheet (the workbook's active
    sheet, read with the header map the dispatcher built) plus optional
    `Задачи`/`Подзадачи` sheets joined by `(stage title, task order)`. -/
def import_gtm_legacy (wb : Workbook) (hm : List (PyStr × Nat))
    (stageStart taskStart : Nat) : Except PyExn (List GTMStage × List Task × List PyStr) := do
  let sheet := wb.active
  let stagesErrs ← legacyStageLoop hm ([], [], stageStart) 2 (sheet.drop 1)
  let (stages0, errors0, _) := stagesErrs
  let stages := List.insertionSort (orderLe GTMStage.order) stages0
  let stageIdx := dictOf (stages.map (fun s => (pyNormalize s.title, s)))
  let stageOrderMap : List (Nat × Int) := stages.enum.map (fun p => (p.2.id, (p.1 : Int)))
  let tasksState ←
    if wb.hasSheet (S "Задачи") then do
      let taskSheet := wb.sheet (S "Задачи")
      let thm := headerMapOf (taskSheet.headD [])
      legacyTaskLoop thm stageIdx ([], errors0, taskStart) 2 (taskSheet.drop 1)
    else pure ([], errors0, taskStart)
  let (tasksRaw, errors1, _) := tasksState
  let subState ←
    if wb.hasSheet (S "Подзадачи") then do
      let subSheet := wb.sheet (S "Подзадачи")
      let shm := headerMapOf (subSheet.headD [])
      legacySubLoop shm stageIdx ([], errors1) 2 (subSheet.drop 1)
    else pure ([], errors1)
  let (subMap, errors2) := subState
  let orderedTasks :=
    (List.insertionSort (legacyTaskLe stageOrderMap) tasksRaw).map (fun p =>
      let subs := List.insertionSort (orderLe Subtask.order) ((alook subMap (p.2.1, p.1)).getD [])
      { p.2.2 with subtasks := subs })
  return (stages, orderedTasks, errors2)

/-- The dispatcher's test for the combined single-sheet layout. -/
def combinedHeadersPresent (hm : List (PyStr × Nat)) : Bool :=
  (colGet hm (S "название задачи")).isSome || (colGet hm (S "название подзадачи")).isSome ||
    (colGet hm (S "комментарий задачи")).isSome

/-- `exporters.import_gtm_stages_from_sheet`: read the header row (an empty
    sheet is the structural error `Файл Excel пуст`), require the stage-title
    column (missing: a single structural error), then dispatch on the header
    shape between the combined single-sheet import and the legacy layout. -/
def import_gtm_stages_from_sheet (wb : Workbook) (sheet : Sheet) (now : PyDateTime)
    (stageStart taskStart : Nat) : Except PyExn (List GTMStage × List Task × List PyStr) :=
  match sheet with
  | [] => .ok ([], [], [S "Файл Excel пуст"])
  | headerRow :: _ =>
      let hm := headerMapOf headerRow
      if (colGet hm (S "название этапа")).isNone then
        .ok ([], [], [S "Отсутствуют обязательные столбцы: название этапа"])
      else if combinedHeadersPresent hm then
        import_gtm_single_sheet sheet hm now stageStart taskStart
      else
        import_gtm_legacy wb hm stageStart taskStart

/-! ### `exporters._write_gtm_sheet` (the GTM export) -/

/-- `"да"`/`"нет"` rendering of the stage risk flag. -/
def boolCellRu (b : Bool) : Cell := Cell.str (if b then S "да" else S "нет")

/-- The checklist cell text: `"; "`-joined items sorted by order, each marked
    `[x]`/`[ ]`. -/
def checklistCellChars (checklist : List ChecklistItem) : PyStr :=
  pyJoin (S "; ")
    ((List.insertionSort (orderLe ChecklistItem.order) checklist).map
      (fun c => (if c.done then S "[x] " else S "[ ] ") ++ c.title))

/-- The rendering of one checklist item inside the checklist cell. -/
def checklistItemChars (c : ChecklistItem) : PyStr :=
  (if c.done then S "[x] " else S "[ ] ") ++ c.title

/-- The 21 header titles of the GTM sheet. -/
def gtmHeaders : List PyStr :=
  [S "Порядок этапа", S "Название этапа", S "Описание этапа", S "Плановая дата начала",
   S "Плановая дата окончания", S "Фактическая дата завершения", S "Статус этапа",
   S "Риск по этапу", S "Чек-лист", S "Порядок задачи", S "Название задачи",
   S "Описание задачи", S "Статус задачи", S "Срок задачи", S "Важная задача",
   S "Срочность задачи", S "Порядок подзадачи", S "Название подзадачи",
   S "Подзадача выполнена", S "Комментарий задачи", S "Дата комментария"]

/-- The GTM header row. -/
def gtmHeaderRow : List Cell := gtmHeaders.map Cell.str

/-- Render an optional value into a cell. -/
def optCell {α : Type} (f : α → Cell) : Option α → Cell
  | some a => f a
  | Option.none => Cell.none

/-- One exported GTM row: the nine stage columns, then the task columns for
    the current task (or `None`s for a stage without tasks), then the
    positionally zipped subtask and comment columns. -/
def mkGtmRow (stage : GTMStage) (cl : PyStr) (taskIdxOpt : Option (Nat × Task))
    (sub : Option Subtask) (com : Option Comment) : List Cell :=
  [Cell.int stage.order,
   Cell.str stage.title,
   optCell Cell.str stage.description,
   optCell Cell.date stage.planned_start,
   optCell Cell.date stage.planned_end,
   optCell Cell.date stage.actual_end,
   Cell.str stage.status.value,
   boolCellRu stage.risk_flag,
   Cell.str cl,
   (match taskIdxOpt with | some (i, _) => Cell.int (i : Int) | Option.none => Cell.none),
   (match taskIdxOpt with | some (_, t) => Cell.str t.title | Option.none => Cell.none),
   (match taskIdxOpt with | some (_, t) => optCell Cell.str t.description | Option.none => Cell.none),
   (match taskIdxOpt with | some (_, t) => Cell.str t.status.value | Option.none => Cell.none),
   (match taskIdxOpt with | some (_, t) => optCell Cell.date t.due_date | Option.none => Cell.none),
   (match taskIdxOpt with
    | some (_, t) => if t.important then Cell.str (S "да") else Cell.none
    | Option.none => Cell.none),
   (match taskIdxOpt with | some (_, t) => Cell.str t.urgency.value | Option.none => Cell.none),
   (match sub with | some s => Cell.int s.order | Option.none => Cell.none),
   (match sub with | some s => Cell.str s.title | Option.none => Cell.none),
   (match sub with | some s => if s.done then Cell.str (S "да") else Cell.none | Option.none => Cell.none),
   (match com with | some c => Cell.str c.text | Option.none => Cell.none),
   (match com with | some c => Cell.str (datetimeIsoChars c.created_at) | Option.none => Cell.none)]

/-- The export task comparator
    `(stage_order_map.get(id, 9999), getattr(t, "order", 0), due or date.max,
    title.lower())`; `Task` has no `order` attribute, so the second component
    is the constant `0` and never discriminates (elided). -/
def exportTaskLe (m : List (Nat × Int)) (a b : Task) : Prop :=
  (let ka := match a.gtm_stage_id with | some i => (alook m i).getD 9999 | Option.none => 9999
   let kb := match b.gtm_stage_id with | some i => (alook m i).getD 9999 | Option.none => 9999
   let da := (a.due_date.getD pyDateMax).key
   let db := (b.due_date.getD pyDateMax).key
   ka < kb ∨ (ka = kb ∧ (da < db ∨ (da = db ∧ pyStrLe (pyLower a.title) (pyLower b.title) = true))))

instance (m : List (Nat × Int)) : DecidableRel (exportTaskLe m) := fun a b => by
  unfold exportTaskLe; infer_instance

/-- The fan-out rows for one task slot of a stage: `max(1, len(subtasks),
    len(comments))` rows pairing the i-th subtask with the i-th comment. -/
def stageTaskRows (stage : GTMStage) (cl : PyStr) : Option (Nat × Task) → List (List Cell)
  | Option.none => [mkGtmRow stage cl Option.none Option.none Option.none]
  | some (i, t) =>
      let subs := List.insertionSort (orderLe Subtask.order) t.subtasks
      let coms := t.comments
      let n := max 1 (max subs.length coms.length)
      (List.range n).map (fun k => mkGtmRow stage cl (some (i, t)) (subs.get? k) (coms.get? k))

/-- The data rows `_write_gtm_sheet` appends: stages sorted by order; tasks
    sorted by the export comparator and grouped under their stage (a single
    placeholder slot when a stage has no tasks). -/
def write_gtm_rows (p : Project) : List (List Cell) :=
  let orderedStages := List.insertionSort (orderLe GTMStage.order) p.gtm_stages
  let stageOrderMap : List (Nat × Int) := orderedStages.enum.map (fun q => (q.2.id, (q.1 + 1 : Int)))
  let orderedTasks := List.insertionSort (exportTaskLe stageOrderMap) p.tasks
  orderedStages.flatMap (fun stage =>
    let related := orderedTasks.filter (fun t => t.gtm_stage_id == some stage.id)
    let cl := checklistCellChars stage.checklist
    let rel : List (Option (Nat × Task)) :=
      if related.isEmpty then [Option.none]
      else related.enum.map (fun q => some (q.1 + 1, q.2))
    rel.flatMap (stageTaskRows stage cl))

/-- The full GTM sheet `export_gtm_stages_to_excel` produces (header row plus
    data rows). -/
def export_gtm_sheet (p : Project) : Sheet := gtmHeaderRow :: write_gtm_rows p

/-! ### `exporters.import_projects_from_excel` -/

/-- Is the character a hexadecimal digit? -/
def isHexCh (c : Char) : Bool := isDigitCh c || ('a' ≤ c && c ≤ 'f') || ('A' ≤ c && c ≤ 'F')

/-- `uuid.UUID(s)` restricted to the canonical hyphenated form (the form
    `str(project.id)` produces); the result is normalized to lower case. -/
def parseUUIDChars (s : PyStr) : Option PyStr :=
  if s.length == 36 &&
      (s.enum.all (fun p =>
        if p.1 == 8 || p.1 == 13 || p.1 == 18 || p.1 == 23 then p.2 == '-' else isHexCh p.2)) then
    some (pyLower s)
  else Option.none

/-- A fresh `uuid4()` value, drawn from a counter. -/
def freshUUID (n : Nat) : PyStr :=
  S "00000000-0000-4000-8000-" ++ (List.replicate (12 - (natChars n).length) '0' ++ natChars n)

/-- Resolve an attribute reference `ProjectStatus.<name>`; a missing member
    raises `AttributeError`. -/
def resolveProjectStatusMember (n : PyStr) : Except PyExn ProjectStatus :=
  match ProjectStatus.memberGet n with
  | some v => .ok v
  | Option.none => .error .attributeError

/-- The inner `parse_status` of `import_projects_from_excel`.  Both branches
    contain the attribute reference `ProjectStatus.IN_PROGRESS`: directly for
    a `None` cell, and as the eagerly evaluated default argument of
    `.get(normalized.upper(), ProjectStatus.IN_PROGRESS)` otherwise — in
    every case a member reference that does not resolve raises before any
    lookup result is returned. -/
def parse_status (raw : Cell) : Except PyExn ProjectStatus := do
  if raw == Cell.none then
    resolveProjectStatusMember (S "IN_PROGRESS")
  else
    let normalized := pyNormalize (cellToStr raw)
    let dflt ← resolveProjectStatusMember (S "IN_PROGRESS")
    let fallback := (ProjectStatus.memberGet (pyUpper normalized)).getD dflt
    match alook PROJECT_STATUS_ALIAS_SRC normalized with
    | some memberName => resolveProjectStatusMember memberName
    | Option.none => pure fallback

/-- The inner `parse_priority`: aliases, then member names, else `None`
    (every referenced member exists, so nothing raises). -/
def parse_priority (raw : Cell) : Option PriorityLevel :=
  if raw == Cell.none || raw == Cell.str [] then Option.none
  else
    let normalized := pyNormalize (cellToStr raw)
    (alook PRIORITY_ALIASES normalized).orElse
      (fun _ => PriorityLevel.memberGet (pyUpper normalized))

/-- The inner `normalize_date`: datetimes collapse to their date, dates pass,
    `None` stays, strings are stripped, truncated at the first `T` or space
    and tried as an ISO date then an ISO datetime; failure gives `None`. -/
def normalize_date (value : Cell) : Option PyDate :=
  match value with
  | .datetime t => some ⟨t.year, t.month, t.day⟩
  | .date d => some d
  | .none => Option.none
  | v =>
      let text := pyStrip (cellToStr v)
      let text :=
        if text.contains 'T' || text.contains ' ' then
          (pySplit ' ' ((pySplit 'T' text).headD [])).headD []
        else text
      match parseIsoDateChars text with
      | some d => some d
      | Option.none =>
          match parseIsoDateTimeChars text with
          | some t => some ⟨t.year, t.month, t.day⟩
          | Option.none => Option.none

/-- `int(x)` applied when `isinstance(x, (int, float))` (which includes
    `bool`); other values give `None` without raising. -/
def shortIdCreate : Cell → Except PyExn (Option Int)
  | .int n => .ok (some n)
  | .bool b => .ok (some (if b then 1 else 0))
  | .float (.fin n k) => .ok (some (PyFloatVal.trunc (.fin n k)))
  | .float _ => .error .valueError
  | _ => .ok Option.none

/-- `updated.short_id = int(v)` under `try/except (TypeError, ValueError):
    pass` — assignment is unvalidated, failures leave the field unchanged. -/
def shortIdUpdate (old : Option Int) (v : Cell) : Option Int :=
  match pyIntOfCell v with
  | .ok n => some n
  | .error _ => old

/-- One data row of `import_projects_from_excel` (state: parsed projects,
    errors, uuid counter), following the source's control flow and
    left-to-right evaluation order. -/
def processProjectRow (hm : List (PyStr × Nat)) (cfColumns : List PyStr)
    (groupByName : List (PyStr × ProductGroup)) (existingById : List (PyStr × Project))
    (st : List Project × List PyStr × Nat) (rowIndex : Nat) (row : List Cell) :
    Except PyExn (List Project × List PyStr × Nat) := do
  if row.all (fun c => c == Cell.none) then return st
  let (parsed, errors, uuidNext) := st
  let name ← rowAt row (colGet hm (S "название проекта"))
  if !cellTruthy name then
    return (parsed, errors ++ [S "Строка " ++ natChars rowIndex ++ S ": не указано название проекта"], uuidNext)
  let groupName ← rowAt row (colGet hm (S "продуктовая группа"))
  let group : Option ProductGroup :=
    if cellTruthy groupName then alook groupByName (pyNormalize (cellToStr groupName))
    else Option.none
  match group with
  | Option.none =>
      return (parsed,
        errors ++ [S "Строка " ++ natChars rowIndex ++ S ": продуктовая группа \x27" ++
                   cellToStr groupName ++ S "\x27 не найдена"], uuidNext)
  | some group => do
      let statusRaw ← rowAt row (colGet hm (S "статус"))
      let status ← parse_status statusRaw
      let projectIdVal : Cell :=
        match colGet hm (S "id") with
        | some i => cellAt row i
        | Option.none => Cell.none
      let projectId : Option PyStr :=
        if cellTruthy projectIdVal then some (pyStrip (cellToStr projectIdVal)) else Option.none
      let existing : Option Project :=
        match projectId with
        | some pid => alook existingById pid
        | Option.none => Option.none
      let brandCell ← rowAt row (colGet hm (S "бренд"))
      let brand : PyStr := if brandCell == Cell.none then [] else cellToStr brandCell
      let market ← rowAt row (colGet hm (S "рынок/регион"))
      let plannedCell ← rowAt row (colGet hm (S "плановая дата запуска"))
      let plannedLaunch := normalize_date plannedCell
      let actualCell ← rowAt row (colGet hm (S "фактическая дата запуска"))
      let actualLaunch := normalize_date actualCell
      let priorityCell ← rowAt row (colGet hm (S "приоритет"))
      let priority := parse_priority priorityCell
      let moq :=
        match colGet hm (S "moq") with
        | some i => coerce_value (cellAt row i) FieldType.NUMBER
        | Option.none => Cell.none
      let fob :=
        match colGet hm (S "fob") with
        | some i => coerce_value (cellAt row i) FieldType.NUMBER
        | Option.none => Cell.none
      let promo :=
        match colGet hm (S "promo") with
        | some i => coerce_value (cellAt row i) FieldType.NUMBER
        | Option.none => Cell.none
      let rrp :=
        match colGet hm (S "rrp") with
        | some i => coerce_value (cellAt row i) FieldType.NUMBER
        | Option.none => Cell.none
      let shortDesc ← rowAt row (colGet hm (S "краткое описание"))
      let fullDesc ← rowAt row (colGet hm (S "полное описание"))
      let currentStageTitle : Cell :=
        match colGet hm (S "текущий gtm-этап") with
        | some i => cellAt row i
        | Option.none => Cell.none
      let currentStageId : Option Nat :=
        match existing with
        | some ex =>
            if cellTruthy currentStageTitle then
              match ex.gtm_stages.find? (fun s =>
                  pyNormalize s.title = pyNormalize (cellToStr currentStageTitle)) with
              | some matched => some matched.id
              | Option.none => Option.none
            else Option.none
        | Option.none => Option.none
      let customFields : List (PyStr × Cell) :=
        cfColumns.foldl (fun acc cf =>
          let rawValue := cellAt row ((alook hm (pyLower cf)).getD 0)
          if cellIsNoneOrEmpty rawValue then acc
          else dinsert acc (cf.drop 3) rawValue) []
      let shortIdVal ← rowAt row (colGet hm (S "короткий id"))
      match existing with
      | some ex =>
          let updated : Project :=
            { ex with group_id := group.id, name := cellToStr name, brand := brand,
                      market := market, status := status, planned_launch := plannedLaunch,
                      actual_launch := actualLaunch, current_gtm_stage_id := currentStageId,
                      priority := priority, moq := moq, fob_price := fob, promo_price := promo,
                      rrp_price := rrp, short_description := shortDesc,
                      full_description := fullDesc, custom_fields := customFields }
          let updated :=
            if cellTruthy shortIdVal then { updated with short_id := shortIdUpdate updated.short_id shortIdVal }
            else updated
          return (parsed ++ [updated], errors, uuidNext)
      | Option.none => do
          let pid ← match projectId with
            | some pid =>
                match parseUUIDChars pid with
                | some u => pure u
                | Option.none => Except.error PyExn.valueError
            | Option.none => pure (freshUUID uuidNext)
          let shortId ← shortIdCreate shortIdVal
          let marketV ←
            match market with
            | .str s => pure (Cell.str s)
            | _ => Except.error PyExn.validationError
          let shortDescV ← (vStrOpt shortDesc).map (optCell Cell.str)
          let fullDescV ← (vStrOpt fullDesc).map (optCell Cell.str)
          let moqV ← vFloatOpt moq
          let fobV ← vFloatOpt fob
          let promoV ← vFloatOpt promo
          let rrpV ← vFloatOpt rrp
          let _ ← customFields.mapM (fun p => vScalar p.2)
          let proj : Project :=
            { id := pid, short_id := shortId, group_id := group.id, name := cellToStr name,
              brand := brand, market := marketV, moq := moqV, promo_price := promoV,
              rrp_price := rrpV, fob_price := fobV, short_description := shortDescV,
              full_description := fullDescV, status := status, current_gtm_stage_id := Option.none,
              planned_launch := plannedLaunch, actual_launch := actualLaunch, priority := priority,
              custom_fields := customFields, gtm_stages := [], tasks := [], characteristics := [] }
          return (parsed ++ [proj], errors, uuidNext + 1)

/-- The project-import row loop. -/
def projectRowsLoop (hm : List (PyStr × Nat)) (cfColumns : List PyStr)
    (groupByName : List (PyStr × ProductGroup)) (existingById : List (PyStr × Project)) :
    List Project × List PyStr × Nat → Nat → List (List Cell) →
    Except PyExn (List Project × List PyStr × Nat)
  | st, _, [] => .ok st
  | st, i, r :: rest => do
      let st' ← processProjectRow hm cfColumns groupByName existingById st i r
      projectRowsLoop hm cfColumns groupByName existingById st' (i + 1) rest

/-- The required project-import headers. -/
def projectRequiredColumns : List PyStr :=
  [S "название проекта", S "продуктовая группа", S "бренд", S "статус"]

/-- `f"Отсутствуют обязательные столбцы: {', '.join(sorted(missing))}"`. -/
def missingColumnsMsg (missing : List PyStr) : PyStr :=
  S "Отсутствуют обязательные столбцы: " ++
    pyJoin (S ", ") (List.insertionSort (fun a b => pyStrLe a b = true) missing)

/-- The body of `import_projects_from_excel` after the workbook is open:
    header map, required-column check, lookup dicts, then the row loop.
    This is the row-level semantics of the function; the source's module
    cannot actually be imported (see `exportersModuleEval`), which the
    top-level wrapper `import_projects_from_excel` accounts for. -/
def import_projects_rows (sheet : Sheet) (groups : List ProductGroup)
    (existing : List Project) (uuidStart : Nat) : Except PyExn (List Project × List PyStr) := do
  match sheet with
  | [] => return ([], [S "Файл Excel пуст"])
  | headerRow :: _ =>
      let hm := headerMapOf headerRow
      let originalTitles := originalTitlesOf headerRow
      let missing := projectRequiredColumns.filter (fun k => (alook hm k).isNone)
      if missing ≠ [] then
        return ([], [missingColumnsMsg missing])
      else do
        let existingById := dictOf (existing.map (fun p => (p.id, p)))
        let groupByName := dictOf (groups.map (fun g => (pyNormalize g.name, g)))
        let cfColumns : List PyStr :=
          (hm.map Prod.fst).filterMap (fun k =>
            if pyStarts (S "cf:") k then alook originalTitles k else Option.none)
        let res ← projectRowsLoop hm cfColumns groupByName existingById ([], [], uuidStart) 2 (sheet.drop 1)
        return (res.1, res.2.1)

/-- `exporters.import_projects_from_excel`: calling any function of the
    module first requires the module to have been imported, which evaluates
    `PROJECT_STATUS_ALIASES`; the content argument models the result of
    `load_workbook` on the uploaded bytes. -/
def import_projects_from_excel (content : Except PyStr Workbook) (groups : List ProductGroup)
    (existing : List Project) (uuidStart : Nat) : Except PyExn (List Project × List PyStr) := do
  let _ ← exportersModuleEval
  match content with
  | .error e => return ([], [S "Не удалось прочитать Excel: " ++ e])
  | .ok wb => import_projects_rows wb.active groups existing uuidStart

/-! ### `exporters.import_characteristics_from_sheet` / `_from_excel` -/

/-- The reconciliation report dict of the characteristics import. -/
structure CharReport where
  sections_created : Nat
  fields_created : Nat
  fields_updated : Nat
  rows_skipped : Nat
deriving DecidableEq, Repr, Inhabited

/-- The value a characteristics-import call returns: Python's tuple arity is
    part of the value, and the structural-error returns build a 2-tuple while
    the regular return builds a 3-tuple. -/
inductive CharResult where
  | pair (sections : List CharacteristicSection) (errors : List PyStr)
  | triple (sections : List CharacteristicSection) (errors : List PyStr) (report : CharReport)
deriving DecidableEq, Repr

/-- Unpacking `sections, errors, report = <call>` as the callers
    `import_project_bundle_from_excel` and `import_characteristics_bulk` do:
    a 2-tuple raises `ValueError` (wrong number of values to unpack). -/
def unpack3 (r : CharResult) :
    Except PyExn (List CharacteristicSection × List PyStr × CharReport) :=
  match r with
  | .triple s e rep => .ok (s, e, rep)
  | .pair _ _ => .error .valueError

/-- The inner `parse_field_type`: `None` falls back, else the alias table
    with the fallback as default. -/
def parse_field_type (raw : Cell) (fallback : FieldType) : FieldType :=
  if raw == Cell.none then fallback
  else (alook FIELD_TYPE_ALIASES (pyNormalize (cellToStr raw))).getD fallback

/-- `x or y or ""` over two cells (first truthy wins, else the empty string). -/
def firstTruthyCell (a b : Cell) : Cell :=
  if cellTruthy a then a else if cellTruthy b then b else Cell.str []

/-- Loop state of the characteristics import. -/
structure CharState where
  sections : List CharacteristicSection
  sectionIdx : List (PyStr × Nat)
  maxSectionOrder : Int
  errors : List PyStr
  report : CharReport
deriving DecidableEq, Repr, Inhabited

/-- One data row of the characteristics import. -/
def processCharRow (hm : List (PyStr × Nat)) (st : CharState) (rowIndex : Nat)
    (row : List Cell) : Except PyExn CharState := do
  if row.all (fun c => c == Cell.none) then return st
  let sectionTitle ← rowAt row (colGet hm (S "секция"))
  if !cellTruthy sectionTitle then
    return { st with errors := st.errors ++ [S "Строка " ++ natChars rowIndex ++ S ": не заполнено название секции"],
                     report := { st.report with rows_skipped := st.report.rows_skipped + 1 } }
  let labelRu ← rowAt row (colGet hm (S "label ru"))
  let labelEn ← rowAt row (colGet hm (S "label en"))
  if !cellTruthy labelRu && !cellTruthy labelEn then
    return { st with errors := st.errors ++ [S "Строка " ++ natChars rowIndex ++ S ": не указаны Label RU/EN"],
                     report := { st.report with rows_skipped := st.report.rows_skipped + 1 } }
  let normalizedSection := pyNormalize (cellToStr sectionTitle)
  let sectionPosAndState : CharState × Nat :=
    match alook st.sectionIdx normalizedSection with
    | some pos => (st, pos)
    | Option.none =>
        let newMax := st.maxSectionOrder + 1
        let orderValue : Cell :=
          match colGet hm (S "порядок секции") with
          | some i => cellAt row i
          | Option.none => Cell.none
        let order : Int :=
          if cellIsNoneOrEmpty orderValue then newMax
          else
            match pyIntOfCell orderValue with
            | .ok n => n
            | .error _ => newMax
        let newSection : CharacteristicSection := { title := cellToStr sectionTitle, order := order, fields := [] }
        ({ st with sections := st.sections ++ [newSection],
                   sectionIdx := dinsert st.sectionIdx normalizedSection st.sections.length,
                   maxSectionOrder := newMax,
                   report := { st.report with sections_created := st.report.sections_created + 1 } },
         st.sections.length)
  let st := sectionPosAndState.1
  let sectionPos := sectionPosAndState.2
  let curSection := st.sections.getD sectionPos default
  let maxFieldOrder : Int :=
    match curSection.fields.map CharacteristicField.order with
    | [] => -1
    | o :: os => os.foldl max o
  let normalizedRu ← normalizeCell labelRu
  let normalizedEn ← normalizeCell labelEn
  let fieldPosOpt := curSection.fields.findIdx? (fun f =>
    pyNormalize f.label_ru = normalizedRu ∧ pyNormalize f.label_en = normalizedEn)
  let typeCellIdx := colGet hm (S "тип поля")
  let providedType :=
    match typeCellIdx with
    | some i => parse_field_type (cellAt row i) FieldType.TEXT
    | Option.none => FieldType.TEXT
  let stAndFieldPos : CharState × Nat :=
    match fieldPosOpt with
    | Option.none =>
        let orderValue : Cell :=
          match colGet hm (S "порядок поля") with
          | some i => cellAt row i
          | Option.none => Cell.none
        let order : Int :=
          if cellIsNoneOrEmpty orderValue then maxFieldOrder + 1
          else
            match pyIntOfCell orderValue with
            | .ok n => n
            | .error _ => maxFieldOrder + 1
        let field : CharacteristicField :=
          { label_ru := cellToStr (firstTruthyCell labelRu labelEn),
            label_en := cellToStr (firstTruthyCell labelEn labelRu),
            value_ru := Cell.none, value_en := Cell.none,
            field_type := providedType, order := order }
        ({ st with sections := listModify st.sections sectionPos (fun s => { s with fields := s.fields ++ [field] }),
                   report := { st.report with fields_created := st.report.fields_created + 1 } },
         curSection.fields.length)
    | some fpos =>
        ({ st with sections := listModify st.sections sectionPos (fun s =>
             { s with fields := listModify s.fields fpos (fun f =>
                 { f with field_type :=
                     match typeCellIdx with
                     | some i => parse_field_type (cellAt row i) f.field_type
                     | Option.none => f.field_type }) }),
                   report := { st.report with fields_updated := st.report.fields_updated + 1 } },
         fpos)
  let st := stAndFieldPos.1
  let fieldPos := stAndFieldPos.2
  let fieldType := (((st.sections.getD sectionPos default).fields.getD fieldPos default)).field_type
  let st :=
    match colGet hm (S "value ru") with
    | some i =>
        { st with sections := listModify st.sections sectionPos (fun s =>
            { s with fields := listModify s.fields fieldPos (fun f =>
                { f with value_ru := coerce_value (cellAt row i) fieldType }) }) }
    | Option.none => st
  let st :=
    match colGet hm (S "value en") with
    | some i =>
        { st with sections := listModify st.sections sectionPos (fun s =>
            { s with fields := listModify s.fields fieldPos (fun f =>
                { f with value_en := coerce_value (cellAt row i) fieldType }) }) }
    | Option.none => st
  return st

/-- The characteristics row loop. -/
def charRowsLoop (hm : List (PyStr × Nat)) :
    CharState → Nat → List (List Cell) → Except PyExn CharState
  | st, _, [] => .ok st
  | st, i, r :: rest => do
      let st' ← processCharRow hm st i r
      charRowsLoop hm st' (i + 1) rest

/-- The required characteristics-import headers. -/
def charRequiredColumns : List PyStr :=
  [S "label en", S "label ru", S "value en", S "value ru", S "секция", S "тип поля"]

/-- `exporters.import_characteristics_from_sheet` (body-level semantics;
    the module-import failure established for claim C1 is modelled only on
    `import_projects_from_excel`).  An empty sheet or missing required
    columns return a **2-tuple** `(sections, errors)`; otherwise the
    function's line `section_index = {normalize(section.title): section for
    section in sections_copy}` runs before the local `def normalize` below it
    is bound, so any project with existing characteristic sections raises
    `NameError`/`UnboundLocalError`; with no existing sections the
    comprehension is empty, nothing is evaluated, and the row loop runs and
    returns a **3-tuple** `(sections, errors, report)`. -/
def import_characteristics_from_sheet (sheet : Sheet) (project : Project) :
    Except PyExn CharResult :=
  match sheet with
  | [] => .ok (.pair [] [S "Файл Excel пуст"])
  | headerRow :: _ =>
      let hm := headerMapOf headerRow
      let missing := charRequiredColumns.filter (fun k => (alook hm k).isNone)
      if missing ≠ [] then .ok (.pair [] [missingColumnsMsg missing])
      else if project.characteristics ≠ [] then .error .unboundLocalError
      else do
        let st0 : CharState := ⟨[], [], -1, [], ⟨0, 0, 0, 0⟩⟩
        let st ← charRowsLoop hm st0 2 (sheet.drop 1)
        let sections := List.insertionSort (orderLe CharacteristicSection.order) st.sections
        let sections := sections.map (fun s =>
          { s with fields := List.insertionSort (orderLe CharacteristicField.order) s.fields })
        return .triple sections st.errors st.report

/-- `exporters.import_characteristics_from_excel`: unreadable bytes return a
    2-tuple `([], [error])`; a readable workbook defers to the sheet-level
    importer on the active sheet. -/
def import_characteristics_from_excel (content : Except PyStr Workbook) (project : Project) :
    Except PyExn CharResult :=
  match content with
  | .error e => .ok (.pair [] [S "Не удалось прочитать Excel: " ++ e])
  | .ok wb => import_characteristics_from_sheet wb.active project

/-! ### Claim-side definitions and concrete fixtures used by the theorems -/

/-- The boolean token set as the spec sentence claims it
    (`{"1","true","yes","on","да"}`); to be compared against the source's
    actual token set in `parse_bool`. -/
def specClaimedBoolTokens : List PyStr := [S "1", S "true", S "yes", S "on", S "да"]

/-- The stage fields claim C2 asserts the round trip preserves: title, order,
    status, plannedStart, plannedEnd, riskFlag, and the checklist's
    title/done pairs. -/
def stageView (s : GTMStage) :
    PyStr × Int × StageStatus × Option PyDate × Option PyDate × Bool × List (PyStr × Bool) :=
  (s.title, s.order, s.status, s.planned_start, s.planned_end, s.risk_flag,
   s.checklist.map (fun c => (c.title, c.done)))

/-- The stage entity the single-sheet import reconstructs from a stage's
    exported rows: a fresh id, the same descriptive fields, and the checklist
    renumbered 0, 1, 2, … in parsed order. -/
def convStage (idv : Nat) (s : GTMStage) : GTMStage :=
  { id := idv, title := s.title, description := s.description, order := s.order,
    planned_start := s.planned_start, planned_end := s.planned_end, actual_end := s.actual_end,
    status := s.status, risk_flag := s.risk_flag,
    checklist := s.checklist.enum.map (fun p => ⟨p.2.title, p.2.done, (p.1 : Int)⟩) }

/-- The stage entities reconstructed for a list of exported stages, with
    fresh ids counted from `a` (`convStage` applied positionally). -/
def convList (a : Nat) : List GTMStage → List GTMStage
  | [] => []
  | s :: rest => convStage a s :: convList (a + 1) rest

/-- Is an integer list nondecreasing? -/
def ordersNondecreasing : List Int → Bool
  | [] => true
  | [_] => true
  | a :: b :: r => a ≤ b && ordersNondecreasing (b :: r)

/-- A checklist item that survives the `"; "`-join / `";"`-split / strip /
    marker round trip: a nonempty stripped title containing no `;`. -/
def validChecklistItem (c : ChecklistItem) : Bool :=
  c.title ≠ [] && pyStrip c.title == c.title && !(c.title.contains ';')

/-- Stage data that is valid for the export→import round trip: a nonempty
    stripped title and a checklist of valid items already sorted by order. -/
def validStage (s : GTMStage) : Bool :=
  s.title ≠ [] && pyStrip s.title == s.title &&
    s.checklist.all validChecklistItem &&
    ordersNondecreasing (s.checklist.map ChecklistItem.order)

/-- A project whose stages contain only valid data: every stage valid, and
    stage titles pairwise distinct under the import's natural key
    (case-insensitive, trimmed). -/
def validGtmProject (p : Project) : Bool :=
  p.gtm_stages.all validStage &&
    decide ((p.gtm_stages.map (fun s => pyNormalize s.title)).Nodup)

/-- Is a characteristics-import input structural: unreadable bytes, an
    empty active sheet, or a header row missing a required column? -/
def charStructural (content : Except PyStr Workbook) : Bool :=
  match content with
  | .error _ => true
  | .ok wb =>
      match wb.active with
      | [] => true
      | headerRow :: _ =>
          (charRequiredColumns.filter (fun k => (alook (headerMapOf headerRow) k).isNone)) ≠ []

/-- Does the characteristics import return the 2-tuple shape? -/
def CharResult.isPair : CharResult → Bool
  | .pair _ _ => true
  | .triple _ _ _ => false

/-- A data row for the exported GTM header layout: one stage (`S`, order 1)
    carrying one task (`T`, order 1) whose status cell is the argument. -/
def taskStatusRow (statusCell : Cell) : List Cell :=
  [Cell.int 1, Cell.str (S "S"), Cell.none, Cell.none, Cell.none, Cell.none, Cell.none,
   Cell.none, Cell.none, Cell.int 1, Cell.str (S "T"), Cell.none, statusCell, Cell.none,
   Cell.none, Cell.none, Cell.none, Cell.none, Cell.none, Cell.none, Cell.none]

/-- The header row of the project-import fixtures: the four required columns
    plus every column the row loop reads unconditionally. -/
def projectFixtureHeader : List Cell :=
  [Cell.str (S "Название проекта"), Cell.str (S "Продуктовая группа"), Cell.str (S "Бренд"),
   Cell.str (S "Статус"), Cell.str (S "Рынок/регион"), Cell.str (S "Плановая дата запуска"),
   Cell.str (S "Фактическая дата запуска"), Cell.str (S "Приоритет"),
   Cell.str (S "Краткое описание"), Cell.str (S "Полное описание"), Cell.str (S "Короткий ID")]

/-- A project whose group name (`Ghost`) matches nothing in the fixture
    group list. -/
def badGroupRow : List Cell :=
  [Cell.str (S "P1"), Cell.str (S "Ghost"), Cell.str (S "B"), Cell.none, Cell.none,
   Cell.none, Cell.none, Cell.none, Cell.none, Cell.none, Cell.none]

/-- A stage-only data row for the exported GTM header layout: order 1,
    title `Alpha`, all other cells empty. -/
def dupTitleRow1 : List Cell :=
  [Cell.int 1, Cell.str (S "Alpha"), Cell.none, Cell.none, Cell.none, Cell.none, Cell.none,
   Cell.none, Cell.none, Cell.none, Cell.none, Cell.none, Cell.none, Cell.none, Cell.none,
   Cell.none, Cell.none, Cell.none, Cell.none, Cell.none, Cell.none]

/-- Like `dupTitleRow1` but titled `ALPHA` with order 2: the same natural key. -/
def dupTitleRow2 : List Cell :=
  [Cell.int 2, Cell.str (S "ALPHA"), Cell.none, Cell.none, Cell.none, Cell.none, Cell.none,
   Cell.none, Cell.none, Cell.none, Cell.none, Cell.none, Cell.none, Cell.none, Cell.none,
   Cell.none, Cell.none, Cell.none, Cell.none, Cell.none, Cell.none]

/-- The single stage the `dupTitleRow1`/`dupTitleRow2` import produces. -/
def dupTitleStage : GTMStage :=
  { id := 0, title := S "Alpha", description := Option.none, order := 1,
    planned_start := Option.none, planned_end := Option.none, actual_end := Option.none,
    status := StageStatus.NOT_STARTED, risk_flag := false, checklist := [] }

/-- An empty project fixture (no stages, no characteristics). -/
def emptyProject : Project :=
  { id := S "11111111-2222-3333-4444-555555555555", short_id := Option.none, group_id := 0,
    name := S "P", brand := S "B", market := Cell.str (S "M"), moq := Cell.none,
    promo_price := Cell.none, rrp_price := Cell.none, fob_price := Cell.none,
    short_description := Cell.none, full_description := Cell.none,
    status := ProjectStatus.ACTIVE, current_gtm_stage_id := Option.none,
    planned_launch := Option.none, actual_launch := Option.none, priority := Option.none,
    custom_fields := [], gtm_stages := [], tasks := [], characteristics := [] }

/-- A two-stage project (orders reversed, checklists, a task) used to witness
    the export→import round trip. -/
def c2proj : Project :=
  { emptyProject with
      gtm_stages :=
        [{ id := 5, title := S "Запуск", description := some (S "D"), order := 2,
           planned_start := some ⟨2024, 1, 10⟩, planned_end := some ⟨2024, 2, 10⟩,
           actual_end := Option.none, status := StageStatus.IN_PROGRESS, risk_flag := true,
           checklist := [⟨S "пункт один", true, 0⟩, ⟨S "пункт два", false, 3⟩] },
         { id := 6, title := S "Идея", description := Option.none, order := 1,
           planned_start := Option.none, planned_end := Option.none,
           actual_end := Option.none, status := StageStatus.DONE, risk_flag := false,
           checklist := [] }],
      tasks := [⟨9, S "Задача", Option.none, TaskStatus.TODO, Option.none, false,
                 TaskUrgency.NORMAL, some 5, [], []⟩] }

/-- The stage-list invariant of the single-sheet import loop: lowercased
    stage titles are pairwise distinct, and every stage's key is registered
    in the stage index. -/
def StagesInv (st : GtmState) : Prop :=
  (st.stages.map (fun s => pyLower s.title)).Nodup ∧
    ∀ s ∈ st.stages, pyLower s.title ∈ st.stageIdx.map Prod.fst

/-! ## Theorems settling the claims -/

/-- `alook` finds a value exactly when the key occurs. -/
theorem alook_isSome_iff {κ α : Type} [DecidableEq κ] (m : List (κ × α)) (k : κ) :
    (alook m k).isSome ↔ k ∈ m.map Prod.fst := by
  induction m with
  | nil => simp [alook]
  | cons p rest ih =>
      by_cases h : k = p.1
      · simp [alook, h]
      · simp [alook, h, ih]

/-- Keys after a dict insertion. -/
theorem dinsert_mem_keys {κ α : Type} [DecidableEq κ] (m : List (κ × α)) (k : κ) (v : α)
    (k' : κ) : k' ∈ (dinsert m k v).map Prod.fst ↔ k' = k ∨ k' ∈ m.map Prod.fst := by
  induction m with
  | nil => simp [dinsert]
  | cons p rest ih =>
      by_cases h : k = p.1
      · subst h
        simp [dinsert]
      · simp only [dinsert, if_neg h, List.map_cons, List.mem_cons, ih]
        tauto

/-- C1: `PROJECT_STATUS_ALIASES` names the enum members `IN_PROGRESS`,
    `LAUNCHED` and `EOL`, none of which the `ProjectStatus` enum defines
    (it has only `ACTIVE`, `CLOSED`, `ARCHIVED`); evaluating the
    module-level table therefore fails, and `import_projects_from_excel`
    raises `AttributeError` instead of producing a result, for every input. -/
theorem c1_alias_table_breaks_module (content : Except PyStr Workbook)
    (groups : List ProductGroup) (existing : List Project) (u : Nat) :
    ProjectStatus.memberGet (S "IN_PROGRESS") = Option.none ∧
    ProjectStatus.memberGet (S "LAUNCHED") = Option.none ∧
    ProjectStatus.memberGet (S "EOL") = Option.none ∧
    PROJECT_STATUS_ALIASES = Option.none ∧
    import_projects_from_excel content groups existing u = .error PyExn.attributeError := by
  refine ⟨by decide, by decide, by decide, by decide, ?_⟩
  have h : exportersModuleEval = .error PyExn.attributeError := rfl
  simp [import_projects_from_excel, h, Bind.bind, Except.bind]

/-- C3: a spreadsheet whose header row lacks the stage-title column
    (`"название этапа"`) makes the GTM import return an empty stage list, an
    empty task list and exactly one structural error, whatever else the file
    contains. -/
theorem c3_missing_stage_title (wb : Workbook) (headerRow : List Cell) (rest : Sheet)
    (now : PyDateTime) (a b : Nat)
    (h : colGet (headerMapOf headerRow) (S "название этапа") = Option.none) :
    import_gtm_stages_from_sheet wb (headerRow :: rest) now a b =
      .ok ([], [], [S "Отсутствуют обязательные столбцы: название этапа"]) := by
  simp [import_gtm_stages_from_sheet, h]

/-- Witness for C3 at a concrete two-row sheet whose header is `foo`. -/
theorem c3_witness :
    import_gtm_stages_from_sheet ⟨[]⟩ [[Cell.str (S "foo")], [Cell.str (S "бар")]]
        ⟨2024, 1, 1, 0, 0, 0⟩ 0 0 =
      .ok ([], [], [S "Отсутствуют обязательные столбцы: название этапа"]) :=
  c3_missing_stage_title ⟨[]⟩ [Cell.str (S "foo")] [[Cell.str (S "бар")]]
    ⟨2024, 1, 1, 0, 0, 0⟩ 0 0 (by decide)

/-- C5 counterexample: `_parse_bool` also accepts `"y"` (and `"oui"`), so it
    does not return true *exactly* on the claimed token set
    `{"1","true","yes","on","да"}`: `"y"` coerces to true yet is not a
    claimed token. -/
theorem c5_counterexample :
    parse_bool (Cell.str (S "y")) = true ∧
      specClaimedBoolTokens.contains (pyNormalize (cellToStr (Cell.str (S "y")))) = false := by
  decide

/-- C5 amended: `_parse_bool` returns true exactly when its input is the
    boolean `True`, or is a non-boolean, non-`None` value whose
    stringification, stripped and lowercased, is one of
    `"1","true","да","y","yes","oui","on"`; every other input (including
    `None`, `""`, `"0"`, `"false"`, `"maybe"`) gives false. -/
theorem c5_amended (c : Cell) :
    parse_bool c = true ↔
      (c = Cell.bool true ∨
        ((∀ b, c ≠ Cell.bool b) ∧ c ≠ Cell.none ∧
          pyNormalize (cellToStr c) ∈
            [S "1", S "true", S "да", S "y", S "yes", S "oui", S "on"])) := by
  cases c <;> simp [parse_bool]

/-- C6: number coercion parses `"12,5"` (comma as decimal separator) to the
    float 12.5 and `"10"` to the integer 10; every successfully parsed finite
    value with no fractional part collapses to an integer; and a string the
    cleaned parse rejects is returned unchanged rather than recorded as an
    error. -/
theorem c6_number_coercion :
    coerce_value (Cell.str (S "12,5")) FieldType.NUMBER = Cell.float (.fin 125 1) ∧
    (PyFloatVal.fin 125 1).toRat = 25 / 2 ∧
    coerce_value (Cell.str (S "10")) FieldType.NUMBER = Cell.int 10 ∧
    (∀ s n, pyFloatOfChars (numberClean s) = some (.fin n 0) →
      coerce_value (Cell.str s) FieldType.NUMBER = Cell.int n) ∧
    (∀ s, pyFloatOfChars (numberClean s) = Option.none →
      coerce_value (Cell.str s) FieldType.NUMBER = Cell.str s) := by
  refine ⟨by decide, by norm_num [PyFloatVal.toRat], by decide, ?_, ?_⟩
  · intro s n h
    simp [coerce_value, cellToStr, h, PyFloatVal.isInteger, PyFloatVal.trunc, Int.tdiv_one]
  · intro s h
    simp [coerce_value, cellToStr, h]

/-- Witness for C6's universally quantified parts: non-numeric text falls
    back to the raw string, and `" 7,0 "` collapses to the integer 7. -/
theorem c6_witness :
    coerce_value (Cell.str (S "abc")) FieldType.NUMBER = Cell.str (S "abc") ∧
    coerce_value (Cell.str (S " 7,0 ")) FieldType.NUMBER = Cell.int 7 := by
  refine ⟨c6_number_coercion.2.2.2.2 (S "abc") (by decide), ?_⟩
  exact c6_number_coercion.2.2.2.1 (S " 7,0 ") 7 (by decide)

/-- C4 counterexample: a data row whose task-status cell is `"banana"`
    (matching no alias and no `TaskStatus` member name) produces **no** row
    error — the error list stays empty — and the task is silently created
    with the default status `TODO`. -/
theorem c4_counterexample :
    (import_gtm_single_sheet (gtmHeaderRow :: [taskStatusRow (Cell.str (S "banana"))])
        (headerMapOf gtmHeaderRow) ⟨2024, 1, 1, 0, 0, 0⟩ 0 0).map
      (fun r => (r.2.2, r.2.1.map Task.status)) = .ok ([], [TaskStatus.TODO]) := by
  decide

/-- Frame lemma for the task part of the single-sheet row loop: whatever it
    does to tasks, it never touches the stage list, the stage index, the
    stage-id counter — or the error list (no row error is ever appended by
    the task/subtask/comment handling). -/
theorem processGtmRowTasks_preserves (hm : List (PyStr × Nat)) (now : PyDateTime)
    (st : GtmState) (stagePos : Nat) (row : List Cell) (st' : GtmState)
    (h : processGtmRowTasks hm now st stagePos row = .ok st') :
    st'.stages = st.stages ∧ st'.stageIdx = st.stageIdx ∧ st'.stageNext = st.stageNext ∧
      st'.errors = st.errors := by
  unfold processGtmRowTasks at h
  simp only [bind, Except.bind, pure, Except.pure] at h
  repeat' split at h
  any_goals cases h
  all_goals exact ⟨rfl, rfl, rfl, rfl⟩

/-- C4 amended: in the single-sheet GTM import, the task-status parse maps a
    non-empty string matching no alias and no enum member name to the
    default `TaskStatus.TODO` (the exact lookup the import runs for the
    task-status cell), and the task part of the row loop never appends a row
    error — the unknown status is silently defaulted, not reported. -/
theorem c4_amended (s : PyStr) (hne : s ≠ [])
    (halias : alook TASK_STATUS_ALIASES (pyNormalize s) = Option.none)
    (hmem : TaskStatus.memberGet (pyUpper (pyStrip s)) = Option.none)
    (hm : List (PyStr × Nat)) (now : PyDateTime) (st : GtmState) (stagePos : Nat)
    (row : List Cell) (st' : GtmState)
    (hrun : processGtmRowTasks hm now st stagePos row = .ok st') :
    parseTaskStatus (Cell.str s) = TaskStatus.TODO ∧ st'.errors = st.errors := by
  refine ⟨?_, (processGtmRowTasks_preserves hm now st stagePos row st' hrun).2.2.2⟩
  simp [parseTaskStatus, cellTruthy, hne, cellToStr, halias, hmem]

/-- Witness for C4's amended claim: the status string `"хурма"` on the
    concrete one-task fixture row. -/
theorem c4_amended_witness :
    parseTaskStatus (Cell.str (S "хурма")) = TaskStatus.TODO ∧
      (⟨[], [], [⟨7, S "T", Option.none, TaskStatus.TODO, Option.none, false,
          TaskUrgency.NORMAL, some 0, [], []⟩], [((0, S "t", 1), 0)], [], 3, 8⟩ : GtmState).errors =
        (⟨[], [], [], [], [], 3, 7⟩ : GtmState).errors :=
  c4_amended (S "хурма") (by decide) (by decide) (by decide)
    (headerMapOf gtmHeaderRow) ⟨2023, 5, 6, 0, 0, 0⟩ ⟨[], [], [], [], [], 3, 7⟩ 0
    (taskStatusRow (Cell.str (S "banana2")))
    ⟨[], [], [⟨7, S "T", Option.none, TaskStatus.TODO, Option.none, false,
        TaskUrgency.NORMAL, some 0, [], []⟩], [((0, S "t", 1), 0)], [], 3, 8⟩
    (by decide)

/-- C7: in the project import's row loop, a data row with a project name but
    a product-group cell that has no case-insensitive exact match in the
    group dict appends a row error tagged with the 1-based row number and
    leaves the parsed project list unchanged — the project is dropped, not
    created with a null group. -/
theorem c7_unmatched_group (hm : List (PyStr × Nat)) (cfColumns : List PyStr)
    (groupByName : List (PyStr × ProductGroup)) (existingById : List (PyStr × Project))
    (parsed : List Project) (errors : List PyStr) (u : Nat) (rowIndex : Nat) (row : List Cell)
    (ni gi : Nat)
    (hnotempty : row.all (fun c => c == Cell.none) = false)
    (hNameCol : colGet hm (S "название проекта") = some ni)
    (hname : cellTruthy (cellAt row ni) = true)
    (hGroupCol : colGet hm (S "продуктовая группа") = some gi)
    (hnomatch : (if cellTruthy (cellAt row gi) then
        alook groupByName (pyNormalize (cellToStr (cellAt row gi))) else Option.none) =
        Option.none) :
    processProjectRow hm cfColumns groupByName existingById (parsed, errors, u) rowIndex row =
      .ok (parsed,
           errors ++ [S "Строка " ++ natChars rowIndex ++ S ": продуктовая группа \x27" ++
                      cellToStr (cellAt row gi) ++ S "\x27 не найдена"],
           u) := by
  simp [processProjectRow, hnotempty, hNameCol, hname, hGroupCol, rowAt, hnomatch,
    bind, Except.bind, pure, Except.pure]

/-- Witness for C7: a concrete row naming the group `Ghost` against a group
    dict that only knows `real`. -/
theorem c7_witness :
    processProjectRow (headerMapOf projectFixtureHeader) []
        [(S "real", ⟨1, S "Real"⟩)] [] ([], [], 0) 2 badGroupRow =
      .ok ([], [S "Строка 2: продуктовая группа \x27Ghost\x27 не найдена"], 0) := by
  have h := c7_unmatched_group (headerMapOf projectFixtureHeader) []
    [(S "real", ⟨1, S "Real"⟩)] [] [] [] 0 2 badGroupRow 0 1
    (by decide) (by decide) (by decide) (by decide) (by decide)
  simpa using h

/-- C10 counterexample: the 2-tuple return is **not** limited to an
    unreadable byte stream or a sheet with no header row — a readable sheet
    that has a header row but lacks the required columns also returns only a
    pair, so the claim's "exactly" is wrong. -/
theorem c10_counterexample :
    (import_characteristics_from_sheet [[Cell.str (S "foo")]] emptyProject).map
        CharResult.isPair = .ok true ∧
      ([[Cell.str (S "foo")]] : Sheet) ≠ [] := by
  decide

/-- C10 amended: the characteristics import returns the 2-tuple
    `(sections, errors)` exactly on the structural-error inputs — an
    unreadable byte stream, a sheet with no header row, or a header row
    missing a required column — and a caller that unpacks three values
    raises `ValueError` on every such result. -/
theorem c10_amended (content : Except PyStr Workbook) (project : Project) :
    ((import_characteristics_from_excel content project).map CharResult.isPair = .ok true ↔
      charStructural content = true) ∧
    (∀ r, import_characteristics_from_excel content project = .ok r → r.isPair = true →
      unpack3 r = .error PyExn.valueError) := by
  constructor
  · cases content with
    | error e =>
        simp [import_characteristics_from_excel, charStructural, CharResult.isPair, Except.map]
    | ok wb =>
        cases hact : wb.active with
        | nil =>
            simp [import_characteristics_from_excel, import_characteristics_from_sheet,
              charStructural, hact, CharResult.isPair, Except.map]
        | cons headerRow rest =>
            by_cases hmiss :
                (charRequiredColumns.filter (fun k => (alook (headerMapOf headerRow) k).isNone)) = []
            · by_cases hchar : project.characteristics = []
              · cases hloop : charRowsLoop (headerMapOf headerRow)
                    ⟨[], [], -1, [], ⟨0, 0, 0, 0⟩⟩ 2 rest with
                | error e =>
                    simp [import_characteristics_from_excel, import_characteristics_from_sheet,
                      charStructural, hact, hmiss, hchar, hloop, bind, Except.bind,
                      CharResult.isPair, pure, Except.pure, Except.map]
                | ok stv =>
                    simp [import_characteristics_from_excel, import_characteristics_from_sheet,
                      charStructural, hact, hmiss, hchar, hloop, bind, Except.bind,
                      CharResult.isPair, pure, Except.pure, Except.map]
              · simp [import_characteristics_from_excel, import_characteristics_from_sheet,
                  charStructural, hact, hmiss, hchar, CharResult.isPair, Except.map]
            · simp [import_characteristics_from_excel, import_characteristics_from_sheet,
                charStructural, hact, hmiss, CharResult.isPair, Except.map]
  · intro r hr hp
    cases r with
    | pair s e => rfl
    | triple s e rep => simp [CharResult.isPair] at hp

/-- Witness for C10's amended claim: an unreadable byte stream yields the
    pair shape, and three-value unpacking of that pair raises. -/
theorem c10_witness :
    (import_characteristics_from_excel (.error (S "bad zip")) emptyProject).map
        CharResult.isPair = .ok true ∧
      unpack3 (.pair [] [S "Не удалось прочитать Excel: bad zip"]) = .error PyExn.valueError :=
  ⟨(c10_amended (.error (S "bad zip")) emptyProject).1.mpr (by decide),
   (c10_amended (.error (S "bad zip")) emptyProject).2
     (.pair [] [S "Не удалось прочитать Excel: bad zip"]) (by decide) (by decide)⟩

/-- Frame lemma for the stage-creation arm: on success it appends exactly
    one stage, whose lowercased title is the natural key the loop computed,
    and registers that key in the index at the old length. -/
theorem createGtmStage_frame (hm : List (PyStr × Nat)) (st : GtmState) (i : Nat)
    (row : List Cell) (key : PyStr) (titleRaw : Cell) (st1 : GtmState) (pos : Nat)
    (hkey : key = pyNormalize (cellToStr titleRaw))
    (h : createGtmStage hm st i row key titleRaw = .ok (st1, pos)) :
    ∃ stage : GTMStage, st1.stages = st.stages ++ [stage] ∧
      pyLower stage.title = key ∧
      st1.stageIdx = dinsert st.stageIdx key st.stages.length := by
  subst hkey
  unfold createGtmStage at h
  simp only [bind, Except.bind, pure, Except.pure] at h
  repeat' split at h
  any_goals cases h
  all_goals exact ⟨_, rfl, rfl, rfl⟩

/-- `StagesInv` only looks at the stage list and stage index. -/
theorem StagesInv_congr (st st' : GtmState) (h1 : st'.stages = st.stages)
    (h2 : st'.stageIdx = st.stageIdx) (h : StagesInv st) : StagesInv st' := by
  unfold StagesInv at *
  rw [h1, h2]
  exact h

/-- Appending a freshly keyed stage preserves the invariant. -/
theorem StagesInv_after_create (st st1 : GtmState) (stage : GTMStage) (key : PyStr)
    (hs : st1.stages = st.stages ++ [stage]) (hk : pyLower stage.title = key)
    (hi : st1.stageIdx = dinsert st.stageIdx key st.stages.length)
    (hfresh : alook st.stageIdx key = Option.none) (hinv : StagesInv st) : StagesInv st1 := by
  have hkeyfresh : key ∉ st.stageIdx.map Prod.fst := by
    intro hmem
    have hsome := (alook_isSome_iff st.stageIdx key).mpr hmem
    rw [hfresh] at hsome
    cases hsome
  have hnotstage : key ∉ st.stages.map (fun s => pyLower s.title) := by
    intro hmem
    obtain ⟨s, hsmem, hseq⟩ := List.mem_map.mp hmem
    exact hkeyfresh (hseq ▸ hinv.2 s hsmem)
  constructor
  · rw [hs, List.map_append]
    rw [List.nodup_append]
    refine ⟨hinv.1, by simp, ?_⟩
    intro x hx
    simp only [List.map_cons, List.map_nil, List.mem_singleton, hk]
    intro hxk
    subst hxk
    exact hnotstage hx
  · intro s hsmem
    rw [hs] at hsmem
    rw [hi]
    rcases List.mem_append.mp hsmem with h1 | h1
    · exact (dinsert_mem_keys _ _ _ _).mpr (Or.inr (hinv.2 s h1))
    · have : s = stage := by simpa using h1
      subst this
      exact (dinsert_mem_keys _ _ _ _).mpr (Or.inl hk)

/-- One row of the single-sheet import loop preserves the stage invariant. -/
theorem processGtmRow_inv (hm : List (PyStr × Nat)) (now : PyDateTime) (st : GtmState)
    (i : Nat) (row : List Cell) (st' : GtmState)
    (h : processGtmRow hm now st i row = .ok st') (hinv : StagesInv st) : StagesInv st' := by
  unfold processGtmRow at h
  simp only [bind, Except.bind, pure, Except.pure] at h
  split at h
  · injection h with h
    subst h
    exact hinv
  · split at h
    · cases h
    · split at h
      · injection h with h
        subst h
        exact StagesInv_congr st _ rfl rfl hinv
      · split at h
        · have hp := processGtmRowTasks_preserves _ _ _ _ _ _ h
          exact StagesInv_congr st st' hp.1 hp.2.1 hinv
        · rename_i hfresh
          split at h
          · cases h
          · rename_i ps hcreate
            have hframe := createGtmStage_frame _ _ _ _ _ _ ps.1 ps.2 rfl hcreate
            obtain ⟨stage, hs, hk, hi⟩ := hframe
            have hinv1 := StagesInv_after_create st ps.1 stage _ hs hk hi hfresh hinv
            have hp := processGtmRowTasks_preserves _ _ _ _ _ _ h
            exact StagesInv_congr ps.1 st' hp.1 hp.2.1 hinv1

/-- The whole row loop preserves the stage invariant. -/
theorem gtmRowsLoop_inv (hm : List (PyStr × Nat)) (now : PyDateTime) :
    ∀ (rows : List (List Cell)) (st : GtmState) (i : Nat) (st' : GtmState),
      gtmRowsLoop hm now st i rows = .ok st' → StagesInv st → StagesInv st'
  | [], st, _, st', h, hinv => by
      unfold gtmRowsLoop at h
      injection h with h
      subst h
      exact hinv
  | r :: rest, st, i, st', h, hinv => by
      unfold gtmRowsLoop at h
      simp only [bind, Except.bind] at h
      cases hr : processGtmRow hm now st i r with
      | error e => rw [hr] at h; cases h
      | ok st1 =>
          rw [hr] at h
          exact gtmRowsLoop_inv hm now rest st1 (i + 1) st' h
            (processGtmRow_inv hm now st i r st1 hr hinv)

/-- C8: whenever the single-sheet GTM import returns a result, its stage
    list never contains two stages with the same case-insensitive title:
    rows sharing a (trimmed, lowercased) stage title all fold into the first
    stage object created for that key. -/
theorem c8_no_duplicate_stage_titles (sheet : Sheet) (hm : List (PyStr × Nat))
    (now : PyDateTime) (a b : Nat) (stages : List GTMStage) (tasks : List Task)
    (errors : List PyStr)
    (h : import_gtm_single_sheet sheet hm now a b = .ok (stages, tasks, errors)) :
    stages.Pairwise (fun s t => pyLower s.title ≠ pyLower t.title) := by
  unfold import_gtm_single_sheet at h
  simp only [bind, Except.bind, pure, Except.pure] at h
  cases hloop : gtmRowsLoop hm now ⟨[], [], [], [], [], a, b⟩ 2 (sheet.drop 1) with
  | error e => rw [hloop] at h; cases h
  | ok stv =>
      rw [hloop] at h
      injection h with h
      have h1 : stages =
          (List.insertionSort (orderLe GTMStage.order) stv.stages).map (fun s =>
            { s with checklist := List.insertionSort (orderLe ChecklistItem.order) s.checklist }) := by
        have := congrArg Prod.fst h
        exact this.symm
      have hinv := gtmRowsLoop_inv hm now (sheet.drop 1) ⟨[], [], [], [], [], a, b⟩ 2 stv hloop
        ⟨List.nodup_nil, by intro s hs; cases hs⟩
      have hnd : (stv.stages.map (fun s => pyLower s.title)).Nodup := hinv.1
      have hperm : (List.insertionSort (orderLe GTMStage.order) stv.stages).Perm stv.stages :=
        List.perm_insertionSort _ _
      have hnd2 : ((List.insertionSort (orderLe GTMStage.order) stv.stages).map
          (fun s => pyLower s.title)).Nodup := ((hperm.map _).nodup_iff).mpr hnd
      have hnd3 : (stages.map (fun s => pyLower s.title)).Nodup := by
        rw [h1, List.map_map]
        exact hnd2
      exact List.pairwise_map.mp hnd3

/-- Witness for C8: two data rows titled `Alpha` and `ALPHA` import into a
    single stage, trivially pairwise distinct under the case-insensitive
    title. -/
theorem c8_witness :
    [dupTitleStage].Pairwise (fun s t => pyLower s.title ≠ pyLower t.title) :=
  c8_no_duplicate_stage_titles (gtmHeaderRow :: [dupTitleRow1, dupTitleRow2])
    (headerMapOf gtmHeaderRow) ⟨2024, 1, 1, 0, 0, 0⟩ 0 0 _ [] [] (by decide)

/-! ### Lemmas for the export→import round trip (C2) -/

/-- A list untouched by `dropWhile` has an unsatisfying head. -/
theorem dropWhile_eq_self_head {α : Type} (p : α → Bool) (l : List α)
    (h : l.dropWhile p = l) : ∀ c, l.head? = some c → p c = false := by
  intro c hc
  cases l with
  | nil => cases hc
  | cons a rest =>
      injection hc with hc
      subst hc
      by_contra hp
      rw [List.dropWhile_cons] at h
      rw [if_pos (by simpa using hp)] at h
      have hlen := (List.dropWhile_sublist (p := p) (l := rest)).length_le
      rw [h] at hlen
      simp at hlen

/-- A list whose head does not satisfy the predicate is untouched by
    `dropWhile`. -/
theorem dropWhile_eq_self_of_head {α : Type} (p : α → Bool) (l : List α)
    (h : ∀ c, l.head? = some c → p c = false) : l.dropWhile p = l := by
  cases l with
  | nil => rfl
  | cons a rest =>
      rw [List.dropWhile_cons, if_neg]
      simp [h a rfl]

/-- A strip-invariant string is untouched by both directional `dropWhile`s. -/
theorem pyStrip_parts (l : PyStr) (h : pyStrip l = l) :
    l.dropWhile pyIsSpace = l ∧ l.reverse.dropWhile pyIsSpace = l.reverse := by
  unfold pyStrip at h
  have hul : (l.dropWhile pyIsSpace).length ≤ l.length :=
    (List.dropWhile_sublist (p := pyIsSpace) (l := l)).length_le
  have hvu : ((l.dropWhile pyIsSpace).reverse.dropWhile pyIsSpace).length ≤
      (l.dropWhile pyIsSpace).length := by
    have := (List.dropWhile_sublist (p := pyIsSpace)
      (l := (l.dropWhile pyIsSpace).reverse)).length_le
    simpa using this
  have hlv : ((l.dropWhile pyIsSpace).reverse.dropWhile pyIsSpace).length = l.length := by
    have := congrArg List.length h
    simpa using this
  have huEq : l.dropWhile pyIsSpace = l :=
    (List.dropWhile_sublist (p := pyIsSpace) (l := l)).eq_of_length (by omega)
  refine ⟨huEq, ?_⟩
  rw [huEq] at h hlv
  have : l.reverse.dropWhile pyIsSpace = l.reverse :=
    (List.dropWhile_sublist (p := pyIsSpace) (l := l.reverse)).eq_of_length (by simpa using hlv)
  exact this

/-- The head of a nonempty strip-invariant string is not whitespace. -/
theorem pyStrip_head_not_space (t : PyStr) (h : pyStrip t = t) :
    ∀ c, t.head? = some c → pyIsSpace c = false :=
  dropWhile_eq_self_head _ _ (pyStrip_parts t h).1

/-- The last character of a nonempty strip-invariant string is not
    whitespace. -/
theorem pyStrip_last_not_space (t : PyStr) (h : pyStrip t = t) :
    ∀ c, t.getLast? = some c → pyIsSpace c = false := by
  intro c hc
  exact dropWhile_eq_self_head _ _ (pyStrip_parts t h).2 c (by rwa [List.head?_reverse])

/-- Strings with non-whitespace ends are strip-invariant. -/
theorem pyStrip_eq_self_of (l : PyStr)
    (hh : ∀ c, l.head? = some c → pyIsSpace c = false)
    (hl : ∀ c, l.getLast? = some c → pyIsSpace c = false) : pyStrip l = l := by
  unfold pyStrip
  rw [dropWhile_eq_self_of_head _ _ hh]
  rw [dropWhile_eq_self_of_head _ _ (fun c hc => hl c (by rwa [List.head?_reverse] at hc))]
  exact List.reverse_reverse l

/-- Stripping ignores one leading space. -/
theorem pyStrip_cons_space (l : PyStr) : pyStrip (' ' :: l) = pyStrip l := by
  unfold pyStrip
  rw [List.dropWhile_cons, if_pos (by simp [pyIsSpace])]

/-- Splitting a separator-free string yields one piece. -/
theorem pySplitAux_no_sep (l : PyStr) : ∀ acc, ';' ∉ l →
    pySplitAux ';' l acc = [acc.reverse ++ l] := by
  induction l with
  | nil => intro acc _; simp [pySplitAux]
  | cons c rest ih =>
      intro acc hnot
      have hc : ¬(c == ';') = true := by
        simp only [List.mem_cons, not_or] at hnot
        simp [beq_iff_eq]
        intro hcc
        exact hnot.1 hcc.symm
      rw [pySplitAux, if_neg hc]
      rw [ih (c :: acc) (fun hm => hnot (List.mem_cons_of_mem _ hm))]
      simp

/-- Splitting past the first separator. -/
theorem pySplitAux_sep (a : PyStr) : ∀ acc (r : PyStr), ';' ∉ a →
    pySplitAux ';' (a ++ ';' :: r) acc = (acc.reverse ++ a) :: pySplitAux ';' r [] := by
  induction a with
  | nil =>
      intro acc r _
      simp [pySplitAux]
  | cons c rest ih =>
      intro acc r hnot
      have hc : ¬(c == ';') = true := by
        simp only [List.mem_cons, not_or] at hnot
        simp [beq_iff_eq]
        intro hcc
        exact hnot.1 hcc.symm
      rw [List.cons_append, pySplitAux, if_neg hc]
      rw [ih (c :: acc) r (fun hm => hnot (List.mem_cons_of_mem _ hm))]
      simp

/-- Splitting a `"; "`-join on `;`: the first part survives as-is, later
    parts keep their leading space (with an arbitrary separator-free prefix
    glued onto the first part, to let the induction go through). -/
theorem pySplit_join (ps : List PyStr) : ∀ (p pre : PyStr),
    ';' ∉ pre → ';' ∉ p → (∀ q ∈ ps, ';' ∉ q) →
    pySplit ';' (pre ++ pyJoin (S "; ") (p :: ps)) =
      (pre ++ p) :: ps.map (fun q => ' ' :: q) := by
  induction ps with
  | nil =>
      intro p pre hpre hp _
      unfold pySplit
      rw [pyJoin]
      rw [pySplitAux_no_sep _ _ (by
        intro hm
        rcases List.mem_append.mp hm with h | h
        · exact hpre h
        · exact hp h)]
      simp
  | cons q qs ih =>
      intro p pre hpre hp hqs
      have hjoin0 : pyJoin (S "; ") (p :: q :: qs) =
          p ++ S "; " ++ pyJoin (S "; ") (q :: qs) := rfl
      have hjoin : pyJoin (S "; ") (p :: q :: qs) = p ++ ';' :: ' ' :: pyJoin (S "; ") (q :: qs) := by
        rw [hjoin0]
        simp [S]
      rw [hjoin]
      unfold pySplit
      have hassoc : pre ++ (p ++ ';' :: ' ' :: pyJoin (S "; ") (q :: qs)) =
          (pre ++ p) ++ ';' :: (' ' :: pyJoin (S "; ") (q :: qs)) := by simp
      rw [hassoc]
      rw [pySplitAux_sep _ _ _ (by
        intro hm
        rcases List.mem_append.mp hm with h | h
        · exact hpre h
        · exact hp h)]
      have := ih q [' '] (by simp) (hqs q (by simp)) (fun r hr => hqs r (by simp [hr]))
      unfold pySplit at this
      rw [List.singleton_append] at this
      rw [this]
      simp

/-- `contains = false` means non-membership. -/
theorem contains_false_not_mem (a : Char) : ∀ (l : List Char), l.contains a = false → a ∉ l := by
  intro l
  induction l with
  | nil => intro _ hm; cases hm
  | cons b t ih =>
      intro h hm
      rw [List.contains_cons, Bool.or_eq_false_iff] at h
      rcases List.mem_cons.mp hm with rfl | hmt
      · simp at h
      · exact ih h.2 hmt

/-- `getLast?` looks only at the right part of an append when it is
    nonempty. -/
theorem getLast?_append_right {α : Type} (l₁ l₂ : List α) (h : l₂ ≠ []) :
    (l₁ ++ l₂).getLast? = l₂.getLast? := by
  have h2 : l₂.reverse ≠ [] := by simpa using h
  obtain ⟨a, t, hr⟩ := List.exists_cons_of_ne_nil h2
  rw [← List.head?_reverse, ← List.head?_reverse, List.reverse_append, hr]
  rfl

/-- A nonempty-headed join is nonempty. -/
theorem pyJoin_cons_ne_nil (sep x : PyStr) (xs : List PyStr) (hx : x ≠ []) :
    pyJoin sep (x :: xs) ≠ [] := by
  cases xs with
  | nil => exact hx
  | cons y ys =>
      rw [show pyJoin sep (x :: y :: ys) = x ++ sep ++ pyJoin sep (y :: ys) from rfl]
      simp [hx]

/-- Appending a stripped nonempty string to a prefix with a non-space head
    is strip-invariant. -/
theorem pyStrip_append (m t : PyStr) (a : Char) (hma : m.head? = some a)
    (ha : pyIsSpace a = false) (ht : pyStrip t = t) (hne : t ≠ []) :
    pyStrip (m ++ t) = m ++ t := by
  apply pyStrip_eq_self_of
  · intro c hc
    cases m with
    | nil => cases hma
    | cons x xs =>
        rw [List.head?_cons] at hma
        injection hma with hma
        subst hma
        rw [List.cons_append, List.head?_cons] at hc
        injection hc with hc
        subst hc
        exact ha
  · intro c hc
    rw [getLast?_append_right m t hne] at hc
    exact pyStrip_last_not_space t ht c hc

/-- Rendered checklist items are nonempty. -/
theorem checklistItemChars_ne_nil (c : ChecklistItem) : checklistItemChars c ≠ [] := by
  unfold checklistItemChars
  rcases hd : c.done <;> exact List.cons_ne_nil _ _

/-- Rendered checklist items start with `[`. -/
theorem checklistItemChars_head (c : ChecklistItem) :
    (checklistItemChars c).head? = some '[' := by
  unfold checklistItemChars
  rcases hd : c.done <;> rfl

/-- A semicolon-free title renders to a semicolon-free item. -/
theorem checklistItemChars_no_semi (c : ChecklistItem)
    (h : c.title.contains ';' = false) : ';' ∉ checklistItemChars c := by
  unfold checklistItemChars
  intro hm
  rcases List.mem_append.mp hm with h1 | h1
  · rcases hd : c.done <;> rw [hd] at h1 <;> simp [S] at h1
  · exact contains_false_not_mem ';' c.title h h1

/-- A valid item renders to a strip-invariant string. -/
theorem checklistItemChars_strip (c : ChecklistItem) (hne : c.title ≠ [])
    (hstrip : pyStrip c.title = c.title) :
    pyStrip (checklistItemChars c) = checklistItemChars c := by
  unfold checklistItemChars
  exact pyStrip_append _ _ '[' (by rcases hd : c.done <;> rfl) rfl hstrip hne

/-- `ordersNondecreasing` is the boolean form of `Chain' (≤)`. -/
theorem ordersNondecreasing_chain : ∀ (xs : List Int),
    ordersNondecreasing xs = true ↔ List.Chain' (· ≤ ·) xs
  | [] => by simp [ordersNondecreasing]
  | [a] => by simp [ordersNondecreasing]
  | a :: b :: r => by
      have ih := ordersNondecreasing_chain (b :: r)
      simp [ordersNondecreasing, List.chain'_cons, ih]

/-- A list already nondecreasing in the sort key is fixed by
    `insertionSort`. -/
theorem insertionSort_orderLe_eq_self {α : Type} (f : α → Int) (l : List α)
    (h : ordersNondecreasing (l.map f) = true) :
    List.insertionSort (orderLe f) l = l := by
  apply List.Sorted.insertionSort_eq
  have hch : List.Chain' (· ≤ ·) (l.map f) := (ordersNondecreasing_chain _).mp h
  have hpw : (l.map f).Pairwise (· ≤ ·) := List.chain'_iff_pairwise.mp hch
  have hpw2 : l.Pairwise (fun a b => f a ≤ f b) := List.pairwise_map.mp hpw
  exact hpw2

/-- Mapping a renaming under `enumFrom` commutes with a pointwise-equal
    map. -/
theorem enumFrom_map_map {α β γ : Type} (f : α → β) (F : Nat × β → γ) (G : Nat × α → γ)
    (l : List α) : ∀ n, (∀ c ∈ l, ∀ i, F (i, f c) = G (i, c)) →
    ((l.map f).enumFrom n).map F = (l.enumFrom n).map G := by
  induction l with
  | nil => intro n _; rfl
  | cons a rest ih =>
      intro n h
      simp only [List.map_cons, List.enumFrom_cons, List.map]
      rw [h a (by simp) n, ih (n + 1) (fun c hc i => h c (by simp [hc]) i)]

/-- `parseChecklist` on a nonempty string cell: split, strip, filter,
    read markers, enumerate. -/
theorem parseChecklist_str_nonempty (j : PyStr) (h : j ≠ []) :
    parseChecklist (Cell.str j) =
      (((pySplit ';' j).map pyStrip).filter (fun p => p ≠ [])).enum.map
        (fun p =>
          let item := p.2
          if pyStarts (S "[x]") item then ⟨pyStrip (item.drop 3), true, (p.1 : Int)⟩
          else if pyStarts (S "[ ]") item then ⟨pyStrip (item.drop 3), false, (p.1 : Int)⟩
          else ⟨item, false, (p.1 : Int)⟩) := by
  unfold parseChecklist
  have htr : cellTruthy (Cell.str j) = true := by
    simp only [cellTruthy]
    exact decide_eq_true h
  rw [htr, if_pos rfl]
  rfl

/-- The render of a valid, order-sorted checklist parses back to the same
    titles and done flags, renumbered positionally. -/
theorem parseChecklist_render (cl : List ChecklistItem)
    (hv : ∀ c ∈ cl, validChecklistItem c = true)
    (hsorted : ordersNondecreasing (cl.map ChecklistItem.order) = true) :
    parseChecklist (Cell.str (checklistCellChars cl)) =
      cl.enum.map (fun p => ⟨p.2.title, p.2.done, (p.1 : Int)⟩) := by
  have hvc : ∀ c ∈ cl, c.title ≠ [] ∧ pyStrip c.title = c.title ∧
      c.title.contains ';' = false := by
    intro c hc
    have hx := hv c hc
    unfold validChecklistItem at hx
    simp only [Bool.and_eq_true, beq_iff_eq, Bool.not_eq_true', ne_eq,
      decide_eq_true_eq] at hx
    exact ⟨hx.1.1, hx.1.2, hx.2⟩
  have hsort : List.insertionSort (orderLe ChecklistItem.order) cl = cl :=
    insertionSort_orderLe_eq_self _ _ hsorted
  unfold checklistCellChars
  rw [hsort]
  rw [show (cl.map (fun c => (if c.done then S "[x] " else S "[ ] ") ++ c.title)) =
      cl.map checklistItemChars from rfl]
  cases cl with
  | nil => rfl
  | cons c0 rest =>
      rw [List.map_cons]
      have hjne : pyJoin (S "; ") (checklistItemChars c0 :: rest.map checklistItemChars) ≠ [] :=
        pyJoin_cons_ne_nil _ _ _ (checklistItemChars_ne_nil c0)
      rw [parseChecklist_str_nonempty _ hjne]
      have hsplit : pySplit ';' (pyJoin (S "; ")
          (checklistItemChars c0 :: rest.map checklistItemChars)) =
          checklistItemChars c0 :: (rest.map checklistItemChars).map (fun q => ' ' :: q) := by
        have := pySplit_join (rest.map checklistItemChars) (checklistItemChars c0) []
          (by simp)
          (checklistItemChars_no_semi c0 (hvc c0 (by simp)).2.2)
          (by
            intro q hq
            obtain ⟨c, hc, rfl⟩ := List.mem_map.mp hq
            exact checklistItemChars_no_semi c (hvc c (by simp [hc])).2.2)
        simpa using this
      rw [hsplit]
      have hstrips : ((checklistItemChars c0 ::
          (rest.map checklistItemChars).map (fun q => ' ' :: q)).map pyStrip) =
          checklistItemChars c0 :: rest.map checklistItemChars := by
        rw [List.map_cons]
        congr 1
        · exact checklistItemChars_strip c0 (hvc c0 (by simp)).1 (hvc c0 (by simp)).2.1
        · rw [List.map_map]
          have : ∀ a ∈ rest.map checklistItemChars,
              (pyStrip ∘ fun q => ' ' :: q) a = id a := by
            intro a ha
            obtain ⟨c, hc, rfl⟩ := List.mem_map.mp ha
            show pyStrip (' ' :: checklistItemChars c) = checklistItemChars c
            rw [pyStrip_cons_space]
            exact checklistItemChars_strip c (hvc c (by simp [hc])).1 (hvc c (by simp [hc])).2.1
          rw [List.map_congr_left this, List.map_id]
      rw [hstrips]
      have hfilt : ((checklistItemChars c0 :: rest.map checklistItemChars).filter
          (fun p => p ≠ [])) = checklistItemChars c0 :: rest.map checklistItemChars := by
        apply List.filter_eq_self.mpr
        intro a ha
        rcases List.mem_cons.mp ha with rfl | ha
        · exact decide_eq_true (checklistItemChars_ne_nil c0)
        · obtain ⟨c, hc, rfl⟩ := List.mem_map.mp ha
          exact decide_eq_true (checklistItemChars_ne_nil c)
      rw [hfilt]
      rw [show (checklistItemChars c0 :: rest.map checklistItemChars) =
        (c0 :: rest).map checklistItemChars from rfl]
      show (((c0 :: rest).map checklistItemChars).enumFrom 0).map _ =
        ((c0 :: rest).enumFrom 0).map _
      apply enumFrom_map_map
      intro c hc i
      obtain ⟨hne, hstrip, _⟩ := hvc c hc
      rcases hd : c.done with _ | _
      · have e1 : pyStarts (S "[x]") (checklistItemChars c) = false := by
          unfold checklistItemChars; rw [hd]; rfl
        have e3 : pyStarts (S "[ ]") (checklistItemChars c) = true := by
          unfold checklistItemChars; rw [hd]; rfl
        have e2 : (checklistItemChars c).drop 3 = ' ' :: c.title := by
          unfold checklistItemChars; rw [hd]; rfl
        show (if pyStarts (S "[x]") (checklistItemChars c) then
            (⟨pyStrip ((checklistItemChars c).drop 3), true, (i : Int)⟩ : ChecklistItem)
          else if pyStarts (S "[ ]") (checklistItemChars c) then
            ⟨pyStrip ((checklistItemChars c).drop 3), false, (i : Int)⟩
          else ⟨checklistItemChars c, false, (i : Int)⟩) = ⟨c.title, false, (i : Int)⟩
        rw [if_neg (by simp [e1]), if_pos e3, e2, pyStrip_cons_space, hstrip]
      · have e1 : pyStarts (S "[x]") (checklistItemChars c) = true := by
          unfold checklistItemChars; rw [hd]; rfl
        have e2 : (checklistItemChars c).drop 3 = ' ' :: c.title := by
          unfold checklistItemChars; rw [hd]; rfl
        show (if pyStarts (S "[x]") (checklistItemChars c) then
            (⟨pyStrip ((checklistItemChars c).drop 3), true, (i : Int)⟩ : ChecklistItem)
          else if pyStarts (S "[ ]") (checklistItemChars c) then
            ⟨pyStrip ((checklistItemChars c).drop 3), false, (i : Int)⟩
          else ⟨checklistItemChars c, false, (i : Int)⟩) = ⟨c.title, true, (i : Int)⟩
        rw [if_pos e1, e2, pyStrip_cons_space, hstrip]

/-- Looking up the just-inserted key. -/
theorem alook_dinsert_self {κ α : Type} [DecidableEq κ] (m : List (κ × α)) (k : κ) (v : α) :
    alook (dinsert m k v) k = some v := by
  induction m with
  | nil => simp [dinsert, alook]
  | cons p rest ih =>
      by_cases h : k = p.1
      · subst h
        cases p
        simp [dinsert, alook]
      · cases p
        simp only [dinsert] at *
        rw [if_neg h]
        simp only [alook]
        rw [if_neg h]
        exact ih

/-- Insertion at a different key does not change a lookup. -/
theorem alook_dinsert_ne {κ α : Type} [DecidableEq κ] (m : List (κ × α)) (k k' : κ) (v : α)
    (h : k' ≠ k) : alook (dinsert m k v) k' = alook m k' := by
  induction m with
  | nil => simp [dinsert, alook, h]
  | cons p rest ih =>
      cases p with
      | mk pk pv =>
          by_cases hk : k = pk
          · subst hk
            simp only [dinsert, if_pos rfl]
            simp only [alook]
            rw [if_neg h, if_neg h]
          · simp only [dinsert]
            rw [if_neg hk]
            simp only [alook]
            by_cases hk' : k' = pk
            · rw [if_pos hk', if_pos hk']
            · rw [if_neg hk', if_neg hk']
              exact ih

/-- The exported Russian boolean cell parses back to the same boolean. -/
theorem parse_bool_boolCellRu (b : Bool) : parse_bool (boolCellRu b) = b := by
  cases b <;> decide

/-- The exported stage-status value parses back to the same member without
    touching the error list. -/
theorem parseStageStatus_value (s : StageStatus) (i : Nat) (errs : List PyStr) :
    parseStageStatus (Cell.str s.value) i errs = (s, errs) := by
  cases s <;> rfl

/-- Optional-string cells round-trip through the pydantic coercion. -/
theorem vStrOpt_optCell (o : Option PyStr) : vStrOpt (optCell Cell.str o) = .ok o := by
  cases o <;> rfl

/-- Optional-date cells round-trip through the pydantic coercion. -/
theorem vDateOpt_optCell (o : Option PyDate) : vDateOpt (optCell Cell.date o) = .ok o := by
  cases o <;> rfl

/-- `createGtmStage` on an exported row of a valid stage: it recreates the
    stage exactly (fresh id, checklist renumbered in order), registers its
    key at the old length, and appends no error. -/
theorem createGtmStage_export (st : GtmState) (rowIndex : Nat) (s : GTMStage)
    (tio : Option (Nat × Task)) (sub : Option Subtask) (com : Option Comment)
    (hv : validStage s = true) :
    createGtmStage (headerMapOf gtmHeaderRow) st rowIndex
      (mkGtmRow s (checklistCellChars s.checklist) tio sub com)
      (pyNormalize s.title) (Cell.str s.title) =
    .ok ({ st with stages := st.stages ++ [convStage st.stageNext s],
                   stageIdx := dinsert st.stageIdx (pyNormalize s.title) st.stages.length,
                   stageNext := st.stageNext + 1 },
         st.stages.length) := by
  obtain ⟨sid, stitle, sdesc, sord, sps, spe, sae, sstat, srisk, scl⟩ := s
  have hvparts : pyStrip stitle = stitle ∧ (∀ c ∈ scl, validChecklistItem c = true) ∧
      ordersNondecreasing (scl.map ChecklistItem.order) = true := by
    unfold validStage at hv
    simp only [Bool.and_eq_true, beq_iff_eq, List.all_eq_true] at hv
    exact ⟨hv.1.1.2, hv.1.2, hv.2⟩
  unfold createGtmStage
  rw [show rowAt (mkGtmRow ⟨sid, stitle, sdesc, sord, sps, spe, sae, sstat, srisk, scl⟩
        (checklistCellChars scl) tio sub com)
      (colGet (headerMapOf gtmHeaderRow) (S "порядок этапа")) = .ok (Cell.int sord) from rfl]
  simp only [bind, Except.bind, pure, Except.pure]
  rw [show rowAt (mkGtmRow ⟨sid, stitle, sdesc, sord, sps, spe, sae, sstat, srisk, scl⟩
        (checklistCellChars scl) tio sub com)
      (colGet (headerMapOf gtmHeaderRow) (S "описание этапа")) =
      .ok (optCell Cell.str sdesc) from rfl]
  rw [show rowAt (mkGtmRow ⟨sid, stitle, sdesc, sord, sps, spe, sae, sstat, srisk, scl⟩
        (checklistCellChars scl) tio sub com)
      (colGet (headerMapOf gtmHeaderRow) (S "плановая дата начала")) =
      .ok (optCell Cell.date sps) from rfl]
  rw [show rowAt (mkGtmRow ⟨sid, stitle, sdesc, sord, sps, spe, sae, sstat, srisk, scl⟩
        (checklistCellChars scl) tio sub com)
      (colGet (headerMapOf gtmHeaderRow) (S "плановая дата окончания")) =
      .ok (optCell Cell.date spe) from rfl]
  rw [show rowAt (mkGtmRow ⟨sid, stitle, sdesc, sord, sps, spe, sae, sstat, srisk, scl⟩
        (checklistCellChars scl) tio sub com)
      (colGet (headerMapOf gtmHeaderRow) (S "фактическая дата завершения")) =
      .ok (optCell Cell.date sae) from rfl]
  simp only [vStrOpt_optCell, vDateOpt_optCell]
  rw [show cellOpt (headerMapOf gtmHeaderRow)
      (mkGtmRow ⟨sid, stitle, sdesc, sord, sps, spe, sae, sstat, srisk, scl⟩
        (checklistCellChars scl) tio sub com) (S "статус этапа") =
      Cell.str sstat.value from rfl]
  rw [show cellOpt (headerMapOf gtmHeaderRow)
      (mkGtmRow ⟨sid, stitle, sdesc, sord, sps, spe, sae, sstat, srisk, scl⟩
        (checklistCellChars scl) tio sub com) (S "чек-лист") =
      Cell.str (checklistCellChars scl) from rfl]
  rw [parseStageStatus_value sstat rowIndex st.errors]
  rw [parseChecklist_render scl hvparts.2.1 hvparts.2.2]
  rw [show cellToStr (Cell.str stitle) = stitle from rfl]
  rw [hvparts.1]
  rcases srisk with _ | _ <;> rfl

/-- The task/subtask/comment part of the row loop always succeeds on an
    exported row (every column it reads exists in the export header map, and
    every cell it validates has the exported shape). -/
theorem processGtmRowTasks_total (now : PyDateTime) (st : GtmState) (pos : Nat)
    (s : GTMStage) (cl : PyStr) (tio : Option (Nat × Task)) (sub : Option Subtask)
    (com : Option Comment) :
    ∃ st', processGtmRowTasks (headerMapOf gtmHeaderRow) now st pos
      (mkGtmRow s cl tio sub com) = .ok st' := by
  rcases tio with _ | ⟨i, t⟩
  · exact ⟨st, rfl⟩
  · have h17 : rowAt (mkGtmRow s cl (some (i, t)) sub com)
        (colGet (headerMapOf gtmHeaderRow) (S "название подзадачи")) =
        .ok (match sub with | some sb => Cell.str sb.title | Option.none => Cell.none) := by
      rcases sub with _ | sb <;> rfl
    have h18 : rowAt (mkGtmRow s cl (some (i, t)) sub com)
        (colGet (headerMapOf gtmHeaderRow) (S "подзадача выполнена")) =
        .ok (match sub with
             | some sb => if sb.done then Cell.str (S "да") else Cell.none
             | Option.none => Cell.none) := by
      rcases sub with _ | sb <;> rfl
    have h19 : rowAt (mkGtmRow s cl (some (i, t)) sub com)
        (colGet (headerMapOf gtmHeaderRow) (S "комментарий задачи")) =
        .ok (match com with | some cm => Cell.str cm.text | Option.none => Cell.none) := by
      rcases com with _ | cm <;> rfl
    unfold processGtmRowTasks
    simp only [bind, Except.bind, pure, Except.pure,
      show rowAt (mkGtmRow s cl (some (i, t)) sub com)
        (colGet (headerMapOf gtmHeaderRow) (S "название задачи")) =
        .ok (Cell.str t.title) from rfl,
      show rowAt (mkGtmRow s cl (some (i, t)) sub com)
        (colGet (headerMapOf gtmHeaderRow) (S "порядок задачи")) =
        .ok (Cell.int (i : Int)) from rfl,
      show rowAt (mkGtmRow s cl (some (i, t)) sub com)
        (colGet (headerMapOf gtmHeaderRow) (S "статус задачи")) =
        .ok (Cell.str t.status.value) from rfl,
      show rowAt (mkGtmRow s cl (some (i, t)) sub com)
        (colGet (headerMapOf gtmHeaderRow) (S "срочность задачи")) =
        .ok (Cell.str t.urgency.value) from rfl,
      show rowAt (mkGtmRow s cl (some (i, t)) sub com)
        (colGet (headerMapOf gtmHeaderRow) (S "важная задача")) =
        .ok (if t.important then Cell.str (S "да") else Cell.none) from rfl,
      show rowAt (mkGtmRow s cl (some (i, t)) sub com)
        (colGet (headerMapOf gtmHeaderRow) (S "описание задачи")) =
        .ok (optCell Cell.str t.description) from rfl,
      show rowAt (mkGtmRow s cl (some (i, t)) sub com)
        (colGet (headerMapOf gtmHeaderRow) (S "срок задачи")) =
        .ok (optCell Cell.date t.due_date) from rfl,
      h17, h18, h19, vStrOpt_optCell, vDateOpt_optCell]
    repeat' split
    all_goals exact ⟨_, rfl⟩

/-- On an exported row whose stage key is already registered, the row loop
    body reduces to its task part. -/
theorem processGtmRow_export_hit (now : PyDateTime) (st : GtmState) (i : Nat)
    (s : GTMStage) (cl : PyStr) (tio : Option (Nat × Task)) (sub : Option Subtask)
    (com : Option Comment) (pos : Nat)
    (hne : s.title ≠ [])
    (hpos : alook st.stageIdx (pyNormalize s.title) = some pos) :
    processGtmRow (headerMapOf gtmHeaderRow) now st i (mkGtmRow s cl tio sub com) =
      processGtmRowTasks (headerMapOf gtmHeaderRow) now st pos (mkGtmRow s cl tio sub com) := by
  have htr : cellTruthy (Cell.str s.title) = true := by
    simp only [cellTruthy]
    exact decide_eq_true hne
  unfold processGtmRow
  simp only [bind, Except.bind, pure, Except.pure,
    show (mkGtmRow s cl tio sub com).all (fun c => c == Cell.none) = false from rfl,
    show rowAt (mkGtmRow s cl tio sub com)
      (colGet (headerMapOf gtmHeaderRow) (S "название этапа")) =
      .ok (Cell.str s.title) from rfl,
    htr, Bool.not_true, Bool.false_eq_true, if_false, cellToStr, hpos]

/-- On an exported row of a valid stage whose key is fresh, the row loop body
    creates the stage and then runs its task part on the extended state. -/
theorem processGtmRow_export_miss (now : PyDateTime) (st : GtmState) (i : Nat)
    (s : GTMStage) (tio : Option (Nat × Task)) (sub : Option Subtask) (com : Option Comment)
    (hv : validStage s = true)
    (hfresh : alook st.stageIdx (pyNormalize s.title) = Option.none) :
    processGtmRow (headerMapOf gtmHeaderRow) now st i
      (mkGtmRow s (checklistCellChars s.checklist) tio sub com) =
      processGtmRowTasks (headerMapOf gtmHeaderRow) now
        { st with stages := st.stages ++ [convStage st.stageNext s],
                  stageIdx := dinsert st.stageIdx (pyNormalize s.title) st.stages.length,
                  stageNext := st.stageNext + 1 }
        st.stages.length
        (mkGtmRow s (checklistCellChars s.checklist) tio sub com) := by
  have hne : s.title ≠ [] := by
    unfold validStage at hv
    simp only [Bool.and_eq_true, beq_iff_eq, List.all_eq_true, ne_eq, decide_eq_true_eq] at hv
    exact hv.1.1.1
  have htr : cellTruthy (Cell.str s.title) = true := by
    simp only [cellTruthy]
    exact decide_eq_true hne
  unfold processGtmRow
  simp only [bind, Except.bind, pure, Except.pure,
    show (mkGtmRow s (checklistCellChars s.checklist) tio sub com).all
      (fun c => c == Cell.none) = false from rfl,
    show rowAt (mkGtmRow s (checklistCellChars s.checklist) tio sub com)
      (colGet (headerMapOf gtmHeaderRow) (S "название этапа")) =
      .ok (Cell.str s.title) from rfl,
    htr, Bool.not_true, Bool.false_eq_true, if_false, cellToStr, hfresh,
    createGtmStage_export st i s tio sub com hv]

/-- The row loop splits over an append. -/
theorem gtmRowsLoop_append (hm : List (PyStr × Nat)) (now : PyDateTime) :
    ∀ (xs ys : List (List Cell)) (st : GtmState) (i : Nat),
    gtmRowsLoop hm now st i (xs ++ ys) =
      (gtmRowsLoop hm now st i xs).bind
        (fun st' => gtmRowsLoop hm now st' (i + xs.length) ys) := by
  intro xs
  induction xs with
  | nil =>
      intro ys st i
      simp [gtmRowsLoop, Except.bind]
  | cons r rest ih =>
      intro ys st i
      simp only [List.cons_append, gtmRowsLoop, bind, Except.bind]
      cases processGtmRow hm now st i r with
      | error e => rfl
      | ok st1 =>
          have hlen : i + 1 + rest.length = i + (r :: rest).length := by
            simp [List.length_cons]
            omega
          rw [← hlen]
          exact ih ys st1 (i + 1)

/-- Running the loop over further exported rows of an already-registered
    stage succeeds and leaves stages, stage index, errors and the stage
    counter untouched. -/
theorem gtmRowsLoop_export_hit (now : PyDateTime) (s : GTMStage) (cl : PyStr) (pos : Nat)
    (hne : s.title ≠ []) :
    ∀ (rows : List (List Cell)) (st : GtmState) (i : Nat),
    (∀ r ∈ rows, ∃ tio sub com, r = mkGtmRow s cl tio sub com) →
    alook st.stageIdx (pyNormalize s.title) = some pos →
    ∃ st', gtmRowsLoop (headerMapOf gtmHeaderRow) now st i rows = .ok st' ∧
      st'.stages = st.stages ∧ st'.stageIdx = st.stageIdx ∧ st'.errors = st.errors ∧
      st'.stageNext = st.stageNext := by
  intro rows
  induction rows with
  | nil =>
      intro st i _ _
      exact ⟨st, rfl, rfl, rfl, rfl, rfl⟩
  | cons r rest ih =>
      intro st i hshape hpos
      obtain ⟨tio, sub, com, rfl⟩ := hshape r (by simp)
      obtain ⟨st1, hst1⟩ := processGtmRowTasks_total now st pos s cl tio sub com
      have hframe := processGtmRowTasks_preserves _ _ _ _ _ _ hst1
      have hrow : processGtmRow (headerMapOf gtmHeaderRow) now st i
          (mkGtmRow s cl tio sub com) = .ok st1 := by
        rw [processGtmRow_export_hit now st i s cl tio sub com pos hne hpos]
        exact hst1
      obtain ⟨st2, hloop, he1, he2, he3, he4⟩ := ih st1 (i + 1)
        (fun r hr => hshape r (by simp [hr]))
        (by rw [hframe.2.1]; exact hpos)
      refine ⟨st2, ?_, ?_, ?_, ?_, ?_⟩
      · unfold gtmRowsLoop
        simp only [bind, Except.bind, hrow]
        exact hloop
      · rw [he1, hframe.1]
      · rw [he2, hframe.2.1]
      · rw [he3, hframe.2.2.2]
      · rw [he4, hframe.2.2.1]

/-- The row loop over exported stage groups: each valid, fresh, pairwise
    distinct stage contributes exactly its reconstructed entity, in order,
    with no error. -/
theorem gtmLoop_export (now : PyDateTime) (F : GTMStage → List (List Cell))
    (hFne : ∀ s, F s ≠ [])
    (hFshape : ∀ s, ∀ r ∈ F s, ∃ tio sub com,
      r = mkGtmRow s (checklistCellChars s.checklist) tio sub com) :
    ∀ (rem : List GTMStage) (st : GtmState) (i : Nat),
    (∀ s ∈ rem, validStage s = true) →
    ((rem.map (fun s => pyNormalize s.title)).Nodup) →
    (∀ s ∈ rem, alook st.stageIdx (pyNormalize s.title) = Option.none) →
    ∃ st', gtmRowsLoop (headerMapOf gtmHeaderRow) now st i (rem.flatMap F) = .ok st' ∧
      st'.stages = st.stages ++ convList st.stageNext rem ∧
      st'.errors = st.errors := by
  intro rem
  induction rem with
  | nil =>
      intro st i _ _ _
      exact ⟨st, rfl, by simp [convList], rfl⟩
  | cons s rest ih =>
      intro st i hv hnd hfresh
      obtain ⟨r0, grest, hF0⟩ : ∃ r0 grest, F s = r0 :: grest := by
        cases hFs : F s with
        | nil => exact absurd hFs (hFne s)
        | cons x l => exact ⟨x, l, rfl⟩
      obtain ⟨tio, sub, com, hr0⟩ := hFshape s r0 (by rw [hF0]; simp)
      have hvs := hv s (by simp)
      have hne : s.title ≠ [] := by
        unfold validStage at hvs
        simp only [Bool.and_eq_true, beq_iff_eq, List.all_eq_true, ne_eq,
          decide_eq_true_eq] at hvs
        exact hvs.1.1.1
      obtain ⟨st2, hst2⟩ := processGtmRowTasks_total now
        { st with stages := st.stages ++ [convStage st.stageNext s],
                  stageIdx := dinsert st.stageIdx (pyNormalize s.title) st.stages.length,
                  stageNext := st.stageNext + 1 }
        st.stages.length s (checklistCellChars s.checklist) tio sub com
      have hframe2 := processGtmRowTasks_preserves _ _ _ _ _ _ hst2
      have hrow0 : processGtmRow (headerMapOf gtmHeaderRow) now st i r0 = .ok st2 := by
        rw [hr0, processGtmRow_export_miss now st i s tio sub com hvs (hfresh s (by simp))]
        exact hst2
      have hpos2 : alook st2.stageIdx (pyNormalize s.title) = some st.stages.length := by
        rw [hframe2.2.1]
        exact alook_dinsert_self st.stageIdx (pyNormalize s.title) st.stages.length
      obtain ⟨st3, hloop3, h31, h32, h33, h34⟩ := gtmRowsLoop_export_hit now s
        (checklistCellChars s.checklist) st.stages.length hne grest st2 (i + 1)
        (fun r hr => hFshape s r (by rw [hF0]; simp [hr])) hpos2
      have hfresh3 : ∀ u ∈ rest, alook st3.stageIdx (pyNormalize u.title) = Option.none := by
        intro u hu
        rw [h32, hframe2.2.1]
        have hneq : pyNormalize u.title ≠ pyNormalize s.title := by
          rw [List.map_cons, List.nodup_cons] at hnd
          intro he
          exact hnd.1 (he ▸ List.mem_map.mpr ⟨u, hu, rfl⟩)
        rw [alook_dinsert_ne _ _ _ _ hneq]
        exact hfresh u (by simp [hu])
      obtain ⟨st4, hloop4, h41, h42⟩ := ih st3 (i + 1 + grest.length)
        (fun u hu => hv u (by simp [hu]))
        (by rw [List.map_cons, List.nodup_cons] at hnd; exact hnd.2)
        hfresh3
      refine ⟨st4, ?_, ?_, ?_⟩
      · rw [List.flatMap_cons, hF0]
        rw [show (r0 :: grest) ++ rest.flatMap F = r0 :: (grest ++ rest.flatMap F) from rfl]
        unfold gtmRowsLoop
        simp only [bind, Except.bind, hrow0]
        rw [gtmRowsLoop_append]
        rw [hloop3]
        simp only [Except.bind]
        exact hloop4
      · rw [h41, h31, hframe2.1, h34, hframe2.2.2.1]
        simp [convList]
      · rw [h42, h33, hframe2.2.2.2]

/-- Every fan-out row of a task slot has the exported row shape. -/
theorem stageTaskRows_shape (s : GTMStage) (cl : PyStr) (tio : Option (Nat × Task)) :
    ∀ r ∈ stageTaskRows s cl tio, ∃ tio2 sub com, r = mkGtmRow s cl tio2 sub com := by
  rcases tio with _ | ⟨i, t⟩
  · intro r hr
    simp only [stageTaskRows, List.mem_singleton] at hr
    exact ⟨Option.none, Option.none, Option.none, hr⟩
  · intro r hr
    unfold stageTaskRows at hr
    simp only [List.mem_map] at hr
    obtain ⟨k, _, hk⟩ := hr
    exact ⟨some (i, t), _, _, hk.symm⟩

/-- A task slot fans out to at least one row. -/
theorem stageTaskRows_ne_nil (s : GTMStage) (cl : PyStr) (tio : Option (Nat × Task)) :
    stageTaskRows s cl tio ≠ [] := by
  rcases tio with _ | ⟨i, t⟩
  · simp [stageTaskRows]
  · unfold stageTaskRows
    simp only []
    intro h
    have hlen := congrArg List.length h
    simp only [List.length_map, List.length_range, List.length_nil] at hlen
    omega

/-- All rows of one stage group have the exported row shape. -/
theorem flatMap_stageTaskRows_shape (s : GTMStage) (cl : PyStr)
    (rel : List (Option (Nat × Task))) :
    ∀ r ∈ rel.flatMap (stageTaskRows s cl), ∃ tio sub com, r = mkGtmRow s cl tio sub com := by
  intro r hr
  rw [List.mem_flatMap] at hr
  obtain ⟨tio, _, hmem⟩ := hr
  exact stageTaskRows_shape s cl tio r hmem

/-- A stage group with at least one task slot is nonempty. -/
theorem flatMap_stageTaskRows_ne_nil (s : GTMStage) (cl : PyStr)
    (rel : List (Option (Nat × Task))) (h : rel ≠ []) :
    rel.flatMap (stageTaskRows s cl) ≠ [] := by
  cases rel with
  | nil => exact absurd rfl h
  | cons x xs =>
      rw [List.flatMap_cons]
      intro he
      rcases List.append_eq_nil.mp he with ⟨h1, _⟩
      exact stageTaskRows_ne_nil s cl x h1

/-- Membership in `convList` comes from a converted member. -/
theorem mem_convList : ∀ (l : List GTMStage) (a : Nat) (b : GTMStage),
    b ∈ convList a l → ∃ i s, s ∈ l ∧ b = convStage i s := by
  intro l
  induction l with
  | nil => intro a b hb; cases hb
  | cons s rest ih =>
      intro a b hb
      rw [convList] at hb
      rcases List.mem_cons.mp hb with rfl | hb
      · exact ⟨a, s, by simp, rfl⟩
      · obtain ⟨i, u, hu, hbe⟩ := ih (a + 1) b hb
        exact ⟨i, u, by simp [hu], hbe⟩

/-- Positional renumbering preserves sortedness by stage order. -/
theorem convList_sorted : ∀ (l : List GTMStage) (a : Nat),
    List.Sorted (orderLe GTMStage.order) l →
    List.Sorted (orderLe GTMStage.order) (convList a l) := by
  intro l
  induction l with
  | nil => intro a _; exact List.sorted_nil
  | cons s rest ih =>
      intro a h
      rw [convList]
      rw [List.sorted_cons] at h ⊢
      refine ⟨?_, ih (a + 1) h.2⟩
      intro b hb
      obtain ⟨i, u, hu, rfl⟩ := mem_convList rest (a + 1) b hb
      exact h.1 u hu

/-- Unfolding `ordersNondecreasing` on a two-headed list. -/
theorem ordersNondecreasing_cons2 (a b : Int) (r : List Int) :
    ordersNondecreasing (a :: b :: r) = (decide (a ≤ b) && ordersNondecreasing (b :: r)) := rfl

/-- The renumbered checklist carries nondecreasing orders. -/
theorem enumFrom_orders (l : List ChecklistItem) : ∀ n,
    ordersNondecreasing (((l.enumFrom n).map
      (fun p => (⟨p.2.title, p.2.done, (p.1 : Int)⟩ : ChecklistItem))).map
        ChecklistItem.order) = true := by
  induction l with
  | nil => intro n; rfl
  | cons c rest ih =>
      intro n
      cases rest with
      | nil => rfl
      | cons d r2 =>
          have ihh := ih (n + 1)
          simp only [List.enumFrom_cons, List.map_cons] at ihh ⊢
          rw [ordersNondecreasing_cons2, Bool.and_eq_true]
          refine ⟨decide_eq_true ?_, ihh⟩
          exact_mod_cast Nat.le_succ n

/-- Sorting the renumbered checklist of a reconstructed stage is the
    identity. -/
theorem convStage_checklist_sort (a : Nat) (s : GTMStage) :
    List.insertionSort (orderLe ChecklistItem.order) (convStage a s).checklist =
      (convStage a s).checklist := by
  apply insertionSort_orderLe_eq_self
  show ordersNondecreasing (((s.checklist.enumFrom 0).map
    (fun p => (⟨p.2.title, p.2.done, (p.1 : Int)⟩ : ChecklistItem))).map
      ChecklistItem.order) = true
  exact enumFrom_orders s.checklist 0

/-- Renumbering keeps each item's title and done flag. -/
theorem enumFrom_item_pairs (l : List ChecklistItem) : ∀ n,
    ((l.enumFrom n).map (fun p => (⟨p.2.title, p.2.done, (p.1 : Int)⟩ : ChecklistItem))).map
      (fun c => (c.title, c.done)) = l.map (fun c => (c.title, c.done)) := by
  induction l with
  | nil => intro n; rfl
  | cons c rest ih =>
      intro n
      simp only [List.enumFrom_cons, List.map_cons]
      rw [ih (n + 1)]

/-- The claim's stage view ignores the fresh id and the checklist
    renumbering. -/
theorem convStage_view (a : Nat) (s : GTMStage) : stageView (convStage a s) = stageView s := by
  show (s.title, s.order, s.status, s.planned_start, s.planned_end, s.risk_flag,
    ((s.checklist.enumFrom 0).map (fun p => (⟨p.2.title, p.2.done, (p.1 : Int)⟩ : ChecklistItem))).map
      (fun c => (c.title, c.done))) =
    (s.title, s.order, s.status, s.planned_start, s.planned_end, s.risk_flag,
      s.checklist.map (fun c => (c.title, c.done)))
  rw [enumFrom_item_pairs]

/-- The stage view across a whole renumbered list. -/
theorem convList_map_view : ∀ (l : List GTMStage) (a : Nat),
    (convList a l).map stageView = l.map stageView := by
  intro l
  induction l with
  | nil => intro a; rfl
  | cons s rest ih =>
      intro a
      rw [convList, List.map_cons, List.map_cons, convStage_view, ih (a + 1)]

/-- Each exported stage group is nonempty (a stage with no tasks still emits
    one placeholder row). -/
theorem exportF_ne_nil (T : List Task) (s : GTMStage) :
    ((if (T.filter (fun t => t.gtm_stage_id == some s.id)).isEmpty then [Option.none]
      else (T.filter (fun t => t.gtm_stage_id == some s.id)).enum.map
        (fun q => some (q.1 + 1, q.2))) : List (Option (Nat × Task))).flatMap
      (stageTaskRows s (checklistCellChars s.checklist)) ≠ [] := by
  apply flatMap_stageTaskRows_ne_nil
  split
  · simp
  · rename_i hne
    intro h
    have hrel : T.filter (fun t => t.gtm_stage_id == some s.id) ≠ [] := by
      intro hh
      rw [hh] at hne
      simp at hne
    have hlen := congrArg List.length h
    simp only [List.length_map, List.enum_length, List.length_nil] at hlen
    exact hrel (List.length_eq_zero.mp hlen)

/-- C2: for every project whose stages contain only valid data (nonempty
    stripped titles, pairwise distinct case-insensitively, and checklists of
    nonempty stripped semicolon-free items already sorted by order), feeding
    the sheet produced by the GTM export into the single-sheet GTM import
    succeeds and yields, stage for stage (in order-sorted sequence), the same
    title, order, status, plannedStart, plannedEnd, riskFlag, and the same
    checklist item titles and done flags. -/
theorem c2_export_import_round_trip (p : Project) (now : PyDateTime) (a b : Nat)
    (hv : validGtmProject p = true) :
    (import_gtm_single_sheet (export_gtm_sheet p) (headerMapOf gtmHeaderRow) now a b).map
        (fun r => r.1.map stageView) =
      .ok ((List.insertionSort (orderLe GTMStage.order) p.gtm_stages).map stageView) := by
  have hvAll : ∀ s ∈ p.gtm_stages, validStage s = true := by
    unfold validGtmProject at hv
    simp only [Bool.and_eq_true, List.all_eq_true, decide_eq_true_eq] at hv
    exact hv.1
  have hnd : (p.gtm_stages.map (fun s => pyNormalize s.title)).Nodup := by
    unfold validGtmProject at hv
    simp only [Bool.and_eq_true, List.all_eq_true, decide_eq_true_eq] at hv
    exact hv.2
  have hperm : (List.insertionSort (orderLe GTMStage.order) p.gtm_stages).Perm p.gtm_stages :=
    List.perm_insertionSort _ _
  have hvOrd : ∀ s ∈ List.insertionSort (orderLe GTMStage.order) p.gtm_stages,
      validStage s = true := fun s hs => hvAll s (hperm.mem_iff.mp hs)
  have hndOrd : ((List.insertionSort (orderLe GTMStage.order) p.gtm_stages).map
      (fun s => pyNormalize s.title)).Nodup := ((hperm.map _).nodup_iff).mpr hnd
  set M : List (Nat × Int) :=
    (List.insertionSort (orderLe GTMStage.order) p.gtm_stages).enum.map
      (fun q => (q.2.id, (q.1 + 1 : Int))) with hM
  set T : List Task := List.insertionSort (exportTaskLe M) p.tasks with hT
  set F : GTMStage → List (List Cell) := fun stage =>
    ((if (T.filter (fun t => t.gtm_stage_id == some stage.id)).isEmpty then [Option.none]
      else (T.filter (fun t => t.gtm_stage_id == some stage.id)).enum.map
        (fun q => some (q.1 + 1, q.2))) : List (Option (Nat × Task))).flatMap
      (stageTaskRows stage (checklistCellChars stage.checklist)) with hF
  obtain ⟨st, hloop, hstages, herrs⟩ := gtmLoop_export now F
    (fun s => exportF_ne_nil T s)
    (fun s => flatMap_stageTaskRows_shape s (checklistCellChars s.checklist) _)
    (List.insertionSort (orderLe GTMStage.order) p.gtm_stages)
    ⟨[], [], [], [], [], a, b⟩ 2 hvOrd hndOrd (fun s _ => rfl)
  unfold import_gtm_single_sheet
  rw [show (export_gtm_sheet p).drop 1 =
    (List.insertionSort (orderLe GTMStage.order) p.gtm_stages).flatMap F from rfl]
  simp only [bind, Except.bind, pure, Except.pure, hloop, Except.map]
  have hst : st.stages = convList a (List.insertionSort (orderLe GTMStage.order) p.gtm_stages) := by
    simpa using hstages
  rw [hst]
  rw [List.Sorted.insertionSort_eq (convList_sorted _ a (List.sorted_insertionSort _ _))]
  have hmapid : (convList a (List.insertionSort (orderLe GTMStage.order) p.gtm_stages)).map
      (fun s => { s with checklist := List.insertionSort (orderLe ChecklistItem.order) s.checklist }) =
      (convList a (List.insertionSort (orderLe GTMStage.order) p.gtm_stages)).map id := by
    apply List.map_congr_left
    intro s' hs'
    obtain ⟨i, u, _, rfl⟩ := mem_convList _ a s' hs'
    rw [convStage_checklist_sort]
    rfl
  rw [hmapid, List.map_id, convList_map_view]

/-- Witness for C2 at a concrete two-stage project with reversed orders, a
    checklist and a task. -/
theorem c2_witness :
    validGtmProject c2proj = true ∧
    (import_gtm_single_sheet (export_gtm_sheet c2proj) (headerMapOf gtmHeaderRow)
        ⟨2024, 1, 1, 0, 0, 0⟩ 0 0).map (fun r => r.1.map stageView) =
      .ok ((List.insertionSort (orderLe GTMStage.order) c2proj.gtm_stages).map stageView) :=
  ⟨by decide, c2_export_import_round_trip c2proj ⟨2024, 1, 1, 0, 0, 0⟩ 0 0 (by decide)⟩

/-! ### Lemmas for the sheet-name generator (C9) -/

/-- The rendering fuel is irrelevant once it exceeds the number. -/
theorem natCharsFuel_irrel : ∀ (n f g : Nat), n < f → n < g →
    natCharsFuel f n = natCharsFuel g n := by
  intro n
  induction n using Nat.strong_induction_on with
  | _ n ih =>
      intro f g hf hg
      cases f with
      | zero => omega
      | succ f =>
          cases g with
          | zero => omega
          | succ g =>
              rw [natCharsFuel, natCharsFuel]
              by_cases h10 : n < 10
              · rw [if_pos h10, if_pos h10]
              · rw [if_neg h10, if_neg h10]
                have hdiv : n / 10 < n := Nat.div_lt_self (by omega) (by omega)
                rw [ih (n / 10) hdiv f g (by omega) (by omega)]

/-- The standard unfolding of the decimal rendering. -/
theorem natChars_eq (n : Nat) : natChars n =
    if n < 10 then [digitChar n] else natChars (n / 10) ++ [digitChar (n % 10)] := by
  unfold natChars
  rw [natCharsFuel]
  by_cases h10 : n < 10
  · rw [if_pos h10, if_pos h10]
  · rw [if_neg h10, if_neg h10]
    have hdiv : n / 10 < n := Nat.div_lt_self (by omega) (by omega)
    rw [natCharsFuel_irrel (n / 10) n (n / 10 + 1) (by omega) (by omega)]

/-- Every character of a rendered number is a digit character. -/
theorem natChars_digit : ∀ (n : Nat), ∀ c ∈ natChars n, ∃ d, d < 10 ∧ c = digitChar d := by
  intro n
  induction n using Nat.strong_induction_on with
  | _ n ih =>
      intro c hc
      rw [natChars_eq] at hc
      by_cases h10 : n < 10
      · rw [if_pos h10] at hc
        simp only [List.mem_singleton] at hc
        exact ⟨n, h10, hc⟩
      · rw [if_neg h10] at hc
        rcases List.mem_append.mp hc with h | h
        · exact ih (n / 10) (Nat.div_lt_self (by omega) (by omega)) c h
        · simp only [List.mem_singleton] at h
          exact ⟨n % 10, Nat.mod_lt n (by omega), h⟩

/-- Digit characters decode back to their digit. -/
theorem digitVal_digitChar (d : Nat) (hd : d < 10) : digitVal (digitChar d) = d := by
  interval_cases d <;> decide

/-- The rendering decodes back to the number. -/
theorem decode_natChars : ∀ (n : Nat), decodeDigits (natChars n) = n := by
  intro n
  induction n using Nat.strong_induction_on with
  | _ n ih =>
      rw [natChars_eq]
      by_cases h10 : n < 10
      · rw [if_pos h10]
        show 10 * 0 + digitVal (digitChar n) = n
        rw [digitVal_digitChar n h10]
        omega
      · rw [if_neg h10]
        unfold decodeDigits
        rw [List.foldl_append]
        rw [show List.foldl (fun a c => 10 * a + digitVal c) 0 (natChars (n / 10)) =
          decodeDigits (natChars (n / 10)) from rfl]
        rw [ih (n / 10) (Nat.div_lt_self (by omega) (by omega))]
        show 10 * (n / 10) + digitVal (digitChar (n % 10)) = n
        rw [digitVal_digitChar (n % 10) (Nat.mod_lt n (by omega))]
        omega

/-- The decimal rendering is injective. -/
theorem natChars_inj (m n : Nat) (h : natChars m = natChars n) : m = n := by
  have hd := congrArg decodeDigits h
  rwa [decode_natChars, decode_natChars] at hd

/-- A rendered number is never empty. -/
theorem natChars_ne_nil (n : Nat) : natChars n ≠ [] := by
  rw [natChars_eq]
  split
  · exact List.cons_ne_nil _ _
  · simp

/-- No underscore occurs among the rendered digits. -/
theorem underscore_not_mem_natChars (s : Nat) : '_' ∉ natChars s := by
  intro h
  obtain ⟨d, hd, hc⟩ := natChars_digit s '_' h
  revert hc
  interval_cases d <;> decide

/-- Numbers below `10 ^ k` render to at most `k` digits. -/
theorem natChars_length_le : ∀ (k s : Nat), 1 ≤ k → s < 10 ^ k → (natChars s).length ≤ k := by
  intro k
  induction k with
  | zero => intro s h _; omega
  | succ k ih =>
      intro s _ hs
      rw [natChars_eq]
      by_cases h10 : s < 10
      · rw [if_pos h10]
        simp
      · rw [if_neg h10]
        have hk : 1 ≤ k := by
          rcases Nat.eq_zero_or_pos k with rfl | hpos
          · rw [pow_one] at hs; omega
          · exact hpos
        have hdiv : s / 10 < 10 ^ k := by
          rw [Nat.div_lt_iff_lt_mul (by omega)]
          calc s < 10 ^ (k + 1) := hs
          _ = 10 ^ k * 10 := by ring
        have := ih (s / 10) hk hdiv
        rw [List.length_append]
        simp only [List.length_singleton]
        omega

/-- The dead `or`-fallback of the candidate builder is never taken: the
    suffix is nonempty, so the candidate is nonempty. -/
theorem sheetCand_eq (t c : PyStr) (s : Nat) :
    sheetCand t c s =
      pySliceTo t (31 - (('_' :: natChars s).length : Int)) ++ '_' :: natChars s := by
  simp only [sheetCand]
  rw [if_neg]
  simp

/-- A Python prefix slice is a `take`. -/
theorem pySliceTo_take (t : PyStr) (i : Int) : ∃ m, pySliceTo t i = t.take m := by
  unfold pySliceTo
  split
  · exact ⟨_, rfl⟩
  · exact ⟨_, rfl⟩

/-- Two candidates built from prefixes of the same string and an underscored
    digit suffix agree only on equal numbers. -/
theorem take_underscore_digits_inj (t : PyStr) : ∀ (a b s s2 : Nat),
    t.take a ++ '_' :: natChars s = t.take b ++ '_' :: natChars s2 → s = s2 := by
  have key : ∀ (a b s s2 : Nat), (t.take a).length ≤ (t.take b).length →
      t.take a ++ '_' :: natChars s = t.take b ++ '_' :: natChars s2 → s = s2 := by
    intro a b s s2 hlen h
    rcases Nat.lt_or_ge (t.take a).length (t.take b).length with hlt | hge
    · exfalso
      have hpre : t.take b = t.take a ++ (t.take b).drop (t.take a).length := by
        have h1 : t.take a = (t.take b).take (t.take a).length := by
          rw [List.take_take]
          rw [List.length_take]
          rcases Nat.le_total a t.length with hal | hal
          · rw [min_eq_left hal]
            congr 1
            have hb : a ≤ b := by
              by_contra hab
              have : min b t.length ≤ min a t.length := by
                apply min_le_min_right
                omega
              rw [List.length_take, List.length_take] at hlt
              omega
            omega
          · exfalso
            rw [List.length_take, List.length_take] at hlt
            omega
        calc t.take b = (t.take b).take (t.take a).length ++ (t.take b).drop (t.take a).length := by
              rw [List.take_append_drop]
        _ = t.take a ++ (t.take b).drop (t.take a).length := by rw [← h1]
      rw [hpre, List.append_assoc] at h
      have htail := List.append_cancel_left h
      cases hq : (t.take b).drop (t.take a).length with
      | nil =>
          rw [hq] at hpre
          rw [hpre] at hlt
          simp at hlt
      | cons q0 Q =>
          rw [hq, List.cons_append] at htail
          injection htail with h0 htail
          have hmem : '_' ∈ natChars s := by
            rw [htail]
            exact List.mem_append.mpr (Or.inr (List.mem_cons_self _ _))
          exact underscore_not_mem_natChars s hmem
    · have heq : (t.take a).length = (t.take b).length := by omega
      obtain ⟨-, htail⟩ := List.append_inj h heq
      injection htail with _ htail
      exact natChars_inj s s2 htail
  intro a b s s2 h
  rcases Nat.le_total (t.take a).length (t.take b).length with hle | hle
  · exact key a b s s2 hle h
  · exact (key b a s2 s hle h.symm).symm

/-- Candidates for distinct suffix numbers are distinct. -/
theorem sheetCand_inj (t c : PyStr) (s s2 : Nat)
    (h : sheetCand t c s = sheetCand t c s2) : s = s2 := by
  rw [sheetCand_eq, sheetCand_eq] at h
  obtain ⟨m1, hm1⟩ := pySliceTo_take t (31 - (('_' :: natChars s).length : Int))
  obtain ⟨m2, hm2⟩ := pySliceTo_take t (31 - (('_' :: natChars s2).length : Int))
  rw [hm1, hm2] at h
  exact take_underscore_digits_inj t m1 m2 s s2 h

/-- With a suffix of at most 30 digits, a candidate fits in 31 characters. -/
theorem sheetCand_length_le (t c : PyStr) (s : Nat) (hs : (natChars s).length ≤ 30) :
    (sheetCand t c s).length ≤ 31 := by
  rw [sheetCand_eq]
  rw [List.length_append]
  unfold pySliceTo
  rw [if_pos (by simp; omega)]
  have h1 := List.length_take_le ((31 - (('_' :: natChars s).length : Int)).toNat) t
  simp only [List.length_cons] at *
  omega

/-- Characters survive stripping. -/
theorem pyStrip_subset (l : PyStr) : ∀ ch ∈ pyStrip l, ch ∈ l := by
  intro ch h
  unfold pyStrip at h
  rw [List.mem_reverse] at h
  have h2 := (List.dropWhile_sublist (p := pyIsSpace)
    (l := (l.dropWhile pyIsSpace).reverse)).subset h
  rw [List.mem_reverse] at h2
  exact (List.dropWhile_sublist (p := pyIsSpace) (l := l)).subset h2

/-- The cleaned base (after replacement, stripping and defaulting) holds no
    forbidden character. -/
theorem cleaned_forbidden_free (base : PyStr) :
    ∀ ch ∈ (if pyStrip (base.map (fun c => if forbiddenSheetChar c then '_' else c)) = []
            then S "Проект"
            else pyStrip (base.map (fun c => if forbiddenSheetChar c then '_' else c))),
      forbiddenSheetChar ch = false := by
  intro ch hch
  split at hch
  · revert hch
    revert ch
    decide
  · have hmem : ch ∈ base.map (fun c => if forbiddenSheetChar c then '_' else c) :=
      pyStrip_subset _ ch hch
    obtain ⟨x, _, hx⟩ := List.mem_map.mp hmem
    by_cases hfx : forbiddenSheetChar x = true
    · rw [← hx, if_pos hfx]
      decide
    · rw [← hx, if_neg hfx]
      simpa using hfx

/-- A candidate built from a forbidden-free base holds no forbidden
    character. -/
theorem sheetCand_forbidden_free (t c : PyStr) (s : Nat)
    (ht : ∀ ch ∈ t, forbiddenSheetChar ch = false) :
    ∀ ch ∈ sheetCand t c s, forbiddenSheetChar ch = false := by
  rw [sheetCand_eq]
  intro ch hch
  rcases List.mem_append.mp hch with h | h
  · obtain ⟨m, hm⟩ := pySliceTo_take t (31 - (('_' :: natChars s).length : Int))
    rw [hm] at h
    exact ht ch (List.take_subset m t h)
  · rcases List.mem_cons.mp h with rfl | h
    · decide
    · obtain ⟨d, hd, rfl⟩ := natChars_digit s ch h
      interval_cases d <;> decide

/-- `find?` skips a prefix of failures. -/
theorem find?_append_none {α : Type} (p : α → Bool) (l₁ l₂ : List α)
    (h : ∀ x ∈ l₁, p x = false) :
    List.find? p (l₁ ++ l₂) = List.find? p l₂ := by
  induction l₁ with
  | nil => rfl
  | cons x t ih =>
      rw [List.cons_append, List.find?_cons_of_neg]
      · exact ih (fun y hy => h y (by simp [hy]))
      · simp [h x (by simp)]

/-- The suffix search cannot fail: `used.length + 1` pairwise distinct
    candidates cannot all live in a list of `used.length` names. -/
theorem sheetCand_pigeonhole (t c : PyStr) (used : List PyStr)
    (h : ∀ s ∈ List.range' 1 (used.length + 1), sheetCand t c s ∈ used) : False := by
  have hnd : ((List.range' 1 (used.length + 1)).map (sheetCand t c)).Nodup := by
    apply List.Nodup.map_on
    · intro x _ y _ hxy
      exact sheetCand_inj t c x y hxy
    · exact List.nodup_range' _ _
  have hsub : ((List.range' 1 (used.length + 1)).map (sheetCand t c)).toFinset ⊆
      used.toFinset := by
    intro x hx
    rw [List.mem_toFinset] at hx ⊢
    obtain ⟨s, hs, rfl⟩ := List.mem_map.mp hx
    exact h s hs
  have h1 := Finset.card_le_card hsub
  rw [List.toFinset_card_of_nodup hnd] at h1
  have h2 := used.toFinset_card_le
  rw [List.length_map, List.length_range'] at h1
  omega

/-- A failed suffix search contradicts the pigeonhole bound. -/
theorem sheetCand_find_none (t c : PyStr) (used : List PyStr)
    (hf : List.find? (fun s => !(sheetCand t c s ∈ used : Bool))
      (List.range' 1 (used.length + 1)) = Option.none) : False := by
  refine sheetCand_pigeonhole t c used (fun s hs => ?_)
  have h0 := List.find?_eq_none.mp hf s hs
  simpa using h0

/-- The generated sheet name is never one already used. -/
theorem make_sheet_name_fresh (base : PyStr) (used : List PyStr) :
    make_sheet_name base used ∉ used := by
  simp only [make_sheet_name]
  split <;>
  · split
    · split
      · rename_i s hf
        have hp := List.find?_some hf
        simpa using hp
      · rename_i hf
        exact absurd hf (fun hff => sheetCand_find_none _ _ used hff)
    · rename_i hnotin
      exact hnotin

/-- With fewer than `10 ^ 30` prior names, the generated sheet name fits in
    31 characters and holds no forbidden character. -/
theorem make_sheet_name_good (base : PyStr) (used : List PyStr)
    (hb : used.length + 1 < 10 ^ 30) :
    (make_sheet_name base used).length ≤ 31 ∧
    ∀ ch ∈ make_sheet_name base used, forbiddenSheetChar ch = false := by
  simp only [make_sheet_name]
  split
  next hcl =>
    have hclean := cleaned_forbidden_free base
    rw [if_pos hcl] at hclean
    split
    · split
      · rename_i s hf
        have hmem := List.mem_of_find?_eq_some hf
        have hs : s < 10 ^ 30 := by
          have h2 := List.mem_range'_1.mp hmem
          omega
        refine ⟨sheetCand_length_le _ _ s (natChars_length_le 30 s (by norm_num) hs), ?_⟩
        exact sheetCand_forbidden_free _ _ s (fun ch hch =>
          hclean ch (List.take_subset 31 _ hch))
      · rename_i hf
        exact absurd hf (fun hff => sheetCand_find_none _ _ used hff)
    · constructor
      · rw [List.length_take]
        omega
      · intro ch hch
        exact hclean ch (List.take_subset 31 _ hch)
  next hcl =>
    have hclean := cleaned_forbidden_free base
    rw [if_neg hcl] at hclean
    split
    · split
      · rename_i s hf
        have hmem := List.mem_of_find?_eq_some hf
        have hs : s < 10 ^ 30 := by
          have h2 := List.mem_range'_1.mp hmem
          omega
        refine ⟨sheetCand_length_le _ _ s (natChars_length_le 30 s (by norm_num) hs), ?_⟩
        exact sheetCand_forbidden_free _ _ s (fun ch hch =>
          hclean ch (List.take_subset 31 _ hch))
      · rename_i hf
        exact absurd hf (fun hff => sheetCand_find_none _ _ used hff)
    · constructor
      · rw [List.length_take]
        omega
      · intro ch hch
        exact hclean ch (List.take_subset 31 _ hch)

/-- The threaded fold never repeats a name. -/
theorem sheetFold_nodup : ∀ (names acc : List PyStr), acc.Nodup →
    (names.foldl (fun acc name => acc ++ [make_sheet_name name acc]) acc).Nodup := by
  intro names
  induction names with
  | nil => intro acc h; exact h
  | cons nm rest ih =>
      intro acc h
      rw [List.foldl_cons]
      apply ih
      rw [List.nodup_append]
      refine ⟨h, by simp, ?_⟩
      intro x hx hx2
      simp only [List.mem_singleton] at hx2
      subst hx2
      exact make_sheet_name_fresh nm acc hx

/-- The threaded fold keeps every output short and sanitized while fewer
    than `10 ^ 30` names are requested. -/
theorem sheetFold_good : ∀ (names acc : List PyStr) (N : Nat),
    acc.length + names.length ≤ N → N < 10 ^ 30 →
    (∀ out ∈ acc, out.length ≤ 31 ∧ ∀ ch ∈ out, forbiddenSheetChar ch = false) →
    ∀ out ∈ names.foldl (fun acc name => acc ++ [make_sheet_name name acc]) acc,
      out.length ≤ 31 ∧ ∀ ch ∈ out, forbiddenSheetChar ch = false := by
  intro names
  induction names with
  | nil => intro acc N _ _ hacc out hout; exact hacc out hout
  | cons nm rest ih =>
      intro acc N hlen hN hacc out hout
      rw [List.foldl_cons] at hout
      refine ih (acc ++ [make_sheet_name nm acc]) N ?_ hN ?_ out hout
      · have hx : (acc ++ [make_sheet_name nm acc]).length = acc.length + 1 := by simp
        rw [hx]
        simp only [List.length_cons] at hlen
        omega
      · intro o ho
        rcases List.mem_append.mp ho with h1 | h1
        · exact hacc o h1
        · simp only [List.mem_singleton] at h1
          subst h1
          refine make_sheet_name_good nm acc ?_
          simp only [List.length_cons] at hlen
          omega

/-- C9 amended: for every sequence of fewer than `10 ^ 30` requested names,
    the generated sheet names are pairwise distinct, contain no forbidden
    character, and never exceed 31 characters.  (The numeric-suffix
    de-duplication itself never repeats a name for sequences of any length;
    only the 31-character bound needs the `10 ^ 30` cap — see the
    counterexample.) -/
theorem c9_amended (names : List PyStr) (hn : names.length < 10 ^ 30) :
    (processSheetNames names).Nodup ∧
    ∀ out ∈ processSheetNames names,
      out.length ≤ 31 ∧ ∀ ch ∈ out, forbiddenSheetChar ch = false := by
  constructor
  · exact sheetFold_nodup names [] List.nodup_nil
  · exact sheetFold_good names [] names.length (by simp) hn (by intro o ho; cases ho)

/-- Witness for C9's amended claim on two sanitizable colliding names. -/
theorem c9_witness :
    ([S "Проект A?", S "Проект A*"] : List PyStr).length < 10 ^ 30 ∧
    ((processSheetNames [S "Проект A?", S "Проект A*"]).Nodup ∧
      ∀ out ∈ processSheetNames [S "Проект A?", S "Проект A*"],
        out.length ≤ 31 ∧ ∀ ch ∈ out, forbiddenSheetChar ch = false) :=
  ⟨by decide, c9_amended [S "Проект A?", S "Проект A*"] (by decide)⟩

/-- Candidates never equal the 31-`A` base name (they contain `_`). -/
theorem sheetCand_ne_A31 (s : Nat) :
    sheetCand (List.replicate 31 'A') (List.replicate 31 'A') s ≠ List.replicate 31 'A' := by
  intro h
  have hmem : '_' ∈ sheetCand (List.replicate 31 'A') (List.replicate 31 'A') s := by
    rw [sheetCand_eq]
    exact List.mem_append.mpr (Or.inr (List.mem_cons_self _ _))
  rw [h] at hmem
  have h2 := List.eq_of_mem_replicate hmem
  exact absurd h2 (by decide)

/-- One generator call on the all-`A` history yields the next suffix. -/
theorem make_sheet_name_A31 (k : Nat) :
    make_sheet_name (List.replicate 31 'A')
      (List.replicate 31 'A' ::
        (List.range' 1 k).map (sheetCand (List.replicate 31 'A') (List.replicate 31 'A'))) =
    sheetCand (List.replicate 31 'A') (List.replicate 31 'A') (k + 1) := by
  have hclean : pyStrip ((List.replicate 31 'A').map
      (fun c => if forbiddenSheetChar c then '_' else c)) = List.replicate 31 'A' := by decide
  simp only [make_sheet_name, hclean]
  rw [if_neg (show ¬(List.replicate 31 'A' : PyStr) = [] by decide)]
  rw [show (List.replicate 31 'A' : PyStr).take 31 = List.replicate 31 'A' from rfl]
  rw [if_pos (List.mem_cons_self _ _)]
  have hL : (List.replicate 31 'A' ::
      (List.range' 1 k).map (sheetCand (List.replicate 31 'A') (List.replicate 31 'A'))).length + 1 =
      2 + k := by
    simp [List.length_range']
    omega
  rw [hL]
  rw [show List.range' 1 (2 + k) = List.range' 1 k ++ List.range' (1 + k) 2 from
    (List.range'_append_1 1 k 2).symm]
  have hall : ∀ x ∈ List.range' 1 k,
      (fun s => !(sheetCand (List.replicate 31 'A') (List.replicate 31 'A') s ∈
        List.replicate 31 'A' ::
          (List.range' 1 k).map (sheetCand (List.replicate 31 'A') (List.replicate 31 'A')) : Bool)) x
        = false := by
    intro s hs
    simp only [Bool.not_eq_false', decide_eq_true_eq]
    exact List.mem_cons_of_mem _ (List.mem_map.mpr ⟨s, hs, rfl⟩)
  rw [find?_append_none _ _ _ hall]
  have hpos : (fun s => !(sheetCand (List.replicate 31 'A') (List.replicate 31 'A') s ∈
      List.replicate 31 'A' ::
        (List.range' 1 k).map (sheetCand (List.replicate 31 'A') (List.replicate 31 'A')) : Bool))
      (1 + k) = true := by
    simp only [Bool.not_eq_true', decide_eq_false_iff_not]
    intro hmem2
    rcases List.mem_cons.mp hmem2 with he | hm
    · exact sheetCand_ne_A31 (1 + k) he
    · obtain ⟨s0, hs0, he⟩ := List.mem_map.mp hm
      have hs0e : s0 = 1 + k := sheetCand_inj _ _ s0 (1 + k) he
      have h2 := List.mem_range'_1.mp hs0
      omega
  rw [show List.range' (1 + k) 2 = [1 + k, 1 + k + 1] from rfl]
  rw [List.find?_cons_of_pos
    (p := fun s => !(sheetCand (List.replicate 31 'A') (List.replicate 31 'A') s ∈
      List.replicate 31 'A' ::
        (List.range' 1 k).map (sheetCand (List.replicate 31 'A') (List.replicate 31 'A')) : Bool))
    _ hpos]
  show sheetCand (List.replicate 31 'A') (List.replicate 31 'A') (1 + k) =
    sheetCand (List.replicate 31 'A') (List.replicate 31 'A') (k + 1)
  rw [Nat.add_comm 1 k]

/-- The fold over `m` further all-`A` requests extends the suffix range. -/
theorem sheetFoldA31 : ∀ (m k : Nat),
    List.foldl (fun acc name => acc ++ [make_sheet_name name acc])
      (List.replicate 31 'A' ::
        (List.range' 1 k).map (sheetCand (List.replicate 31 'A') (List.replicate 31 'A')))
      (List.replicate m (List.replicate 31 'A')) =
    List.replicate 31 'A' ::
      (List.range' 1 (k + m)).map (sheetCand (List.replicate 31 'A') (List.replicate 31 'A')) := by
  intro m
  induction m with
  | zero => intro k; rfl
  | succ m ih =>
      intro k
      rw [show List.replicate (m + 1) (List.replicate 31 'A') =
        List.replicate 31 'A' :: List.replicate m (List.replicate 31 'A') from rfl]
      rw [List.foldl_cons]
      rw [make_sheet_name_A31 k]
      rw [show (List.replicate 31 'A' ::
          (List.range' 1 k).map (sheetCand (List.replicate 31 'A') (List.replicate 31 'A'))) ++
          [sheetCand (List.replicate 31 'A') (List.replicate 31 'A') (k + 1)] =
        List.replicate 31 'A' ::
          (List.range' 1 (k + 1)).map (sheetCand (List.replicate 31 'A') (List.replicate 31 'A'))
        from by
          rw [List.range'_1_concat]
          rw [show (1 : Nat) + k = k + 1 from by omega]
          simp]
      rw [ih (k + 1)]
      rw [show k + 1 + m = k + (m + 1) from by omega]

/-- The generated names for `n + 1` identical all-`A` requests. -/
theorem processSheetNames_A31 (n : Nat) :
    processSheetNames (List.replicate (n + 1) (List.replicate 31 'A')) =
    List.replicate 31 'A' ::
      (List.range' 1 n).map (sheetCand (List.replicate 31 'A') (List.replicate 31 'A')) := by
  unfold processSheetNames
  rw [show List.replicate (n + 1) (List.replicate 31 'A') =
    List.replicate 31 'A' :: List.replicate n (List.replicate 31 'A') from rfl]
  rw [List.foldl_cons]
  rw [show ([] : List PyStr) ++ [make_sheet_name (List.replicate 31 'A') []] =
    List.replicate 31 'A' ::
      (List.range' 1 0).map (sheetCand (List.replicate 31 'A') (List.replicate 31 'A')) from by
      rw [show make_sheet_name (List.replicate 31 'A') [] = List.replicate 31 'A' from by decide]
      rfl]
  rw [sheetFoldA31 n 0]
  rw [Nat.zero_add]

/-- Powers of ten render as `1` followed by zeros. -/
theorem natChars_pow10 : ∀ (k : Nat), natChars (10 ^ k) = '1' :: List.replicate k '0' := by
  intro k
  induction k with
  | zero => decide
  | succ k ih =>
      have h10 : (10 : Nat) ≤ 10 ^ (k + 1) := by
        calc (10 : Nat) = 10 ^ 1 := (pow_one 10).symm
        _ ≤ 10 ^ (k + 1) := Nat.pow_le_pow_right (by omega) (by omega)
      rw [natChars_eq, if_neg (by omega)]
      have hdiv : 10 ^ (k + 1) / 10 = 10 ^ k := by
        rw [pow_succ]
        exact Nat.mul_div_cancel _ (by omega)
      have hmod : 10 ^ (k + 1) % 10 = 0 := by
        rw [pow_succ]
        exact Nat.mul_mod_left _ _
      rw [hdiv, hmod, ih]
      rw [show digitChar 0 = '0' from rfl]
      rw [show ('1' :: List.replicate k '0') ++ ['0'] = '1' :: (List.replicate k '0' ++ ['0']) from rfl]
      rw [← List.replicate_succ' k '0']

/-- C9 counterexample: requesting `10 ^ 30 + 1` identical 31-character names
    drives the numeric suffix to 31 digits, the slice bound `31 - 32` turns
    negative (a Python slice from the *end*), and the emitted sheet name has
    62 characters — the 31-character bound of the claim fails. -/
theorem c9_counterexample :
    ∃ out ∈ processSheetNames
      (List.replicate (10 ^ 30 + 1) (List.replicate 31 'A')),
      31 < out.length := by
  refine ⟨sheetCand (List.replicate 31 'A') (List.replicate 31 'A') (10 ^ 30), ?_, ?_⟩
  · rw [processSheetNames_A31 (10 ^ 30)]
    refine List.mem_cons_of_mem _ (List.mem_map.mpr ⟨10 ^ 30, ?_, rfl⟩)
    rw [List.mem_range'_1]
    refine ⟨by norm_num, by omega⟩
  · rw [sheetCand_eq, natChars_pow10]
    decide

end GTM
